import Mathlib

/-!
# rds: register description model

A shallow embedding of the domain tree of `rds` (Device → Group → Register → Field), of
the helpers in `rds/common.hpp` and `rds/detail/rds.hpp` that its mutating operations
use, of the interchange values of `rds/value.hpp`, and of the functions of `detail.cpp`
that turn a document into a checked tree (`derive`, `to_field`, `to_register`,
`validate`).

Conventions of the embedding.

* `uint64_t` values are natural numbers below `2 ^ 64`; arithmetic that can leave the
  range is reduced `% 2 ^ 64` where the source computes it.
* A shift whose count reaches the width of its (promoted) left operand has no value in
  C++.  The embedding takes the value the compiled program produces there from a
  `Target`, so that every theorem quantified over the target holds whatever the
  compiler and the processor make of such a shift.
* A `std::string` is the list of its characters.  A `std::string_view` also records
  what follows it in its character array, because the source converts `name.data()`
  to a `std::string` in places, which reads up to the first NUL.
* A raw pointer is an `Option`: `none` is `nullptr`.
* A function that can throw returns an `Except Failure`; `Failure` also records an access
  that C++ leaves undefined and that produces no value, and the exhaustion of the depth
  bound that a recursive function of the embedding takes as its first argument.
* A `std::map<std::string, Value>` is the list of its entries in iteration order; a
  `ValueMap &` into a document is the list of keys that leads to the map.
* A `double` is its IEEE-754 bit pattern.
-/

namespace rds

/-! ## Machine words -/

/-- The number of values of a `uint64_t`. -/
abbrev two64 : Nat := 2 ^ 64

/-- What the compiled program computes for the expressions that C++ leaves undefined
(a shift count not below the width of the left operand, a signed product or a conversion
that leaves the range of its type), and the two library routines from outside the
repository: the one the value printer calls and the one the lexer of the native format
calls. -/
structure Target where
  /-- value of `1u << i` for `32 ≤ i` (an `unsigned int` shifted by its width or more) -/
  shl32 : Nat → Nat
  /-- value of `x << n` for a `uint64_t x` and `64 ≤ n` -/
  shl64 : Nat → Nat → Nat
  /-- value of `x >> n` for a `uint64_t x` and `64 ≤ n` -/
  shr64 : Nat → Nat → Nat
  /-- value of `a * b` on `int64_t` when the product is not an `int64_t` -/
  smul64 : Int → Int → Int
  /-- value of `static_cast<uint64_t>(f)` for a `double` (given by its bits) that is a NaN
  or not below `2 ^ 64` -/
  f64_to_u64 : Nat → Nat
  /-- the characters `d2s_buffered_n` of the ryu library writes for a `double` (given by
  its bits) -/
  d2s : Nat → List Char
  /-- the `double` (as its bits) that `s2d_n` of the ryu library reads from a text, `none`
  when it reports `INPUT_TOO_SHORT`, `INPUT_TOO_LONG` or `MALFORMED_INPUT` -/
  s2d_n : List Char → Option Nat
  /-- value of `static_cast<int64_t>(f)` for a `double` (given by its bits) that is a NaN
  or of a magnitude of `2 ^ 63` or more -/
  f64_to_i64 : Nat → Int

/-- The target whose shift instructions take the count modulo the operand width, as
the x86-64 and AArch64 variable shifts do, whose signed product wraps, and whose
conversion of an unrepresentable `double` gives 0 (`-2 ^ 63` for `int64_t`).  The ryu routines are not part of this
development: `d2s` of this target writes nothing and `s2d_n` reads nothing, and no
statement about this target prints or reads a `double`. -/
def Target.wrapping : Target where
  shl32 := fun i => 2 ^ (i % 32)
  shl64 := fun x n => (x <<< (n % 64)) % two64
  shr64 := fun x n => x >>> (n % 64)
  smul64 := fun a b => (a * b + 2 ^ 63) % 2 ^ 64 - 2 ^ 63
  f64_to_u64 := fun _ => 0
  d2s := fun _ => []
  s2d_n := fun _ => none
  f64_to_i64 := fun _ => -(2 ^ 63)

/-- The expression `1u << i` converted to `uint64_t`. -/
def shl1u (t : Target) (i : Nat) : Nat :=
  if i < 32 then 2 ^ i else t.shl32 i % two64

/-- The expression `x << n` on `uint64_t`. -/
def shl (t : Target) (x n : Nat) : Nat :=
  if n < 64 then (x <<< n) % two64 else t.shl64 x n % two64

/-- The expression `x >> n` on `uint64_t`. -/
def shr (t : Target) (x n : Nat) : Nat :=
  if n < 64 then x >>> n else t.shr64 x n % two64

/-- The expression `~x` on `uint64_t`. -/
def bnot (x : Nat) : Nat := (two64 - 1) ^^^ (x % two64)

/-- The expression `a - b` on `uint64_t`. -/
def usub (a b : Nat) : Nat := (a + two64 - b % two64) % two64

/-- The expression `a + b` on `uint64_t`. -/
def uadd (a b : Nat) : Nat := (a + b) % two64

/-- The expression `a * b` on `uint64_t`. -/
def umul (a b : Nat) : Nat := (a * b) % two64

/-! ## Strings -/

/-- A `std::string`: its characters. -/
abbrev Str := List Char

/-- The characters of a NUL-terminated character array: those before the first NUL. -/
def c_str (s : Str) : Str := s.takeWhile (fun c => c != Char.ofNat 0)

/-- A `std::string_view`: the `size()` characters it covers (`chars`) and the
characters that follow them in the underlying array up to its terminating NUL
(`rest`, not part of the view but read by whoever treats `data()` as a C string). -/
structure string_view where
  chars : Str
  rest : Str := []
  deriving DecidableEq, Repr

/-- The `std::string` built from the pointer `s.data()` alone (as in `str = s.data()`):
the C string that starts at the first character of the view. -/
def string_view.data (s : string_view) : Str := c_str (s.chars ++ s.rest)

/-- The view of a whole `std::string` (the implicit conversion). -/
def string_view.of_string (s : Str) : string_view := { chars := s }

/-- Embeds `detail::to_string(std::string_view)` of `rds/detail/rds.hpp`:
`if (s.empty()) return {}; return s.data();`. -/
def to_string (s : string_view) : Str := if s.chars.isEmpty then [] else s.data

/-! ## Containers -/

/-- The position of the iterator `std::find_if(v.begin(), v.end(), p)` returns
(`v.size()` stands for `v.end()`). -/
def find_if {α : Type} (p : α → Bool) (v : List α) : Nat := v.findIdx p

/-- Embeds `v.insert(v.begin() + k, x)` on a `std::vector`. -/
def vec_insert {α : Type} (v : List α) (k : Nat) (x : α) : List α :=
  v.take k ++ x :: v.drop k

/-! ## `rds/common.hpp` -/

/-- Embeds `enum class Access`. -/
inductive Access where
  | read_only | write_only | read_write | write_once | read_write_once
  deriving DecidableEq, Repr, Inhabited

/-- Embeds `enum class Protection`. -/
inductive Protection where
  | non_secure | secure | privileged
  deriving DecidableEq, Repr, Inhabited

/-- Embeds `enum class WriteType`. -/
inductive WriteType where
  | modify | one_to_clear | one_to_set | one_to_toggle | zero_to_clear | zero_to_set
  | zero_to_toggle | clear | set
  deriving DecidableEq, Repr, Inhabited

/-- Embeds `enum class ReadType`. -/
inductive ReadType where
  | none | clear | set | modify | modify_external
  deriving DecidableEq, Repr, Inhabited

/-- Embeds `enum class Endian`. -/
inductive Endian where
  | little | big
  deriving DecidableEq, Repr, Inhabited

/-- Embeds `class WriteContraints`: the active alternative of its variant. -/
inductive WriteContraints where
  | range (minimum maximum : Nat)
  | use_enumerated_values
  | write_as_read
  deriving DecidableEq, Repr

instance : Inhabited WriteContraints := ⟨.range 0 (two64 - 1)⟩

/-- A `double`, by its IEEE-754 bit pattern. -/
abbrev Double := Nat

/-- Embeds `struct EnumeratedValue`. -/
structure EnumeratedValue where
  name : Str := []
  description : Str := []
  value : Nat := 0
  deriving DecidableEq, Repr

/-- Embeds `detail::make_mask(msb, lsb)`: both arguments are clamped to 63, then the loop
`for (auto i = lsb; i <= msb; ++i) r |= (1u << i);` runs. -/
def make_mask (t : Target) (msb lsb : Nat) : Nat :=
  let msb := if msb > 63 then 63 else msb
  let lsb := if lsb > 63 then 63 else lsb
  (List.range' lsb (msb + 1 - lsb)).foldl (fun r i => r ||| shl1u t i) 0

/-! ## `rds/value.hpp` -/

/-- Embeds `class Value`, a `std::variant` of a map, a list, a string, an `int64_t`, a
`uint64_t`, a `double` and a `bool`.  A `std::map<std::string, Value>` is the list of its
entries in iteration order (ascending keys, no key twice). -/
inductive Value where
  | map (m : List (Str × Value))
  | list (l : List Value)
  | string (s : Str)
  | integer (i : Int)
  | unsigned_integer (u : Nat)
  | floating_point (d : Double)
  | boolean (b : Bool)
  deriving Repr, Inhabited

/-- Embeds `using ValueMap = std::map<std::string, Value>`. -/
abbrev ValueMap := List (Str × Value)

/-- Embeds `using ValueList = std::vector<Value>`. -/
abbrev ValueList := List Value

mutual
/-- Equality test of two values (`operator==` of the variant). -/
def Value.beq : Value → Value → Bool
  | .map a, .map b => ValueMap.beq a b
  | .list a, .list b => ValueList.beq a b
  | .string a, .string b => a == b
  | .integer a, .integer b => a == b
  | .unsigned_integer a, .unsigned_integer b => a == b
  | .floating_point a, .floating_point b => a == b
  | .boolean a, .boolean b => a == b
  | _, _ => false
/-- Equality test of two maps, entry by entry. -/
def ValueMap.beq : ValueMap → ValueMap → Bool
  | [], [] => true
  | (k, v) :: a, (k2, v2) :: b => k == k2 && Value.beq v v2 && ValueMap.beq a b
  | _, _ => false
/-- Equality test of two lists, element by element. -/
def ValueList.beq : ValueList → ValueList → Bool
  | [], [] => true
  | v :: a, v2 :: b => Value.beq v v2 && ValueList.beq a b
  | _, _ => false
end

instance : DecidableEq Value := fun a b =>
  decidable_of_iff (Value.beq a b = true) (by
    revert b
    refine Value.rec
      (motive_1 := fun a => ∀ b, Value.beq a b = true ↔ a = b)
      (motive_2 := fun m => ∀ m2, ValueMap.beq m m2 = true ↔ m = m2)
      (motive_3 := fun l => ∀ l2, ValueList.beq l l2 = true ↔ l = l2)
      (motive_4 := fun p => ∀ v2, Value.beq p.2 v2 = true ↔ p.2 = v2)
      ?_ ?_ ?_ ?_ ?_ ?_ ?_ ?_ ?_ ?_ ?_ ?_ a
    · intro m ih b; cases b <;> simp [Value.beq, ih]
    · intro m ih b; cases b <;> simp [Value.beq, ih]
    · intro m b; cases b <;> simp [Value.beq]
    · intro m b; cases b <;> simp [Value.beq]
    · intro m b; cases b <;> simp [Value.beq]
    · intro m b; cases b <;> simp [Value.beq]
    · intro m b; cases b <;> simp [Value.beq]
    · intro m2; cases m2 <;> simp [ValueMap.beq]
    · intro hd tl ih1 ih2 m2
      cases m2 with
      | nil => simp [ValueMap.beq]
      | cons p q =>
        obtain ⟨k, v⟩ := hd
        obtain ⟨k2, v2⟩ := p
        simp only [ValueMap.beq, Bool.and_eq_true, beq_iff_eq, ih2, List.cons.injEq,
          Prod.mk.injEq]
        rw [ih1 v2]
    · intro l2; cases l2 <;> simp [ValueList.beq]
    · intro hd tl ih1 ih2 l2
      cases l2 with
      | nil => simp [ValueList.beq]
      | cons p q => simp [ValueList.beq, ih1, ih2]
    · intro k v ih v2; exact ih v2)

/-- Embeds `Value::is_map()`. -/
def Value.is_map : Value → Bool
  | .map _ => true
  | _ => false

/-- Embeds `Value::is_string()`. -/
def Value.is_string : Value → Bool
  | .string _ => true
  | _ => false

/-- The order of `std::less<std::string>`: lexicographic on the character codes. -/
def string_less : Str → Str → Bool
  | [], [] => false
  | [], _ :: _ => true
  | _ :: _, [] => false
  | a :: as, b :: bs =>
    if a.toNat < b.toNat then true
    else if b.toNat < a.toNat then false
    else string_less as bs

/-- Embeds `std::map::find(key)`: the mapped value, `none` for `end()`.  Also stands for
`std::map::at(key)`, which throws `std::out_of_range` where this gives `none`. -/
def ValueMap.find (m : ValueMap) (key : Str) : Option Value :=
  (List.find? (fun e => decide (e.1 = key)) m).map Prod.snd

/-- Embeds `std::map::contains(key)`. -/
def ValueMap.contains (m : ValueMap) (key : Str) : Bool := (ValueMap.find m key).isSome

/-- Embeds `std::map::insert` of the pair `(key, value)`: nothing happens when the key is present,
otherwise the entry is placed before the first entry with a larger key. -/
def ValueMap.insert (m : ValueMap) (key : Str) (value : Value) : ValueMap :=
  if ValueMap.contains m key then m
  else vec_insert m (find_if (fun e => string_less key e.1) m) (key, value)

/-- Embeds `std::map::erase(key)`. -/
def ValueMap.erase (m : ValueMap) (key : Str) : ValueMap :=
  List.filter (fun e => !decide (e.1 = key)) m

/-- Embeds `std::map::insert_or_assign(key, value)`. -/
def ValueMap.insert_or_assign (m : ValueMap) (key : Str) (value : Value) : ValueMap :=
  if ValueMap.contains m key then
    List.map (fun e => if e.1 = key then (key, value) else e) m
  else ValueMap.insert m key value

/-- How a call ends when it does not return a value. -/
inductive Failure where
  /-- `throw std::runtime_error(...)`; `what` is the text the message starts with, up to
  the first name or number that is spliced in -/
  | runtime_error (what : String)
  /-- `std::map::at` on a key that is absent (`std::out_of_range`) -/
  | out_of_range
  /-- `Value::as_map()` on a value of another type (failed `assert`,
  `std::bad_variant_access` without it), or `std::get` for an alternative that a
  `std::variant` does not hold -/
  | bad_variant_access
  /-- an access the language leaves undefined, such as `back()` of an empty vector -/
  | undefined
  /-- the recursion budget of the embedding is used up (not an outcome of the source) -/
  | out_of_fuel
  deriving DecidableEq, Repr

deriving instance DecidableEq for Except

/-! ## The domain tree -/

/-- A non-null `Device*` held by a group: the address of the device and the member
that is read through it (`register_width`, an `int64_t`). -/
structure DevicePtr where
  addr : Nat
  register_width : Int
  deriving DecidableEq, Repr

/-- A non-null `Group*` held by a register: the address of the group and the member
that is read through it (`device`). -/
structure GroupPtr where
  addr : Nat
  device : Option DevicePtr
  deriving DecidableEq, Repr

/-- Embeds `struct Field`. `reg` is the address of the owning register. -/
structure Field where
  reg : Option Nat := none
  name : Str := []
  display_name : Str := []
  description : Str := []
  backup : Str := []
  unit : Str := []
  zero_code_value : Double := 0
  step : Double := 0x3FF0000000000000
  initial : Nat := 0
  value : Nat := 0
  msb : Nat := 0
  lsb : Nat := 0
  access : Access := default
  protection : Protection := default
  write_type : WriteType := default
  read_type : ReadType := default
  contraints : WriteContraints := default
  is_signed : Bool := false
  values : List EnumeratedValue := []
  extra_data : ValueMap := []
  deriving DecidableEq, Repr

/-- Embeds `struct Register`. -/
structure Register where
  group : Option GroupPtr := none
  name : Str := []
  display_name : Str := []
  description : Str := []
  backup : Str := []
  unit : Str := []
  zero_code_value : Double := 0
  step : Double := 0x3FF0000000000000
  initial : Nat := 0
  value : Nat := 0
  addr : Nat := 0
  size : Nat := 1
  zeros_mask : Nat := 0
  ones_mask : Nat := 0
  x_mask : Nat := 0
  access : Access := default
  protection : Protection := default
  write_type : WriteType := default
  read_type : ReadType := default
  contraints : WriteContraints := default
  is_signed : Bool := false
  values : List EnumeratedValue := []
  fields : List Field := []
  extra_data : ValueMap := []
  deriving DecidableEq, Repr

/-- Embeds `Register::num_bits()`: `size * (group ? group->device ? group->device->register_width
: 8 : 8)`, the signed width converted to `uint64_t`. -/
def Register.num_bits (r : Register) : Nat :=
  umul r.size
    (match r.group with
     | some g =>
       match g.device with
       | some d => (d.register_width % (two64 : Int)).toNat
       | none => 8
     | none => 8)

/-- The inner loop of `set_field_values` in `Register::set_value`:
`for (const auto &v : f->values) if (v.value == field_value) { f->value = field_value; continue; }`. -/
def set_field_values_inner (field_value : Nat) (f : Field) : Field :=
  f.values.foldl (fun f v => if v.value = field_value then { f with value := field_value } else f) f

/-- The lambda `set_field_values` of `Register::set_value`, run over the fields that
are still to be visited: the result of the lambda and the fields afterwards. -/
def set_field_values (t : Target) (val : Nat) : List Field → Bool × List Field
  | [] => (true, [])
  | f :: fs =>
    let mask := make_mask t f.msb f.lsb
    let field_value := shr t (val &&& mask) f.lsb
    if f.values.isEmpty then
      let rest := set_field_values t val fs
      (rest.1, { f with value := field_value } :: rest.2)
    else
      (false, set_field_values_inner field_value f :: fs)

/-- Embeds `Register::set_value(val)`: the returned flag and the register afterwards. -/
def Register.set_value (t : Target) (r : Register) (val : Nat) : Bool × Register :=
  if val &&& r.zeros_mask ≠ 0 then (false, r)
  else if val &&& r.ones_mask ≠ r.ones_mask then (false, r)
  else if val &&& make_mask t (usub r.num_bits 1) 0 ≠ val then (false, r)
  else if ¬ r.values.isEmpty then
    if r.values.any (fun v => v.value = val) then
      let res := set_field_values t val r.fields
      (res.1, { r with value := val, fields := res.2 })
    else (false, r)
  else
    let res := set_field_values t val r.fields
    (res.1, { r with value := val, fields := res.2 })

/-- The lambda `set_register_value` of `Field::set_value`, applied to the register the
field points to: `if (not reg) return true; reg->value = (reg->value & ~mask) | (val << lsb);`. -/
def Field.set_register_value (t : Target) (f : Field) (val : Nat) (reg : Register) : Register :=
  if f.reg.isNone then reg
  else { reg with value := (reg.value &&& bnot (make_mask t f.msb f.lsb)) ||| shl t val f.lsb }

/-- Embeds `Field::set_value(val)` on the field `f` whose `reg` points to `reg` (`reg` is not
read when `f.reg` is null): the returned flag, the field and the register afterwards. -/
def Field.set_value (t : Target) (f : Field) (reg : Register) (val : Nat) :
    Bool × Field × Register :=
  if val &&& bnot (shr t (make_mask t f.msb f.lsb) f.lsb) ≠ 0 then (false, f, reg)
  else if ¬ f.values.isEmpty then
    if f.values.any (fun v => v.value = val) then
      (true, { f with value := val }, f.set_register_value t val reg)
    else (false, f, reg)
  else (true, { f with value := val }, f.set_register_value t val reg)

/-! ### Constructors -/

/-- Embeds `Field::Field(std::string_view name, uint64_t msb, uint64_t lsb, Register *reg = nullptr)`. -/
def Field.ctor (name : string_view) (msb lsb : Nat) : Field :=
  { name := name.chars, display_name := name.chars, msb := msb, lsb := lsb }

/-- Embeds `Register::Register(std::string_view name, uint64_t addr, uint64_t size, Group *group = nullptr)`. -/
def Register.ctor (name : string_view) (addr size : Nat) : Register :=
  { name := name.chars, display_name := name.chars, addr := addr, size := size }

/-- Embeds `struct Group`. -/
structure Group where
  device : Option DevicePtr := none
  name : Str := []
  display_name : Str := []
  description : Str := []
  base_addr : Nat := 0
  size : Nat := 0
  defaults : ValueMap := []
  extra_data : ValueMap := []
  registers : List Register := []
  deriving DecidableEq, Repr

/-- Embeds `Group::Group(std::string_view name, uint64_t base_addr, uint64_t size, Device *device = nullptr)`. -/
def Group.ctor (name : string_view) (base_addr size : Nat) : Group :=
  { name := name.chars, base_addr := base_addr, size := size }

/-- Embeds `struct Device`. -/
structure Device where
  name : Str := []
  version : Int := 1
  license : Str := []
  description : Str := []
  register_width : Int := 8
  word_width : Nat := 0
  num_pages : Int := 0
  registers_per_page : Int := 0
  endian : Endian := Endian.little
  groups : List Group := []
  extra_data : ValueMap := []
  deriving DecidableEq, Repr

/-! ### Validity checks of `rds/detail/rds.hpp` -/

/-- Embeds `detail::is_valid_field(num_bits, fields, f)`. -/
def is_valid_field (num_bits : Nat) (fields : List Field) (f : Field) : Bool :=
  if f.name.isEmpty ∨ f.msb < f.lsb ∨ f.msb ≥ num_bits then false
  else
    find_if (fun f_ : Field =>
        decide (f_.name = f.name ∨ (f.lsb ≥ f_.lsb ∧ f.lsb ≤ f_.msb) ∨
          (f.msb ≥ f_.lsb ∧ f.msb ≤ f_.msb) ∨ (f.lsb ≤ f_.lsb ∧ f.msb ≥ f_.msb))) fields
      = fields.length

/-- Embeds `detail::is_valid_register(registers, reg)`. -/
def is_valid_register (registers : List Register) (reg : Register) : Bool :=
  if reg.name.isEmpty ∨ reg.size = 0 then false
  else
    find_if (fun r : Register =>
        decide (reg.name = r.name ∨
          (reg.addr ≤ r.addr ∧ uadd reg.addr reg.size > r.addr) ∨
          (reg.addr ≥ r.addr ∧ reg.addr < uadd r.addr r.size))) registers
      = registers.length

/-- Embeds `detail::is_valid_group(groups, group)`. -/
def is_valid_group (groups : List Group) (group : Group) : Bool :=
  if group.name.isEmpty ∨ group.size = 0 then false
  else
    find_if (fun g : Group =>
        decide (g.name = group.name ∨ g.base_addr = group.base_addr ∨
          (group.base_addr < g.base_addr ∧ uadd group.base_addr group.size > g.base_addr) ∨
          (group.base_addr > g.base_addr ∧ uadd g.base_addr g.size > group.base_addr))) groups
      = groups.length

/-- Embeds `detail::add_value(values, val, num_bits)`: the returned flag and `values` afterwards. -/
def detail.add_value (t : Target) (values : List EnumeratedValue) (val : EnumeratedValue)
    (num_bits : Nat) : Bool × List EnumeratedValue :=
  if val.name.isEmpty then (false, values)
  else if make_mask t (usub num_bits 1) 0 &&& val.value ≠ val.value then (false, values)
  else if find_if (fun v : EnumeratedValue =>
      decide (val.value = v.value ∨ val.name = v.name)) values ≠ values.length then
    (false, values)
  else
    (true, vec_insert values
      (find_if (fun v : EnumeratedValue => decide (val.value < v.value)) values) val)

/-- Embeds `detail::add_values(values, vals, num_bits)`: the returned flag and `values`
afterwards.  The first loop returns `false` at a candidate that does not fit the width or
has no name, the `find_if` looks for an entry of `values` that some candidate collides
with, and the last loop inserts the candidates one after the other. -/
def detail.add_values (t : Target) (values vals : List EnumeratedValue) (num_bits : Nat) :
    Bool × List EnumeratedValue :=
  if vals.any (fun val =>
      decide (make_mask t (usub num_bits 1) 0 &&& val.value ≠ val.value) || val.name.isEmpty) then
    (false, values)
  else if find_if (fun v : EnumeratedValue =>
      decide (find_if (fun val : EnumeratedValue =>
        decide (val.value = v.value ∨ val.name = v.name)) vals ≠ vals.length)) values
      ≠ values.length then
    (false, values)
  else
    (true, vals.foldl (fun values val =>
      vec_insert values
        (find_if (fun v : EnumeratedValue => decide (val.value < v.value)) values) val) values)

/-! ### `Register` -/

/-- Embeds `Register::has_field(name)`. -/
def Register.has_field (r : Register) (name : string_view) : Bool :=
  find_if (fun f : Field => decide (f.name = name.chars)) r.fields ≠ r.fields.length

/-- Embeds `Register::field(name)`: the position in `fields` of the field pointed to, `none`
for `nullptr`. -/
def Register.field (r : Register) (name : string_view) : Option Nat :=
  let it := find_if (fun f : Field => decide (f.name = name.chars)) r.fields
  if it = r.fields.length then none else some it

/-- Embeds `Register::add_field(std::string_view name, uint64_t msb, uint64_t lsb)` on the
register at address `this`: the position in `fields` of the field pointed to by the
result (`none` for `nullptr`) and the register afterwards. -/
def Register.add_field (this : Nat) (r : Register) (name : string_view) (msb lsb : Nat) :
    Option Nat × Register :=
  if ¬ is_valid_field r.num_bits r.fields (Field.ctor name msb lsb) then (none, r)
  else
    let it := find_if (fun f : Field => decide (lsb < f.lsb)) r.fields
    let field : Field := { reg := some this, name := name.data, msb := msb, lsb := lsb }
    (some it, { r with fields := vec_insert r.fields it field })

/-- Embeds `Register::add_value(val)`. -/
def Register.add_value (t : Target) (r : Register) (val : EnumeratedValue) : Bool × Register :=
  let res := detail.add_value t r.values val r.num_bits
  (res.1, { r with values := res.2 })

/-- Embeds `Register::add_values(vals)`. -/
def Register.add_values (t : Target) (r : Register) (vals : List EnumeratedValue) :
    Bool × Register :=
  let res := detail.add_values t r.values vals r.num_bits
  (res.1, { r with values := res.2 })

/-- Embeds `Register::reset()`: `set_value(initial);`, the flag is dropped. -/
def Register.reset (t : Target) (r : Register) : Register := (r.set_value t r.initial).2

/-! ### `Field` -/

/-- Embeds `Field::add_value(val)`. -/
def Field.add_value (t : Target) (f : Field) (val : EnumeratedValue) : Bool × Field :=
  let res := detail.add_value t f.values val (uadd (usub f.msb f.lsb) 1)
  (res.1, { f with values := res.2 })

/-- Embeds `Field::add_values(vals)`. -/
def Field.add_values (t : Target) (f : Field) (vals : List EnumeratedValue) : Bool × Field :=
  let res := detail.add_values t f.values vals (uadd (usub f.msb f.lsb) 1)
  (res.1, { f with values := res.2 })

/-- Embeds `Field::reset()`: `value = initial;`. -/
def Field.reset (f : Field) : Field := { f with value := f.initial }

/-! ### `Group` -/

/-- Embeds `Group::has_register(name)`. -/
def Group.has_register (g : Group) (name : string_view) : Bool :=
  find_if (fun r : Register => decide (r.name = name.chars)) g.registers ≠ g.registers.length

/-- Embeds `Group::reg(std::string_view name)`: the position in `registers` of the register
pointed to, `none` for `nullptr`. -/
def Group.reg (g : Group) (name : string_view) : Option Nat :=
  let it := find_if (fun r : Register => decide (r.name = name.chars)) g.registers
  if it = g.registers.length then none else some it

/-- Embeds `Group::add_reg(std::string_view name, uint64_t addr, uint64_t size)` on the group
at address `this`: the position in `registers` of the register pointed to by the result
(`none` for `nullptr`) and the group afterwards. -/
def Group.add_reg (this : Nat) (g : Group) (name : string_view) (addr size : Nat) :
    Option Nat × Group :=
  if ¬ is_valid_register g.registers
      (Register.ctor (string_view.of_string (to_string name)) addr size) then (none, g)
  else
    let it := find_if (fun r : Register => decide (addr < r.addr)) g.registers
    let reg : Register :=
      { group := some { addr := this, device := g.device }, name := name.data,
        addr := addr, size := size }
    (some it, { g with registers := vec_insert g.registers it reg })

/-! ### `Device` -/

/-- Embeds `Device::has_group(name)`. -/
def Device.has_group (d : Device) (name : string_view) : Bool :=
  find_if (fun g : Group => decide (g.name = name.chars)) d.groups ≠ d.groups.length

/-- Embeds `Device::group(std::string_view name)`: the position in `groups` of the group
pointed to, `none` for `nullptr`. -/
def Device.group (d : Device) (name : string_view) : Option Nat :=
  let it := find_if (fun g : Group => decide (g.name = name.chars)) d.groups
  if it = d.groups.length then none else some it

/-- Embeds `Device::add_group(std::string_view name, uint64_t base_addr, uint64_t size)` on the
device at address `this`: the position in `groups` of the group pointed to by the
result (`none` for `nullptr`) and the device afterwards. -/
def Device.add_group (this : Nat) (d : Device) (name : string_view) (base_addr size : Nat) :
    Option Nat × Device :=
  if ¬ is_valid_group d.groups
      (Group.ctor (string_view.of_string (to_string name)) base_addr size) then (none, d)
  else
    let it := find_if (fun g : Group => decide (base_addr < g.base_addr)) d.groups
    let group : Group :=
      { device := some { addr := this, register_width := d.register_width },
        name := name.chars, base_addr := base_addr, size := size }
    (some it, { d with groups := vec_insert d.groups it group })

/-- Embeds `Device::add_group(std::unique_ptr<Group> &&group)` on the device at address `this`
(`none` is an empty `unique_ptr`): the position in `groups` of the group pointed to by
the result and the device afterwards.  The source inserts `std::make_unique<Group>()`. -/
def Device.add_group_owned (this : Nat) (d : Device) (group : Option Group) :
    Option Nat × Device :=
  match group with
  | none => (none, d)
  | some group =>
    if ¬ is_valid_group d.groups group then (none, d)
    else
      let it := find_if (fun g : Group => decide (group.base_addr < g.base_addr)) d.groups
      let g : Group := { device := some { addr := this, register_width := d.register_width } }
      (some it, { d with groups := vec_insert d.groups it g })

/-! ## Sample inputs -/

/-- A detached register of 8 units of 8 bits: 64 bits wide, no masks, fields or
enumerated values. -/
def wide_register : Register := { size := 8 }

/-- A one-bit field at bit 0 of the register at address 0, with the enumerated value
`on = 1`. -/
def enum_field : Field :=
  { reg := some 0, name := "f0".toList, msb := 0, lsb := 0,
    values := [{ name := "on".toList, value := 1 }] }

/-- A detached 8-bit register whose only field is `enum_field`. -/
def enum_register : Register := { fields := [enum_field] }

/-- A field on bits 32..40 of the register at address 0. -/
def high_field : Field := { reg := some 0, name := "hi".toList, msb := 40, lsb := 32 }

/-- The view of the first three characters of the string `abcdef`. -/
def abc_of_abcdef : string_view := { chars := "abc".toList, rest := "def".toList }

/-- The view of the whole string `s`. -/
def whole (s : String) : string_view := { chars := s.toList }

/-- The 64-bit register at address 0 with value 1 after `add_field("hi", 40, 32)`: its
only field is `high_field`. -/
def high_register : Register :=
  (Register.add_field 0 { wide_register with value := 1 } (whole "hi") 40 32).2

/-- The empty group after `add_reg("a", 2^64 - 1, 1)`. -/
def top_group : Group := (Group.add_reg 0 {} (whole "a") (2 ^ 64 - 1) 1).2

/-- The empty group after `add_reg("a", 2^64 - 3, 2)`: the register ends below `2^64`. -/
def group_near_top : Group := (Group.add_reg 0 {} (whole "a") (2 ^ 64 - 3) 2).2

/-- The empty group after `add_reg("a", 2^64 - 4, 4)`: the register ends at `2^64`. -/
def group_to_top : Group := (Group.add_reg 0 {} (whole "a") (2 ^ 64 - 4) 4).2

/-- The empty group after `add_reg("abc", 0, 1)`. -/
def group_abc : Group := (Group.add_reg 0 {} (whole "abc") 0 1).2

/-- The empty group after `add_reg("name1", 1, 1)`. -/
def sample_group : Group := (Group.add_reg 0 {} (whole "name1") 1 1).2

/-- The empty device after `add_group("n", 10, 1)`. -/
def device_n : Device := (Device.add_group 0 {} (whole "n") 10 1).2

/-- The empty device after `add_group("t", 2^64 - 4, 4)`: the group ends at `2^64`. -/
def device_top : Device := (Device.add_group 0 {} (whole "t") (2 ^ 64 - 4) 4).2

/-- A device whose only group has size 0 (the value a `Group` is constructed with). -/
def device_z : Device := { groups := [{ name := "z".toList, base_addr := 5, size := 0 }] }

/-- The empty device after `add_group("abc", 0, 1)`. -/
def device_abc : Device := (Device.add_group 0 {} (whole "abc") 0 1).2

/-- A group that owns one register, as passed to `add_group(std::unique_ptr<Group>&&)`. -/
def owned_group : Group :=
  { name := "g".toList, base_addr := 4, size := 2, registers := [{ name := "r".toList }] }

/-- A detached 8-bit register that holds a field with `lsb > msb`. -/
def malformed_register : Register := { fields := [{ name := "x".toList, msb := 2, lsb := 5 }] }

/-- The detached 8-bit register after `add_field("name1", 1, 1)`. -/
def sample_register : Register := (Register.add_field 0 {} (whole "name1") 1 1).2

/-- The register of the test cases `Register::set_value` and `Field::set_value`: one unit
of 8 bits with the one-bit fields `f0`, `f1`, `f2` on bits 0, 1, 2. -/
def test_register : Register :=
  (Register.add_field 0
    (Register.add_field 0
      (Register.add_field 0 {} (whole "f0") 0 0).2 (whole "f1") 1 1).2 (whole "f2") 2 2).2

/-- The group of the test case `Group::add/get_register` after `add_reg("name1", 1, 1)`
and `add_reg("name2", 3, 1)`. -/
def test_group : Group :=
  (Group.add_reg 0 (Group.add_reg 0 {} (whole "name1") 1 1).2 (whole "name2") 3 1).2

/-- The group of the section `overlap with existing register` after
`add_reg("name1", 1, 1)` and `add_reg("name2", 3, 2)`. -/
def test_group_overlap : Group :=
  (Group.add_reg 0 (Group.add_reg 0 {} (whole "name1") 1 1).2 (whole "name2") 3 2).2

/-- The device of the section `add invalid group` after `add_group("n", 5, 1)`. -/
def test_device : Device := (Device.add_group 0 {} (whole "n") 5 1).2

/-- Two candidates with different names and the same value 1. -/
def batch_same_value : List EnumeratedValue :=
  [{ name := "a".toList, value := 1 }, { name := "b".toList, value := 1 }]

/-- Two candidates with the same name and different values. -/
def batch_same_name : List EnumeratedValue :=
  [{ name := "a".toList, value := 1 }, { name := "a".toList, value := 2 }]

/-- Embeds `Group::reset()`: `for (auto &reg : registers) reg->reset();`. -/
def Group.reset (t : Target) (g : Group) : Group :=
  { g with registers := g.registers.map (Register.reset t) }

/-- Embeds `Device::reset()`: `for (auto &group : groups) group->reset();`. -/
def Device.reset (t : Target) (d : Device) : Device :=
  { d with groups := d.groups.map (Group.reset t) }

/-- The enumerated values of both registers of `DEFINE_DEVICE`. -/
def define_values : List EnumeratedValue :=
  [{ name := "rv1".toList, description := "desc".toList, value := 1 },
   { name := "rv2".toList, description := "desc".toList, value := 3 }]

/-- The register `r1` of `DEFINE_DEVICE`, in the group at address 1 of the 32-bit device at
address 0. -/
def define_r1 : Register :=
  { group := some { addr := 1, device := some { addr := 0, register_width := 32 } },
    name := "r1".toList, description := "description".toList, backup := "backup".toList,
    unit := "unit".toList, zero_code_value := 0x4014000000000000,
    step := 0x4000000000000000, initial := 1, value := 3, addr := 0, size := 1,
    zeros_mask := 0x100, ones_mask := 1, x_mask := 0x200, is_signed := true,
    values := define_values }

/-- The register `r2` of `DEFINE_DEVICE`, in the group at address 2. -/
def define_r2 : Register :=
  { group := some { addr := 2, device := some { addr := 0, register_width := 32 } },
    name := "r2".toList, description := "description2".toList, backup := "backup2".toList,
    unit := "unit2".toList, zero_code_value := 0x4010000000000000,
    step := 0x4008000000000000, initial := 3, value := 1, addr := 0, size := 1,
    zeros_mask := 0x100, ones_mask := 1, x_mask := 0x200, is_signed := true,
    values := define_values }

/-- The group `g1` of `DEFINE_DEVICE`. -/
def define_g1 : Group :=
  { device := some { addr := 0, register_width := 32 }, name := "g1".toList,
    base_addr := 0, size := 1, registers := [define_r1] }

/-- The group `g2` of `DEFINE_DEVICE`. -/
def define_g2 : Group :=
  { device := some { addr := 0, register_width := 32 }, name := "g2".toList,
    base_addr := 1, size := 2, registers := [define_r2] }

/-- The device that `DEFINE_DEVICE(dev)` of `tests/device.cpp` builds (at address 0, its
groups at addresses 1 and 2): a 32-bit device with the groups `g1` and `g2`, each with one
register whose members are assigned directly and whose enumerated values are 1 and 3. -/
def define_device : Device :=
  { name := "dev".toList, version := 2, register_width := 32, num_pages := 2,
    registers_per_page := 5,
    extra_data := [("v1".toList, Value.floating_point 0x3FF0000000000000)],
    groups := [define_g1, define_g2] }

/-- Where `std::make_unique` places the objects of a copied tree, and what the storage of a
new field holds before its constructor runs (the source leaves some members of a copied
field uninitialised). -/
structure Allocator where
  /-- address of the copy of group `i` -/
  group : Nat → Nat
  /-- address of the copy of register `j` of group `i` -/
  register : Nat → Nat → Nat
  /-- storage for the copy of field `k` of register `j` of group `i` -/
  field : Nat → Nat → Nat → Field

/-- Embeds `Field::Field(const Field &other)` on the storage `storage`: the members of the
initializer list are copied, `reg` gets its default member initializer, `contraints` is
default-constructed, and `protection`, `write_type` and `read_type` (no initializer at all)
keep what the storage holds. -/
def Field.copy_ctor (storage other : Field) : Field :=
  { storage with
    reg := none, name := other.name, display_name := other.display_name,
    description := other.description, backup := other.backup, unit := other.unit,
    zero_code_value := other.zero_code_value, step := other.step, initial := other.initial,
    value := other.value, msb := other.msb, lsb := other.lsb, access := other.access,
    contraints := default, is_signed := other.is_signed, values := other.values,
    extra_data := other.extra_data }

/-- Embeds `Register::Register(const Register &other)` for the register at address `this`:
the members of the initializer list are copied, the others (`group`, `protection`,
`write_type`, `read_type`, `contraints`) get their default member initializers, and every
field is copied and pointed to the new register. -/
def Register.copy_ctor (this : Nat) (storage : Nat → Field) (other : Register) : Register :=
  { name := other.name, display_name := other.display_name,
    description := other.description, backup := other.backup, unit := other.unit,
    zero_code_value := other.zero_code_value, step := other.step, initial := other.initial,
    value := other.value, addr := other.addr, size := other.size,
    zeros_mask := other.zeros_mask, ones_mask := other.ones_mask, x_mask := other.x_mask,
    access := other.access, is_signed := other.is_signed, values := other.values,
    extra_data := other.extra_data,
    fields := other.fields.mapIdx (fun k f =>
      { Field.copy_ctor (storage k) f with reg := some this }) }

/-- Embeds `Group::Group(const Group &other)` for the group at address `this`: `name`,
`base_addr`, `size` and `defaults` are copied, the other members get their default
member initializers, and every register is copied and pointed to the new group. -/
def Group.copy_ctor (this : Nat) (register : Nat → Nat) (storage : Nat → Nat → Field)
    (other : Group) : Group :=
  { name := other.name, base_addr := other.base_addr, size := other.size,
    defaults := other.defaults,
    registers := other.registers.mapIdx (fun j r =>
      { Register.copy_ctor (register j) (storage j) r with
        group := some { addr := this, device := none } }) }

/-- The statement `g->device = this;` as the registers of `g` see it through their `group`
pointer. -/
def Group.set_device (g : Group) (device : DevicePtr) : Group :=
  { g with
    device := some device
    registers := g.registers.map (fun r =>
      { r with group := r.group.map (fun p => { p with device := some device }) }) }

/-- The groups that both `Device::Device(const Device &other)` and the copy assignment
build for the device at address `this`: a copy of every group of `other`, pointed to the
device, whose `register_width` is the one of `other` when the call returns. -/
def Device.copy_groups (this : Nat) (a : Allocator) (other : Device) : List Group :=
  other.groups.mapIdx (fun i g =>
    (Group.copy_ctor (a.group i) (a.register i) (a.field i) g).set_device
      { addr := this, register_width := other.register_width })

/-- Embeds `Device::Device(const Device &other)` for the device at address `this`:
`word_width` has no initializer and keeps what the storage holds (`word_width`), `license`
and `description` stay empty. -/
def Device.copy_ctor (this : Nat) (a : Allocator) (word_width : Nat) (other : Device) : Device :=
  { name := other.name, version := other.version, register_width := other.register_width,
    word_width := word_width, num_pages := other.num_pages,
    registers_per_page := other.registers_per_page, endian := other.endian,
    extra_data := other.extra_data, groups := Device.copy_groups this a other }

/-- Embeds `Device &Device::operator=(const Device &other)` on the device `d` at address
`this`: `license`, `description` and `word_width` of `d` are not assigned. -/
def Device.copy_assign (this : Nat) (a : Allocator) (d other : Device) : Device :=
  { d with
    name := other.name, version := other.version, register_width := other.register_width,
    num_pages := other.num_pages, registers_per_page := other.registers_per_page,
    endian := other.endian, extra_data := other.extra_data,
    groups := Device.copy_groups this a other }

/-- An allocator that numbers the copies and hands out zeroed storage. -/
def sample_allocator : Allocator :=
  { group := fun i => 100 + i, register := fun i j => 200 + 10 * i + j, field := fun _ _ _ => {} }

/-- The device of `DEFINE_DEVICE` after the assignments `display_name = "Group 1"` and
`description = "first"` on its group `g1` and `protection = secure`,
`write_type = clear`, `read_type = set` on the register `r1` of that group. -/
def described_device : Device :=
  { define_device with
    groups :=
      [{ define_g1 with
         display_name := "Group 1".toList, description := "first".toList,
         registers :=
           [{ define_r1 with
              protection := Protection.secure, write_type := WriteType.clear,
              read_type := ReadType.set }] },
       define_g2] }

/-! ### `validate` of `detail.cpp` -/

/-- The expression `a * b` on `int64_t`. -/
def smul (t : Target) (a b : Int) : Int :=
  if -(2 : Int) ^ 63 ≤ a * b ∧ a * b < 2 ^ 63 then a * b
  else (t.smul64 a b + 2 ^ 63) % 2 ^ 64 - 2 ^ 63

/-- The conversion of an `int64_t` to `uint64_t`. -/
def to_u64 (i : Int) : Nat := (i % (two64 : Int)).toNat

/-- The expression `d->register_width * d->registers_per_page * d->num_pages` of
`validate`, converted to `uint64_t` as both of its uses do. -/
def Device.capacity (t : Target) (d : Device) : Nat :=
  to_u64 (smul t (smul t d.register_width d.registers_per_page) d.num_pages)

/-- A `for` loop over `l` whose body `f` may throw. -/
def for_each {α : Type} (f : α → Except Failure Unit) : List α → Except Failure Unit
  | [] => .ok ()
  | x :: xs =>
    match f x with
    | .ok _ => for_each f xs
    | .error e => .error e

/-- The loop of `validate` over the groups when the device is not a single group of size
0; `prev` is the group visited before (`none` while `first` is true). -/
def validate_group_ranges : Option Group → List Group → Except Failure Unit
  | _, [] => .ok ()
  | prev, group :: rest =>
    if group.size = 0 then
      .error (.runtime_error "Invalid group size value of 0 in group '")
    else
      match prev with
      | some prev_group =>
        if uadd prev_group.base_addr prev_group.size > group.base_addr then
          .error (.runtime_error "group ranges overlap for group '")
        else validate_group_ranges (some group) rest
      | none => validate_group_ranges (some group) rest

/-- The loop of `validate` over the fields of one register; `field_mask` is the union of
the masks of the fields visited before. -/
def validate_fields (t : Target) (size_mask reg_mask : Nat) :
    Nat → List Field → Except Failure Unit
  | _, [] => .ok ()
  | field_mask, field :: rest =>
    let mask := make_mask t field.msb field.lsb
    if field_mask &&& mask ≠ 0 then
      .error (.runtime_error "field ")
    else if field_mask &&& bnot size_mask ≠ 0 then
      .error (.runtime_error "field position outside valid range in field '")
    else if field_mask &&& reg_mask ≠ 0 then
      .error (.runtime_error "overlap with the mask defined by x_mask, zeros_mask, and ones_mask in field'")
    else validate_fields t size_mask reg_mask (field_mask ||| mask) rest

/-- The body of the loop of `validate` over the registers of a group. -/
def validate_register (t : Target) (reg : Register) : Except Failure Unit :=
  let size_mask := make_mask t (usub reg.num_bits 1) 0
  if reg.x_mask &&& reg.ones_mask &&& reg.ones_mask ≠ 0 then
    .error (.runtime_error "overlapping x_mask, ones_mask and zeros_mask in register '")
  else
    let reg_mask := reg.x_mask ||| reg.ones_mask ||| reg.zeros_mask
    if reg_mask &&& bnot size_mask ≠ 0 then
      .error (.runtime_error "one of x_mask, ones_mask and zeros_mask in register '")
    else validate_fields t size_mask reg_mask 0 reg.fields

/-- The first part of `validate` after the checks of the device's own members: a single
group of size 0 gets the size `capacity - base_addr`, any other list of groups is checked
by `validate_group_ranges`.  The result is the list of groups afterwards. -/
def validate_sizes (t : Target) (d : Device) : Except Failure (List Group) :=
  match d.groups with
  | [group] =>
    if group.size = 0 then
      .ok [{ group with size := usub (d.capacity t) group.base_addr }]
    else
      match validate_group_ranges none [group] with
      | .ok _ => .ok [group]
      | .error e => .error e
  | groups =>
    match validate_group_ranges none groups with
    | .ok _ => .ok groups
    | .error e => .error e

/-- The last check of `validate`, on `d->groups.back()`; reading `back()` of an empty
vector is undefined. -/
def validate_back (t : Target) (d : Device) (groups : List Group) : Except Failure Unit :=
  match groups.getLast? with
  | none => .error .undefined
  | some back =>
    if uadd back.size back.base_addr > usub (d.capacity t) back.base_addr then
      .error (.runtime_error "group is too big to fit into memory: '")
    else .ok ()

/-- Embeds `detail::validate(std::unique_ptr<Device> &&d)`: the device it returns, or how
the call ends otherwise. -/
def validate (t : Target) (d : Device) : Except Failure Device :=
  if d.version ≠ 1 then .error (.runtime_error "invalid version, expected 1, got ")
  else if d.register_width > 64 then
    .error (.runtime_error "register_width is too large, must be 64 or smaller")
  else if d.register_width < 1 then
    .error (.runtime_error "register_width is too small, must be 1 or larger")
  else if d.registers_per_page < 1 then
    .error (.runtime_error "registers_per_page is too small, must be 1 or larger")
  else if d.num_pages < 1 then
    .error (.runtime_error "num_pages is too small, must be 1 or larger")
  else
    match validate_sizes t d with
    | .error e => .error e
    | .ok groups =>
      match for_each (fun group : Group => for_each (validate_register t) group.registers)
          groups with
      | .error e => .error e
      | .ok _ =>
        match validate_back t d groups with
        | .error e => .error e
        | .ok _ => .ok { d with groups := groups }

/-- A device of version 1 with 8-bit registers, 16 registers per page and 2 pages (the
product is 256) that holds `groups`. -/
def paged_device (groups : List Group) : Device :=
  { name := "dev".toList, version := 1, register_width := 8, registers_per_page := 16,
    num_pages := 2, groups := groups }

/-- The `group` pointer of a register in the group at address 1 of `paged_device`. -/
def paged_group_ptr : GroupPtr :=
  { addr := 1, device := some { addr := 0, register_width := 8 } }

/-- A group at `base_addr` with `size` and `registers` in `paged_device`. -/
def paged_group (base_addr size : Nat) (registers : List Register) : Group :=
  { device := some { addr := 0, register_width := 8 }, name := "g".toList,
    base_addr := base_addr, size := size, registers := registers }

/-- A one-byte register at address 0 whose `zeros_mask` shares bit 0 with its `ones_mask`
and bit 1 with its `x_mask`. -/
def clashing_register : Register :=
  { group := some paged_group_ptr, name := "r".toList, addr := 0, size := 1,
    zeros_mask := 3, ones_mask := 1, x_mask := 2 }

/-- A one-byte register whose only field lies on bit 9. -/
def register_field_above : Register :=
  { group := some paged_group_ptr, name := "r".toList, addr := 0, size := 1,
    fields := [{ reg := some 2, name := "f".toList, msb := 9, lsb := 9 }] }

/-- A one-byte register with `x_mask = 1` whose only field lies on bit 0. -/
def register_field_on_mask : Register :=
  { group := some paged_group_ptr, name := "r".toList, addr := 0, size := 1, x_mask := 1,
    fields := [{ reg := some 2, name := "f".toList, msb := 0, lsb := 0 }] }

/-- A one-byte register whose second and last field lies on bits 8..12. -/
def register_last_field_above : Register :=
  { group := some paged_group_ptr, name := "r".toList, addr := 0, size := 1,
    fields := [{ reg := some 2, name := "f0".toList, msb := 0, lsb := 0 },
               { reg := some 2, name := "f1".toList, msb := 12, lsb := 8 }] }

/-- The device `paged_device` without groups and with `num_pages = 0`. -/
def device_no_pages : Device := { paged_device [] with num_pages := 0 }

/-! ### `derive` of `detail.cpp` -/

/-- The key `"derived_from"`. -/
def derived_from_key : Str := "derived_from".toList

/-- The loop of `split_at`: `list` and `elem` are the variables of the same names, the
first argument is what is left of `str`. -/
def split_at_loop (delimiter : Char) : Str → List Str → Str → List Str
  | [], list, elem => list ++ [elem]
  | c :: cs, list, elem =>
    if c = delimiter then split_at_loop delimiter cs (list ++ [elem]) []
    else split_at_loop delimiter cs list (elem ++ [c])

/-- Embeds `split_at(str, delimiter)`. -/
def split_at (str : Str) (delimiter : Char) : List Str := split_at_loop delimiter str [] []

/-- The map inside the document `root` that a `ValueMap &` refers to, given by the keys
that lead to it from the root; `none` if a key is missing or leads to a value that is not a
map. -/
def ValueMap.get_map (root : ValueMap) : List Str → Option ValueMap
  | [] => some root
  | key :: path =>
    match ValueMap.find root key with
    | some (.map m) => ValueMap.get_map m path
    | _ => none

/-- The document `root` after the map that `path` leads to has been replaced by `m`. -/
def ValueMap.set_map (root : ValueMap) : List Str → ValueMap → ValueMap
  | [], m => m
  | key :: path, m =>
    List.map (fun e : Str × Value =>
      if e.1 = key then
        match e.2 with
        | .map child => (e.1, Value.map (ValueMap.set_map child path m))
        | _ => e
      else e) root

/-- The loop `for (const auto &fragment : fragments)` of `do_derive`, started at the map
`parent`: `parent->at(fragment).as_map()` for one fragment after the other. -/
def derive_base : ValueMap → List Str → Except Failure ValueMap
  | parent, [] => .ok parent
  | parent, fragment :: fragments =>
    match ValueMap.find parent fragment with
    | none => .error .out_of_range
    | some (.map next) => derive_base next fragments
    | some _ => .error .bad_variant_access

/-- The loop of `do_derive` over a map without `derived_from`, which is the map that
`path` leads to: `entries` are the entries still to be visited, `recurse` stands for
`do_derive`.  The statement `map.insert` of the entry of the source is left out: the key
is present, so it does nothing. -/
def derive_own_loop (recurse : ValueMap → List Str → Except Failure ValueMap)
    (path : List Str) : List (Str × Value) → ValueMap → Except Failure ValueMap
  | [], root => .ok root
  | (name, value) :: entries, root =>
    if value.is_map then
      match recurse root (path ++ [name]) with
      | .ok root => derive_own_loop recurse path entries root
      | .error e => .error e
    else derive_own_loop recurse path entries root

/-- The loop of `do_derive` over the entries of the base map (`entries` are those still to
be visited) for the map that `path` leads to: `map.insert` of the entry, then `do_derive`
on `map.at(name).as_map()` if the entry of the base is a map. -/
def derive_base_loop (recurse : ValueMap → List Str → Except Failure ValueMap)
    (path : List Str) : List (Str × Value) → ValueMap → Except Failure ValueMap
  | [], root => .ok root
  | (name, value) :: entries, root =>
    match ValueMap.get_map root path with
    | none => .error .undefined
    | some map =>
      let map := ValueMap.insert map name value
      let root := ValueMap.set_map root path map
      if value.is_map then
        match ValueMap.find map name with
        | some (.map _) =>
          match recurse root (path ++ [name]) with
          | .ok root => derive_base_loop recurse path entries root
          | .error e => .error e
        | _ => .error .bad_variant_access
      else derive_base_loop recurse path entries root

/-- Embeds `do_derive(map, parents, name)` on the document `root`: `map` is the map that
`path` leads to and `parents` are the maps on the way to it, so `parents.size()` is the
length of `path`.  The result is the document afterwards.  The first argument bounds the
depth of the recursion. -/
def do_derive : Nat → ValueMap → List Str → Except Failure ValueMap
  | 0, _, _ => .error .out_of_fuel
  | fuel + 1, root, path =>
    match ValueMap.get_map root path with
    | none => .error .undefined
    | some map =>
      if ¬ ValueMap.contains map derived_from_key then
        derive_own_loop (do_derive fuel) path map root
      else if path = [] then
        .error (.runtime_error "It is invalid to have a 'derived_from' entry on the top level!")
      else
        match ValueMap.find map derived_from_key with
        | some (.string derived_from) =>
          let fragments := split_at derived_from '.'
          if fragments.length > path.length then
            .error (.runtime_error "invalid 'derived_from' entry on line ")
          else
            match ValueMap.get_map root (path.take (path.length - fragments.length)) with
            | none => .error .undefined
            | some parent =>
              match derive_base parent fragments with
              | .error e => .error e
              | .ok base =>
                match derive_base_loop (do_derive fuel) path base root with
                | .error e => .error e
                | .ok root =>
                  match ValueMap.get_map root path with
                  | none => .error .undefined
                  | some map =>
                    .ok (ValueMap.set_map root path
                      (ValueMap.erase map derived_from_key))
        | _ => .error (.runtime_error "Invalid type for proerty 'derived_from' in ")

/-- Embeds `derive(ValueMap &&map)`: `do_derive` on the document itself, without parents, within the given depth. -/
def derive (fuel : Nat) (map : ValueMap) : Except Failure ValueMap := do_derive fuel map []

/-- The example of the specification: the map `m` with `derived_from = "sibling"` and
`x = 1` next to the map `sibling` with `x = 2` and `y = 3`. -/
def sibling_document : ValueMap :=
  [("m".toList, Value.map [("derived_from".toList, Value.string "sibling".toList),
      ("x".toList, Value.unsigned_integer 1)]),
   ("sibling".toList, Value.map [("x".toList, Value.unsigned_integer 2),
      ("y".toList, Value.unsigned_integer 3)])]

/-- The sign bit of a `double`. -/
def f64_sign (f : Double) : Bool := f / 2 ^ 63 % 2 = 1

/-- The biased exponent of a `double`. -/
def f64_exponent (f : Double) : Nat := f / 2 ^ 52 % 2048

/-- The fraction bits of a `double`. -/
def f64_fraction (f : Double) : Nat := f % 2 ^ 52

/-- Whether a `double` is a NaN. -/
def f64_is_nan (f : Double) : Bool := f64_exponent f = 2047 ∧ f64_fraction f ≠ 0

/-- The position of a `double` that is not a NaN in the order of the reals: the magnitude
bits, negated when the sign bit is set (both zeros are at 0). -/
def f64_key (f : Double) : Int :=
  if f64_sign f then -((f % 2 ^ 63 : Nat) : Int) else ((f % 2 ^ 63 : Nat) : Int)

/-- The expression `a < b` on `double`: false when an operand is a NaN. -/
def f64_less (a b : Double) : Bool :=
  !f64_is_nan a && !f64_is_nan b && decide (f64_key a < f64_key b)

/-- The largest `e < 64` with `2 ^ e ≤ n` (0 if there is none). -/
def floor_log2 (n : Nat) : Nat :=
  (List.range 64).foldl (fun e i => if 2 ^ i ≤ n then i else e) 0

/-- The `double` of a natural number up to `2 ^ 53` (all of them are representable). -/
def f64_of_nat (n : Nat) : Double :=
  if n = 0 then 0
  else
    let e := floor_log2 n
    let significand := if e ≤ 52 then n * 2 ^ (52 - e) else n / 2 ^ (e - 52)
    (1023 + e) * 2 ^ 52 + (significand - 2 ^ 52)

/-- The expression `static_cast<double>(i)` for an integer `i` of magnitude up to
`2 ^ 53`. -/
def f64_of_int (i : Int) : Double :=
  if i < 0 then 2 ^ 63 + f64_of_nat i.natAbs else f64_of_nat i.toNat

/-- The expression `static_cast<uint64_t>(f)`: the truncated value, taken from the
target where the conversion is undefined (a NaN, a value of `2 ^ 64` or more, a value
of -1 or less). -/
def f64_to_u64 (t : Target) (f : Double) : Nat :=
  let e := f64_exponent f
  if f64_is_nan f ∨ 1087 ≤ e ∨ (f64_sign f ∧ 1023 ≤ e) then t.f64_to_u64 f % two64
  else if e < 1023 then 0
  else if 1075 ≤ e then (2 ^ 52 + f64_fraction f) * 2 ^ (e - 1075)
  else (2 ^ 52 + f64_fraction f) / 2 ^ (1075 - e)

/-- The text `std::format` writes for an `int64_t`. -/
def format_int (i : Int) : Str :=
  if i < 0 then '-' :: (Nat.repr i.natAbs).toList else (Nat.repr i.toNat).toList

mutual
/-- Embeds `detail::to_string_impl(v, indent, num_indents)` of `value.cpp`. -/
def to_string_impl (t : Target) : Value → Nat → Nat → Str
  | .map m, indent, num_indents =>
    "\x7b".toList ++ to_string_impl_map t m indent num_indents
      ++ '\n' :: List.replicate (indent * num_indents) ' ' ++ "\x7d".toList
  | .list l, indent, num_indents =>
    "[".toList ++ to_string_impl_list t l indent num_indents
      ++ '\n' :: List.replicate (indent * num_indents) ' ' ++ "]".toList
  | .integer i, _, _ => format_int i
  | .unsigned_integer u, _, _ => (Nat.repr u).toList
  | .string s, _, _ => "'".toList ++ s ++ "'".toList
  | .floating_point d, _, _ => t.d2s d
  | .boolean b, _, _ => if b then "true".toList else "false".toList
/-- The loop of `to_string_impl` over the entries of a map that are still to be
printed; a comma follows every entry but the last. -/
def to_string_impl_map (t : Target) : List (Str × Value) → Nat → Nat → Str
  | [], _, _ => []
  | (name, value) :: rest, indent, num_indents =>
    '\n' :: List.replicate (indent * (num_indents + 1)) ' ' ++ name ++ " : ".toList
      ++ to_string_impl t value indent (num_indents + 1)
      ++ (if rest.isEmpty then [] else ",".toList)
      ++ to_string_impl_map t rest indent num_indents
/-- The loop of `to_string_impl` over the elements of a list that are still to be
printed. -/
def to_string_impl_list (t : Target) : List Value → Nat → Nat → Str
  | [], _, _ => []
  | value :: rest, indent, num_indents =>
    '\n' :: List.replicate (indent * (num_indents + 1)) ' '
      ++ to_string_impl t value indent (num_indents + 1)
      ++ (if rest.isEmpty then [] else ",".toList)
      ++ to_string_impl_list t rest indent num_indents
end

/-- Embeds `Value::convert_to<std::string>()`: a string is returned as it is, a boolean
as `true` or `false`, any other value as `detail::to_string` prints it. -/
def Value.convert_to_string (t : Target) : Value → Option Str
  | .string s => some s
  | .boolean b => some (if b then "true".toList else "false".toList)
  | v => some (to_string_impl t v 2 0)

/-- Embeds `Value::convert_to<uint64_t>()`.  For a signed integer both range checks
compare after the conversion to `uint64_t` and never fire; for a `double` the bounds are
`2 ^ 64` (the `double` nearest to the largest `uint64_t`) and 0. -/
def Value.convert_to_u64 (t : Target) : Value → Option Nat
  | .integer i => some (i % (two64 : Int)).toNat
  | .unsigned_integer u => some u
  | .floating_point f =>
    if f64_less 0x43F0000000000000 f || f64_less f 0 then none else some (f64_to_u64 t f)
  | .boolean b => some (if b then 1 else 0)
  | _ => none

/-- Embeds `Value::convert_to<double>()`.  For a `double` the bounds are
`std::numeric_limits<double>::max()` and `min()`, the smallest positive normal
number. -/
def Value.convert_to_double : Value → Option Double
  | .integer i => if i ≥ 2 ^ 53 ∨ i < -(2 ^ 53) then none else some (f64_of_int i)
  | .unsigned_integer u => if u ≥ 2 ^ 53 then none else some (f64_of_nat u)
  | .floating_point f =>
    if f64_less 0x7FEFFFFFFFFFFFFF f || f64_less f 0x0010000000000000 then none else some f
  | .boolean b => some (if b then 0x3FF0000000000000 else 0)
  | _ => none

/-- Embeds `Value::convert_to<bool>()`. -/
def Value.convert_to_bool : Value → Option Bool
  | .integer i => some (decide (i ≠ 0))
  | .unsigned_integer u => some (decide (u ≠ 0))
  | .boolean b => some b
  | _ => none

/-! ### Construction of the tree from a document (`detail.cpp`) -/

/-- Embeds `detail::from_string<Access>(sv)`. -/
def Access.from_string (sv : Str) : Option Access :=
  if sv = "read-only".toList ∨ sv = "r".toList then some .read_only
  else if sv = "write-only".toList ∨ sv = "w".toList then some .write_only
  else if sv = "read-write".toList ∨ sv = "rw".toList ∨ sv = "wr".toList then some .read_write
  else if sv = "write-once".toList ∨ sv = "w1".toList ∨ sv = "writeOnce".toList then
    some .write_once
  else if sv = "read-write-once".toList ∨ sv = "rw1".toList ∨ sv = "wr1".toList ∨
      sv = "read-writeOnce".toList then some .read_write_once
  else none

/-- Embeds `detail::from_string<Protection>(sv)`. -/
def Protection.from_string (sv : Str) : Option Protection :=
  if sv = "non-secure".toList ∨ sv = "n".toList then some .non_secure
  else if sv = "secure".toList ∨ sv = "s".toList then some .secure
  else if sv = "privileged".toList ∨ sv = "p".toList then some .privileged
  else none

/-- Embeds `detail::from_string<WriteType>(sv)`. -/
def WriteType.from_string (sv : Str) : Option WriteType :=
  if sv = "modify".toList ∨ sv = "m".toList then some .modify
  else if sv = "one-to-clear".toList ∨ sv = "oc".toList ∨ sv = "oneToClear".toList then
    some .one_to_clear
  else if sv = "one-to-set".toList ∨ sv = "os".toList ∨ sv = "oneToSet".toList then
    some .one_to_set
  else if sv = "one-to-toggle".toList ∨ sv = "ot".toList ∨ sv = "oneToToggle".toList then
    some .one_to_toggle
  else if sv = "zero-to-clear".toList ∨ sv = "zc".toList ∨ sv = "zeroToClear".toList then
    some .zero_to_clear
  else if sv = "zero-to-set".toList ∨ sv = "zs".toList ∨ sv = "zeroToSet".toList then
    some .zero_to_set
  else if sv = "zero-to-toggle".toList ∨ sv = "zt".toList ∨ sv = "zeroToToggle".toList then
    some .zero_to_toggle
  else if sv = "clear".toList ∨ sv = "c".toList then some .clear
  else if sv = "set".toList ∨ sv = "s".toList then some .set
  else none

/-- Embeds `detail::from_string<ReadType>(sv)`. -/
def ReadType.from_string (sv : Str) : Option ReadType :=
  if sv = "clear".toList ∨ sv = "c".toList then some .clear
  else if sv = "set".toList ∨ sv = "s".toList then some .set
  else if sv = "modify".toList ∨ sv = "m".toList then some .modify
  else if sv = "modify-external".toList ∨ sv = "me".toList ∨ sv = "modifyExternal".toList then
    some .modify_external
  else Option.none

/-- Embeds `get_property<T>(map, name)`; `convert` is `Value::convert_to<T>`. -/
def get_property {α : Type} (convert : Value → Option α) (map : ValueMap) (name : Str) :
    Option α :=
  match ValueMap.find map name with
  | some v => convert v
  | none => none

/-- Embeds `get_inherited_property<T>(device, group, name, reg_name, reg, ignore_errors)`
for a `T` that is not an enumeration: the first of the register's map, the group's
defaults, the group's extra data and the device's extra data that has the key decides. -/
def get_inherited_property {α : Type} (convert : Value → Option α) (device : Device)
    (group : Group) (name : Str) (reg : ValueMap) : Option α :=
  match ValueMap.find reg name with
  | some v => convert v
  | none =>
    match ValueMap.find group.defaults name with
    | some v => convert v
    | none =>
      match ValueMap.find group.extra_data name with
      | some v => convert v
      | none =>
        match ValueMap.find device.extra_data name with
        | some v => convert v
        | none => none

/-- Embeds the overload of `get_inherited_property<T>` for a field, which looks into the
field's map first. -/
def get_inherited_field_property {α : Type} (convert : Value → Option α) (device : Device)
    (group : Group) (name : Str) (reg field : ValueMap) : Option α :=
  match ValueMap.find field name with
  | some v => convert v
  | none => get_inherited_property convert device group name reg

/-- What both overloads of `get_inherited_property<T>` for an enumeration `T` do with the
string they have looked up.  Without a string and without `ignore_errors` the source
formats `*str` of an empty optional for its message, which is undefined. -/
def enum_of_string {α : Type} (from_string : Str → Option α) (str : Option Str)
    (ignore_errors : Bool) : Except Failure (Option α) :=
  match str with
  | none => if ignore_errors then .ok none else .error .undefined
  | some s =>
    match from_string s with
    | some e => .ok (some e)
    | none =>
      if ignore_errors then .ok none
      else .error (.runtime_error "invalid value for property '")

/-- Embeds `get_inherited_property<T>(device, group, name, reg_name, reg, ignore_errors)`
for an enumeration `T`; `from_string` is `from_string<T>`. -/
def get_inherited_enum {α : Type} (from_string : Str → Option α) (t : Target)
    (device : Device) (group : Group) (name : Str) (reg : ValueMap) (ignore_errors : Bool) :
    Except Failure (Option α) :=
  enum_of_string from_string
    (get_inherited_property (Value.convert_to_string t) device group name reg) ignore_errors

/-- Embeds the overload of `get_inherited_property<T>` for an enumeration `T` and a
field. -/
def get_inherited_field_enum {α : Type} (from_string : Str → Option α) (t : Target)
    (device : Device) (group : Group) (name : Str) (reg field : ValueMap)
    (ignore_errors : Bool) : Except Failure (Option α) :=
  enum_of_string from_string
    (get_inherited_field_property (Value.convert_to_string t) device group name reg field)
    ignore_errors

/-- Embeds `to_write_constraints(v)`. -/
def to_write_constraints (t : Target) : Value → Option WriteContraints
  | .map map =>
    match ValueMap.find map "maximum".toList, ValueMap.find map "minimum".toList with
    | some maximum, some minimum =>
      match minimum.convert_to_u64 t, maximum.convert_to_u64 t with
      | some min, some max => some (.range min max)
      | _, _ => none
    | _, _ => none
  | .string s =>
    if s = "use_enumerated_values".toList then some .use_enumerated_values
    else if s = "write_as_read".toList then some .write_as_read
    else none
  | _ => none

/-- The end of both overloads of `get_write_contraints`: the value that was found is
converted, and a value that cannot be converted is an error with the message `what`. -/
def write_contraints_of (t : Target) (v : Value) (what : String) :
    Except Failure WriteContraints :=
  match to_write_constraints t v with
  | some wc => .ok wc
  | none => .error (.runtime_error what)

/-- Embeds `get_write_contraints(device, group, reg_name, reg)`.  A `constraints` entry
of the group's defaults that is not a string ends the search without a value. -/
def get_write_contraints (t : Target) (device : Device) (group : Group) (reg : ValueMap) :
    Except Failure WriteContraints :=
  match ValueMap.find reg "constraints".toList with
  | some v => write_contraints_of t v "invalid value for property 'write_constraints' in register '"
  | none =>
    match ValueMap.find group.defaults "constraints".toList with
    | some (.string s) =>
      if s = "use_enumerated_values".toList then .ok .use_enumerated_values
      else if s = "write_as_read".toList then .ok .write_as_read
      else .error (.runtime_error "invalid value for property 'write_constraints' in register '")
    | some _ => .ok default
    | none =>
      match ValueMap.find group.extra_data "constraints".toList with
      | some v => write_contraints_of t v "invalid value for property 'write_constraints' in register '"
      | none =>
        match ValueMap.find device.extra_data "constraints".toList with
        | some v => write_contraints_of t v "invalid value for property 'write_constraints' in register '"
        | none => .ok default

/-- Embeds `get_write_contraints(device, group, reg_name, reg, field_name, field)`. -/
def get_field_write_contraints (t : Target) (device : Device) (group : Group)
    (reg field : ValueMap) : Except Failure WriteContraints :=
  match ValueMap.find field "constraints".toList with
  | some v => write_contraints_of t v "invalid value for property 'write_constraints' in field '"
  | none => get_write_contraints t device group reg

/-- Embeds `get_values(device, group, reg_name, reg)`, which returns no values. -/
def get_values (_device : Device) (_group : Group) (_reg : ValueMap) : List EnumeratedValue := []

/-- Embeds `to_field(device, group, reg_name, reg, field_name, field)`: the field, or
`none` for the empty pointer that is returned for a map without a bit position.  The
member `reg` of the field is left null. -/
def to_field (t : Target) (device : Device) (group : Group) (reg : ValueMap) (field_name : Str)
    (field : ValueMap) : Except Failure (Option Field) :=
  let inherited_u64 := fun name : String =>
    get_inherited_field_property (Value.convert_to_u64 t) device group name.toList reg field
  let inherited_double := fun name : String =>
    get_inherited_field_property Value.convert_to_double device group name.toList reg field
  let position : Option (Nat × Nat) :=
    match inherited_u64 "msb" with
    | none =>
      match inherited_u64 "position" with
      | none => none
      | some position => some (position, position)
    | some msb =>
      match inherited_u64 "lsb" with
      | none => none
      | some lsb => some (msb, lsb)
  match position with
  | none => .ok none
  | some (msb, lsb) => do
    let display_name := get_property (Value.convert_to_string t) field "name".toList
    let description := get_property (Value.convert_to_string t) field "description".toList
    let backup := get_property (Value.convert_to_string t) field "backup".toList
    let unit := get_property (Value.convert_to_string t) field "unit".toList
    let zero_code_value := inherited_double "zero_code_value"
    let step := inherited_double "step"
    let initial := inherited_u64 "initial"
    let value := inherited_u64 "value"
    let access ← get_inherited_field_enum Access.from_string t device group "access".toList
      reg field true
    let protection ← get_inherited_field_enum Protection.from_string t device group
      "protection".toList reg field true
    let write_type ← get_inherited_field_enum WriteType.from_string t device group
      "write_type".toList reg field true
    let read_type ← get_inherited_field_enum ReadType.from_string t device group
      "read_type".toList reg field true
    let is_signed := get_inherited_field_property Value.convert_to_bool device group
      "signed".toList reg field
    let values := get_values device group field
    let contraints ← get_field_write_contraints t device group reg field
    pure (some
      { name := field_name, display_name := display_name.getD [],
        description := description.getD [], backup := backup.getD [], unit := unit.getD [],
        zero_code_value := zero_code_value.getD 0, step := step.getD 0x3FF0000000000000,
        value := value.getD 0, initial := initial.getD 0, msb := msb, lsb := lsb,
        access := access.getD .read_only, protection := protection.getD .non_secure,
        write_type := write_type.getD .modify, read_type := read_type.getD .modify,
        contraints := contraints, is_signed := is_signed.getD false, values := values,
        extra_data := [] })

/-- The names that the loop of `to_register` over the register's map skips. -/
def to_register_visited : List Str :=
  ["display_name", "description", "backup", "unit", "zero_code_value", "step", "initial",
    "value", "addr", "size", "zeros_mask", "ones_mask", "x_mask", "access", "protection",
    "write_type", "read_type", "constraints", "is_signed", "values"].map String.toList

/-- The variables that the loop of `to_register` over the register's map updates. -/
structure to_register_state where
  fields : List Field := []
  extra_data : ValueMap := []
  fields_have_value : Bool := true
  fields_have_initial : Bool := true
  deriving DecidableEq, Repr

/-- The loop `for (const auto &[name, value] : reg)` of `to_register` for the register at
address `this`, over the entries that are still to be visited: a map that `to_field`
accepts becomes a field, every other entry that is not skipped becomes extra data. -/
def to_register_loop (t : Target) (device : Device) (group : Group) (this : Nat)
    (reg : ValueMap) : List (Str × Value) → to_register_state → Except Failure to_register_state
  | [], st => .ok st
  | (name, value) :: entries, st =>
    if name ∈ to_register_visited then to_register_loop t device group this reg entries st
    else
      match value with
      | .map field_map =>
        match to_field t device group reg name field_map with
        | .error e => .error e
        | .ok (some field) =>
          to_register_loop t device group this reg entries
            { st with
              fields := st.fields ++ [{ field with reg := some this }]
              fields_have_value :=
                st.fields_have_value && ValueMap.contains field_map "value".toList
              fields_have_initial :=
                st.fields_have_initial && ValueMap.contains field_map "initial".toList }
        | .ok none =>
          to_register_loop t device group this reg entries
            { st with extra_data := ValueMap.insert st.extra_data name value }
      | _ =>
        to_register_loop t device group this reg entries
          { st with extra_data := ValueMap.insert st.extra_data name value }

/-- The part of `to_register` that settles `initial` of the register `r` and of its
fields; `initial` is the optional of the same name. -/
def to_register_initial (t : Target) (initial : Option Nat) (fields_have_initial : Bool)
    (r : Register) : Except Failure Register :=
  match initial with
  | some _ =>
    if ¬ fields_have_initial then
      .ok { r with fields := r.fields.map (fun f =>
        { f with initial := make_mask t (usub f.msb f.lsb) 0 &&& shr t r.initial f.lsb }) }
    else
      let initial := r.fields.foldl (fun i f => i ||| shl t f.initial f.lsb) 0
      let f_mask := r.fields.foldl (fun m f => m ||| make_mask t f.msb f.lsb) 0
      if initial ≠ f_mask &&& r.initial then
        .error (.runtime_error "field initial value and register initial value do not match")
      else .ok r
  | none =>
    if ¬ fields_have_initial then
      .error (.runtime_error
        "Expected either register to specify an initial value, or the fields to make up an initial value")
    else
      .ok { r with initial := r.fields.foldl (fun i f => i ||| shl t f.initial f.lsb) r.initial }

/-- The part of `to_register` that settles `value` of the register `r` and of its fields;
`value` is the optional of the same name. -/
def to_register_value (t : Target) (value : Option Nat) (fields_have_value : Bool)
    (r : Register) : Except Failure Register :=
  match value with
  | some value =>
    if ¬ fields_have_value then
      .ok { r with fields := r.fields.map (fun f =>
        { f with value := make_mask t (usub f.msb f.lsb) 0 &&& shr t value f.lsb }) }
    else
      let value := r.fields.foldl (fun v f => v ||| shl t f.value f.lsb) 0
      let f_mask := r.fields.foldl (fun m f => m ||| make_mask t f.msb f.lsb) 0
      if value ≠ f_mask &&& r.value then
        .error (.runtime_error "field value and register value do not match")
      else .ok r
  | none =>
    if ¬ fields_have_value then
      .ok { r with
        value := r.initial
        fields := r.fields.map (fun f =>
          { f with value := make_mask t (usub f.msb f.lsb) 0 &&& shr t r.initial f.lsb }) }
    else
      .ok { r with value := r.fields.foldl (fun v f => v ||| shl t f.value f.lsb) r.value }

/-- Embeds `to_register(device, group, reg_name, reg)` for a register that `make_unique`
places at address `this`: the register, or `none` for the empty pointer that is returned
when no `addr` is found.  The member `group` of the register is left null. -/
def to_register (t : Target) (device : Device) (group : Group) (this : Nat) (reg_name : Str)
    (reg : ValueMap) : Except Failure (Option Register) :=
  let inherited_u64 := fun name : String =>
    get_inherited_property (Value.convert_to_u64 t) device group name.toList reg
  let inherited_double := fun name : String =>
    get_inherited_property Value.convert_to_double device group name.toList reg
  match inherited_u64 "addr" with
  | none => .ok none
  | some addr => do
    let size := inherited_u64 "size"
    let display_name := get_property (Value.convert_to_string t) reg "name".toList
    let description := get_property (Value.convert_to_string t) reg "description".toList
    let backup := get_property (Value.convert_to_string t) reg "backup".toList
    let unit := get_property (Value.convert_to_string t) reg "unit".toList
    let zero_code_value := inherited_double "zero_code_value"
    let step := inherited_double "step"
    let initial := inherited_u64 "initial"
    let value := inherited_u64 "value"
    let zeros_mask := inherited_u64 "zeros_mask"
    let ones_mask := inherited_u64 "ones_mask"
    let x_mask := inherited_u64 "x_mask"
    let access ← get_inherited_enum Access.from_string t device group "access".toList reg true
    let protection ← get_inherited_enum Protection.from_string t device group
      "protection".toList reg true
    let write_type ← get_inherited_enum WriteType.from_string t device group
      "write_type".toList reg true
    let read_type ← get_inherited_enum ReadType.from_string t device group
      "read_type".toList reg true
    let is_signed := get_inherited_property Value.convert_to_bool device group
      "signed".toList reg
    let values := get_values device group reg
    let st ← to_register_loop t device group this reg reg {}
    let contraints ← get_write_contraints t device group reg
    let r : Register :=
      { name := reg_name, display_name := display_name.getD [],
        description := description.getD [], backup := backup.getD [], unit := unit.getD [],
        zero_code_value := zero_code_value.getD 0, step := step.getD 0x3FF0000000000000,
        value := value.getD 0, initial := initial.getD 0, addr := addr, size := size.getD 1,
        zeros_mask := zeros_mask.getD 0, ones_mask := ones_mask.getD 0,
        x_mask := x_mask.getD 0, access := access.getD .read_only,
        protection := protection.getD .non_secure, write_type := write_type.getD .modify,
        read_type := read_type.getD .modify, contraints := contraints,
        is_signed := is_signed.getD false, values := values, fields := st.fields,
        extra_data := st.extra_data }
    let r ← to_register_initial t initial st.fields_have_initial r
    let r ← to_register_value t value st.fields_have_value r
    pure (some r)

/-- The map of a register with an address and nothing else: `addr = 0`. -/
def bare_register_map : ValueMap := [("addr".toList, Value.unsigned_integer 0)]

/-- The map of a register with `addr = 0` and the field `en` on bit 0, which has no
`initial`. -/
def register_map_with_field : ValueMap :=
  [("addr".toList, Value.unsigned_integer 0),
   ("en".toList, Value.map [("position".toList, Value.unsigned_integer 0)])]

/-- The loop of `to_group` over the entries of the group's map that are still to be
visited, in the order of their keys.  `g` is the group built so far: a register is built
by `to_register` against this `g`, whose `extra_data` holds the entries visited before.
`register k` is the address `make_unique` gives to the register of position `k`. -/
def to_group_loop (t : Target) (device : Device) (this : Nat) (register : Nat → Nat) :
    List (Str × Value) → Group → Except Failure Group
  | [], g => .ok g
  | (name, value) :: rest, g =>
    if name = "base_adddr".toList ∨ name = "size".toList ∨ name = "defaults".toList then
      to_group_loop t device this register rest g
    else
      match value with
      | .map m => do
        match ← to_register t device g (register g.registers.length) name m with
        | some reg =>
          to_group_loop t device this register rest
            { g with
              registers :=
                g.registers ++ [{ reg with group := some { addr := this, device := g.device } }] }
        | none =>
          to_group_loop t device this register rest
            { g with extra_data := ValueMap.insert_or_assign g.extra_data name value }
      | _ =>
        to_group_loop t device this register rest
          { g with extra_data := ValueMap.insert_or_assign g.extra_data name value }

/-- Embeds `to_group(device, group_name, group)` for a group that `make_unique` places at
address `this`: the group, or `none` for the empty pointer that is returned when `base_addr`
or `size` is absent.  The message of the first `throw` reads the key `base_adddr`
through `std::map::at`. -/
def to_group (t : Target) (device : Device) (this : Nat) (register : Nat → Nat)
    (group_name : Str) (group : ValueMap) : Except Failure (Option Group) :=
  match ValueMap.find group "base_addr".toList with
  | none => .ok none
  | some b =>
    match Value.convert_to_u64 t b with
    | none =>
      if ValueMap.contains group "base_adddr".toList then
        .error (.runtime_error "Type mismatch for property 'base_addr' in group '")
      else .error .out_of_range
    | some base_addr =>
      match ValueMap.find group "size".toList with
      | none => .ok none
      | some s =>
        match Value.convert_to_u64 t s with
        | none => .error (.runtime_error "Type mismatch for property 'size' in group '")
        | some size => do
          let g : Group := { name := group_name, base_addr := base_addr, size := size }
          let g : Group :=
            match ValueMap.find group "defaults".toList with
            | some (.map m) => { g with defaults := m }
            | _ => g
          let g ← to_group_loop t device this register group g
          pure (some g)

/-- A group whose map has the scalar entry `zeros_mask = 5` and the register `reg_name`,
which has an address and nothing else. -/
def group_map_with_mask (reg_name : String) : ValueMap :=
  ValueMap.insert
    [("base_addr".toList, Value.unsigned_integer 0), ("size".toList, Value.unsigned_integer 16),
     ("zeros_mask".toList, Value.unsigned_integer 5)]
    reg_name.toList (Value.map bare_register_map)

/-! ### The lexer of the native format (`rds/detail/rds.hpp`) -/

/-- Embeds `Parser::TokenType`. -/
inductive TokenType where
  | o_brace
  | c_brace
  | o_bracket
  | c_bracket
  | colon
  | comma
  | identifier
  | string
  | signed_int
  | unsigned_int
  | floating_point
  | boolean
  deriving DecidableEq, Repr

/-- The member `value` of a `Parser::Token`, a
`std::variant<std::monostate, char, bool, double, uint64_t, int64_t, std::string_view>`;
a `string_view` is given by the characters it spans. -/
inductive TokenValue where
  | monostate
  | char (c : Char)
  | bool (b : Bool)
  | double (d : Double)
  | uint64_t (u : Nat)
  | int64_t (i : Int)
  | string_view (s : Str)
  deriving DecidableEq, Repr

/-- Embeds `Parser::Token`.  The member `source` (the lines and columns of the token)
is left out: only the texts of the error messages read it, and no branch depends on it.
For the same reason the members `line_` and `column_` of the parser are not kept. -/
structure Token where
  type : TokenType
  value : TokenValue
  deriving DecidableEq, Repr

/-- The result of `consume_number`, a `std::variant<double, uint64_t, int64_t>`. -/
inductive Number where
  | double (d : Double)
  | uint64_t (u : Nat)
  | int64_t (i : Int)
  deriving DecidableEq, Repr

/-- Embeds `Parser::is_letter`. -/
def is_letter (c : Char) : Bool :=
  ('a'.toNat ≤ c.toNat ∧ c.toNat ≤ 'z'.toNat) ∨ ('A'.toNat ≤ c.toNat ∧ c.toNat ≤ 'Z'.toNat)

/-- Embeds `Parser::is_number`. -/
def is_number (c : Char) : Bool := '0'.toNat ≤ c.toNat ∧ c.toNat ≤ '9'.toNat

/-- Embeds `Parser::is_hex_digit`. -/
def is_hex_digit (c : Char) : Bool :=
  ('0'.toNat ≤ c.toNat ∧ c.toNat ≤ '9'.toNat) ∨ ('a'.toNat ≤ c.toNat ∧ c.toNat ≤ 'f'.toNat)
    ∨ ('A'.toNat ≤ c.toNat ∧ c.toNat ≤ 'F'.toNat)

/-- Embeds `Parser::is_identfier_char`. -/
def is_identfier_char (c : Char) : Bool := is_letter c ∨ is_number c ∨ c = '-' ∨ c = '_'

/-- Embeds `std::string_view::starts_with`. -/
def starts_with : Str → Str → Bool
  | _, [] => true
  | [], _ :: _ => false
  | a :: as, b :: bs => a = b && starts_with as bs

/-- The amount that one round of the loop of `consume_hex` adds for the character `c`:
`c - 'a'` for `a` to `f`, `c - 'A'` for `A` to `E` (the comparison is `c < 'F'`), `c - '0'`
for a decimal digit; `none` for any other character, where the loop returns. -/
def consume_hex_digit (c : Char) : Option Nat :=
  if 'a'.toNat ≤ c.toNat ∧ c.toNat ≤ 'f'.toNat then some (c.toNat - 'a'.toNat)
  else if 'A'.toNat ≤ c.toNat ∧ c.toNat < 'F'.toNat then some (c.toNat - 'A'.toNat)
  else if '0'.toNat ≤ c.toNat ∧ c.toNat ≤ '9'.toNat then some (c.toNat - '0'.toNat)
  else none

/-- The loop of `consume_hex` with `value` so far, on the input from `pos_` on: the value
and the input that is left. -/
def consume_hex_loop : Nat → Str → Except Failure (Nat × Str)
  | value, [] => .ok (value, [])
  | value, c :: rest =>
    match consume_hex_digit c with
    | none => .ok (value, c :: rest)
    | some d =>
      if value > (16 * value + d) % two64 then .error (.runtime_error "Error ")
      else consume_hex_loop ((16 * value + d) % two64) rest

/-- Embeds `Parser::consume_hex`. -/
def consume_hex (pos : Str) : Except Failure (Nat × Str) := consume_hex_loop 0 pos

/-- The loop of `consume_binary` with `value` so far, on the input from `pos_` on. -/
def consume_binary_loop : Nat → Str → Except Failure (Nat × Str)
  | value, [] => .ok (value, [])
  | value, c :: rest =>
    if c = '0' then
      if value > (2 * value) % two64 then .error (.runtime_error "Error ")
      else consume_binary_loop ((2 * value) % two64) rest
    else if c = '1' then
      if value > (2 * value + 1) % two64 then .error (.runtime_error "Error ")
      else consume_binary_loop ((2 * value + 1) % two64) rest
    else .ok (value, c :: rest)

/-- Embeds `Parser::consume_binary`: `value` starts as `*pos_ - '0'` and the loop starts at
the same character.  The function asserts that the input is not empty. -/
def consume_binary (pos : Str) : Except Failure (Nat × Str) :=
  match pos with
  | [] => .error .undefined
  | c :: _ => consume_binary_loop (to_u64 ((c.toNat : Int) - ('0'.toNat : Int))) pos

/-- The loop `while (pos_ != end_ and is_number(*pos_))` of `consume_positive_number` that
accumulates `int_value`. -/
def consume_digits : Nat → Str → Except Failure (Nat × Str)
  | int_value, [] => .ok (int_value, [])
  | int_value, c :: rest =>
    if is_number c then
      if int_value > (10 * int_value + (c.toNat - '0'.toNat)) % two64 then
        .error (.runtime_error "Error ")
      else consume_digits ((10 * int_value + (c.toNat - '0'.toNat)) % two64) rest
    else .ok (int_value, c :: rest)

/-- The loop `while (pos_ != end_ and is_number(*pos_))` of `consume_positive_number` over
the digits after the point. -/
def skip_digits : Str → Str
  | [] => []
  | c :: rest => if is_number c then skip_digits rest else c :: rest

/-- The loop of `consume_positive_number` over the digits of the exponent, which
accumulates the `int64_t exp`; the sum is undefined once it leaves the `int64_t`. -/
def consume_exponent : Int → Str → Except Failure Str
  | _, [] => .ok []
  | exp, c :: rest =>
    if is_number c then
      if 2 ^ 63 ≤ 10 * exp + ((c.toNat : Int) - ('0'.toNat : Int)) then .error .undefined
      else if exp > 10 * exp + ((c.toNat : Int) - ('0'.toNat : Int)) then
        .error (.runtime_error "Error ")
      else consume_exponent (10 * exp + ((c.toNat : Int) - ('0'.toNat : Int))) rest
    else .ok (c :: rest)

/-- The part of `consume_positive_number` that reads a floating point number: `begin` is
the input from the first digit on, `pos` the input from the first `.`, `e` or `E` on.
The text between is handed to `s2d_n`. -/
def consume_float (t : Target) (begin pos : Str) : Except Failure (Number × Str) := do
  let pos :=
    match pos with
    | c :: rest => if c = '.' then skip_digits rest else pos
    | [] => pos
  let pos ←
    match pos with
    | c :: rest =>
      if c = 'e' ∨ c = 'E' then
        match rest with
        | [] => .error (.runtime_error "Error ")
        | c1 :: rest1 =>
          if c1 = '-' then
            match rest1 with
            | [] => .error (.runtime_error "Error ")
            | _ :: _ => consume_exponent 0 rest1
          else consume_exponent 0 rest
      else .ok pos
    | [] => .ok pos
  match t.s2d_n (begin.take (begin.length - pos.length)) with
  | some d => .ok (.double d, pos)
  | none => .error (.runtime_error "Error ")

/-- Embeds `Parser::consume_positive_number` on the input from `pos_` on: the number and
the input that is left.  The function asserts that the input starts with a digit. -/
def consume_positive_number (t : Target) (begin : Str) : Except Failure (Number × Str) :=
  match begin with
  | [] => .error .undefined
  | c :: pos =>
    let int_value := to_u64 ((c.toNat : Int) - ('0'.toNat : Int))
    match pos with
    | [] => .ok (.uint64_t int_value, [])
    | c1 :: pos1 =>
      if int_value = 0 ∧ (c1 = 'x' ∨ c1 = 'X') then
        match pos1 with
        | [] => .error (.runtime_error "Error ")
        | h :: _ =>
          if ¬ is_hex_digit h then .error (.runtime_error "Error ")
          else (consume_hex pos1).map (fun r => (.uint64_t r.1, r.2))
      else if int_value = 0 ∧ (c1 = 'b' ∨ c1 = 'B') then
        match pos1 with
        | [] => .error (.runtime_error "Error ")
        | h :: _ =>
          if ¬ (h = '1' ∨ h = '0') then .error (.runtime_error "Error ")
          else (consume_binary pos1).map (fun r => (.uint64_t r.1, r.2))
      else do
        let r ← consume_digits int_value pos
        match r.2 with
        | [] => .ok (.uint64_t r.1, r.2)
        | c2 :: _ =>
          if ¬ (c2 = '.' ∨ c2 = 'e' ∨ c2 = 'E') then .ok (.uint64_t r.1, r.2)
          else consume_float t begin r.2

/-- The negation of a `double`, given by its bits. -/
def f64_neg (d : Double) : Double := d ^^^ 2 ^ 63

/-- Embeds `Parser::consume_number`. -/
def consume_number (t : Target) (pos : Str) : Except Failure (Number × Str) :=
  match pos with
  | [] => .error .undefined
  | c :: rest =>
    if c = '-' then
      match rest with
      | [] => .error (.runtime_error "Error ")
      | d :: _ =>
        if ¬ is_number d then .error (.runtime_error "Error ")
        else do
          let r ← consume_positive_number t rest
          match r.1 with
          | .uint64_t v =>
            if v > (two64 - 1) / 2 then .error (.runtime_error "Error ")
            else .ok (.int64_t (-(v : Int)), r.2)
          | .int64_t v =>
            if v = -(2 ^ 63) then .error .undefined else .ok (.int64_t (-v), r.2)
          | .double v => .ok (.double (f64_neg v), r.2)
    else consume_positive_number t pos

/-- The loop of `consume_identifier` after the first character: the characters of the
identifier that follow and the input that is left. -/
def consume_identifier_loop : Str → Str × Str
  | [] => ([], [])
  | c :: rest =>
    if is_identfier_char c then
      ((c :: (consume_identifier_loop rest).1), (consume_identifier_loop rest).2)
    else ([], c :: rest)

/-- Embeds `Parser::consume_identifier`, which asserts that the input starts with a
letter. -/
def consume_identifier (pos : Str) : Except Failure (Str × Str) :=
  match pos with
  | [] => .error .undefined
  | c :: rest => .ok (c :: (consume_identifier_loop rest).1, (consume_identifier_loop rest).2)

/-- The loop of `consume_string` after the opening quote: the contents of the string and
the input after the closing quote. -/
def consume_string_loop (quote_char : Char) : Char → Str → Except Failure (Str × Str)
  | _, [] => .error (.runtime_error "Error ")
  | prev_char, current_char :: rest =>
    if current_char = quote_char ∧ prev_char ≠ Char.ofNat 92 then .ok ([], rest)
    else
      (consume_string_loop quote_char current_char rest).map
        (fun r => (current_char :: r.1, r.2))

/-- Embeds `Parser::consume_string`, which asserts that the input starts with a quote. -/
def consume_string (pos : Str) : Except Failure (Str × Str) :=
  match pos with
  | [] => .error .undefined
  | quote_char :: rest =>
    match rest with
    | [] => .error (.runtime_error "Error ")
    | _ :: _ => consume_string_loop quote_char quote_char rest

/-- The token that `lex` pushes for a number. -/
def Number.token : Number → Token
  | .double v => { type := .floating_point, value := .double v }
  | .int64_t i => { type := .signed_int, value := .int64_t i }
  | .uint64_t u => { type := .unsigned_int, value := .uint64_t u }

/-- One round of the loop `while (pos_ != end_)` of `lex`, on the character `current_c` at
`pos_` and the input `rest` after it: the token that is pushed, if any, and the input from
the new `pos_` on.  Every round but one moves `pos_` forward; the round on a character
that no `case` names and that is neither a letter nor a digit changes nothing. -/
def lex_step (t : Target) (current_c : Char) (rest : Str) :
    Except Failure (Option Token × Str) :=
  if current_c = '\x7b' then .ok (some { type := .o_brace, value := .char current_c }, rest)
  else if current_c = '\x7d' then
    .ok (some { type := .c_brace, value := .char current_c }, rest)
  else if current_c = '[' then .ok (some { type := .o_bracket, value := .char current_c }, rest)
  else if current_c = ']' then .ok (some { type := .c_bracket, value := .char current_c }, rest)
  else if current_c = ':' then .ok (some { type := .colon, value := .char current_c }, rest)
  else if current_c = ',' then .ok (some { type := .comma, value := .char current_c }, rest)
  else if current_c = Char.ofNat 39 ∨ current_c = Char.ofNat 34 then
    (consume_string (current_c :: rest)).map
      (fun r => (some { type := .string, value := .string_view r.1 }, r.2))
  else if current_c = '-' then
    (consume_number t (current_c :: rest)).map (fun r => (some r.1.token, r.2))
  else if current_c = 't' then
    if starts_with (current_c :: rest) "true".toList then
      .ok (some { type := .unsigned_int, value := .bool true }, (current_c :: rest).drop 4)
    else
      (consume_identifier (current_c :: rest)).map
        (fun r => (some { type := .identifier, value := .string_view r.1 }, r.2))
  else if current_c = 'f' then
    if starts_with (current_c :: rest) "false".toList then
      .ok (some { type := .unsigned_int, value := .bool true }, (current_c :: rest).drop 5)
    else
      (consume_identifier (current_c :: rest)).map
        (fun r => (some { type := .identifier, value := .string_view r.1 }, r.2))
  else if current_c = '\n' then .ok (none, rest)
  else if current_c = ' ' ∨ current_c = '\t' ∨ current_c = Char.ofNat 11
      ∨ current_c = Char.ofNat 12 then
    .ok (none, rest)
  else if is_letter current_c then
    (consume_identifier (current_c :: rest)).map
      (fun r => (some { type := .identifier, value := .string_view r.1 }, r.2))
  else if is_number current_c then
    (consume_positive_number t (current_c :: rest)).map (fun r => (some r.1.token, r.2))
  else .ok (none, current_c :: rest)

/-- The loop `while (pos_ != end_)` of `lex` on the input from `pos_` on: the tokens that
are pushed.  `fuel` bounds the number of rounds; a round that does not move `pos_` is
followed by the same round again. -/
def lex_loop (t : Target) : Nat → Str → Except Failure (List Token)
  | _, [] => .ok []
  | 0, _ :: _ => .error .out_of_fuel
  | fuel + 1, current_c :: rest => do
    let r ← lex_step t current_c rest
    let tokens ← lex_loop t fuel r.2
    match r.1 with
    | some tok => .ok (tok :: tokens)
    | none => .ok tokens

/-- Embeds `Parser::lex(s)` on a new parser: the tokens. -/
def lex (t : Target) (fuel : Nat) (s : Str) : Except Failure (List Token) :=
  if s.isEmpty then .ok [] else lex_loop t fuel s

/-! ### The parser of the native format (`rds/detail/rds.hpp`) -/

/-- Embeds `Parser::expect(type)` on the tokens from `tok_index_` on: the token at
`tok_index_`. -/
def expect (type : TokenType) (tokens : List Token) : Except Failure Token :=
  match tokens with
  | [] => .error (.runtime_error "Error ")
  | tok :: _ => if tok.type = type then .ok tok else .error (.runtime_error "Error ")

/-- The body of `Parser::parse_map()` on the tokens from `tok_index_` on (the tokens after
the opening brace), with its loop as `loop`. -/
def parse_map_body (loop : ValueMap → List Token → Except Failure (ValueMap × List Token))
    (tokens : List Token) : Except Failure (ValueMap × List Token) :=
  match tokens with
  | [] => .error (.runtime_error "Error ")
  | first :: after => if first.type = .c_brace then .ok ([], after) else loop [] tokens

/-- The body of `Parser::parse_array()` on the tokens from `tok_index_` on (the tokens
after the opening bracket), with its loop as `loop`. -/
def parse_array_body (loop : ValueList → List Token → Except Failure (ValueList × List Token))
    (tokens : List Token) : Except Failure (ValueList × List Token) :=
  match tokens with
  | [] => .error (.runtime_error "Error ")
  | first :: after => if first.type = .c_bracket then .ok ([], after) else loop [] tokens

mutual
/-- Embeds `Parser::parse_impl`.  The member `tok_index_` is given by the tokens from
`tok_index_` on, and the result carries the tokens from the new `tok_index_` on; `fuel`
bounds the calls and the rounds of the loops that are nested in one another.  Every `case` of the loop returns or throws, so the loop
runs at most one round; without a token the function returns `Value{}`, the empty map. -/
def parse_impl : Nat → List Token → Except Failure (Value × List Token)
  | 0, _ => .error .out_of_fuel
  | _ + 1, [] => .ok (.map [], [])
  | fuel + 1, tok :: rest =>
    match tok.type with
    | .o_brace => (parse_map_body (parse_map_loop fuel) rest).map (fun r => (.map r.1, r.2))
    | .o_bracket =>
      (parse_array_body (parse_array_loop fuel) rest).map (fun r => (.list r.1, r.2))
    | .string =>
      match tok.value with
      | .string_view v => .ok (.string v, rest)
      | _ => .error .bad_variant_access
    | .signed_int =>
      match tok.value with
      | .int64_t i => .ok (.integer i, rest)
      | _ => .error .bad_variant_access
    | .unsigned_int =>
      match tok.value with
      | .uint64_t u => .ok (.unsigned_integer u, rest)
      | _ => .error .bad_variant_access
    | .floating_point =>
      match tok.value with
      | .double d => .ok (.floating_point d, rest)
      | _ => .error .bad_variant_access
    | .boolean =>
      match tok.value with
      | .bool b => .ok (.boolean b, rest)
      | _ => .error .bad_variant_access
    | _ => .error (.runtime_error "\nError ")
/-- The loop `for (; tok_index_ < tokens_.size(); ++tok_index_)` of `parse_map` with the
map built so far.  After the value of an entry the loop reads `tokens_[tok_index_]`
without a check, which is undefined when the value was the last token.  After a comma
that a closing brace follows, `tok_index_` is moved to the brace and the map is
returned. -/
def parse_map_loop : Nat → ValueMap → List Token → Except Failure (ValueMap × List Token)
  | 0, _, _ => .error .out_of_fuel
  | _ + 1, _, [] => .error (.runtime_error "Error ")
  | fuel + 1, map, tok :: rest => do
    let ident ← expect .identifier (tok :: rest)
    let _ ← expect .colon rest
    match rest.tail with
    | [] => .error (.runtime_error "Error ")
    | v :: after =>
      match ident.value with
      | .string_view name => do
        let r ← parse_impl fuel (v :: after)
        if ValueMap.contains map name then .error (.runtime_error "Error ")
        else
          match r.2 with
          | [] => .error .undefined
          | next :: after_next =>
            if next.type = .comma then
              match after_next with
              | [] => .error (.runtime_error "Error ")
              | next2 :: _ =>
                if next2.type = .c_brace then .ok (ValueMap.insert map name r.1, after_next)
                else parse_map_loop fuel (ValueMap.insert map name r.1) after_next
            else if next.type = .c_brace then .ok (ValueMap.insert map name r.1, after_next)
            else .error (.runtime_error "Error ")
      | _ => .error .bad_variant_access
/-- The loop `for (; tok_index_ < tokens_.size(); ++tok_index_)` of `parse_array` with the
list built so far.  After a comma that a closing bracket follows, `tok_index_` is moved
to the bracket and the list is returned. -/
def parse_array_loop : Nat → ValueList → List Token → Except Failure (ValueList × List Token)
  | 0, _, _ => .error .out_of_fuel
  | _ + 1, _, [] => .error (.runtime_error "Error ")
  | fuel + 1, list, tok :: rest => do
    let r ← parse_impl fuel (tok :: rest)
    match r.2 with
    | [] => .error (.runtime_error "Error ")
    | next :: after_next =>
      if next.type = .comma then
        match after_next with
        | [] => .error (.runtime_error "Error ")
        | end_ :: _ =>
          if end_.type = .c_bracket then .ok (list ++ [r.1], after_next)
          else parse_array_loop fuel (list ++ [r.1]) after_next
      else if next.type = .c_bracket then .ok (list ++ [r.1], after_next)
      else .error (.runtime_error "Error ")
end

/-- Embeds `Parser::parse_map()` on the tokens from `tok_index_` on (the tokens after the
opening brace). -/
def parse_map (fuel : Nat) (tokens : List Token) : Except Failure (ValueMap × List Token) :=
  parse_map_body (parse_map_loop fuel) tokens

/-- Embeds `Parser::parse_array()` on the tokens from `tok_index_` on (the tokens after the
opening bracket). -/
def parse_array (fuel : Nat) (tokens : List Token) :
    Except Failure (ValueList × List Token) :=
  parse_array_body (parse_array_loop fuel) tokens

/-- Embeds `Parser::parse()` on the tokens of `lex`. -/
def parse (fuel : Nat) (tokens : List Token) : Except Failure Value := do
  let r ← parse_impl fuel tokens
  if r.2 ≠ [] then .error (.runtime_error "Error: did not consume all tokens (size = ")
  else .ok r.1

/-- Embeds `Parser::parse_or_throw(str)` on a new parser, without a file path.  `fuel`
bounds the rounds of the lexer and the depth of the parser. -/
def parse_or_throw (t : Target) (fuel : Nat) (str : Str) : Except Failure Value := do
  let tokens ← lex t fuel str
  parse fuel tokens

/-- Embeds `rds_deserialize(s)`. -/
def rds_deserialize (t : Target) (fuel : Nat) (s : Str) : Except Failure ValueMap := do
  let v ← parse_or_throw t fuel s
  match v with
  | .map m => .ok m
  | _ =>
    .error (.runtime_error "Error while deserializing. Expected top level to be a map, got ")

/-- Embeds `detail::to_string(v, indent)` of `value.cpp` with the default indent of 2. -/
def detail.to_string (t : Target) (v : Value) : Str := to_string_impl t v 2 0

/-- Embeds `rds_serialize(map)`. -/
def rds_serialize (t : Target) (map : ValueMap) : Str := detail.to_string t (.map map)

/-- The document `{a: 1}`. -/
def document_a1 : Str := "\x7ba: 1\x7d".toList

/-- The document `{a: 1,}`: `document_a1` with a comma before the closing brace. -/
def document_a1_comma : Str := "\x7ba: 1,\x7d".toList

/-- The document `[1,]`: the array `[1]` with a comma before the closing bracket. -/
def document_array_comma : Str := "[1,]".toList

/-- The document `{a: true}`. -/
def document_a_true : Str := "\x7ba: true\x7d".toList

/-- The document `{a: 1, a: true}`, in which the key `a` occurs twice. -/
def document_twice_true : Str := "\x7ba: 1, a: true\x7d".toList

/-- The document `{a: 1, a: 2}`, in which the key `a` occurs twice. -/
def document_twice : Str := "\x7ba: 1, a: 2\x7d".toList

/-- The text `0b` followed by 65 times the digit `1`, the binary literal of `2 ^ 65 - 1`. -/
def binary_65_ones : Str := '0' :: 'b' :: List.replicate 65 '1'

/-- The number that the loop of `consume_positive_number` accumulates over the decimal
digits `ds`, starting from `v`, when nothing wraps. -/
def digits_value (v : Nat) (ds : Str) : Nat :=
  ds.foldl (fun acc c => 10 * acc + (c.toNat - '0'.toNat)) v

/-- A character after which a number that `consume_positive_number` reads is complete and
an unsigned integer. -/
def ends_number (rest : Str) : Prop :=
  ∀ c ∈ rest.head?, is_number c = false ∧ c ≠ '.' ∧ c ≠ 'e' ∧ c ≠ 'E' ∧ c ≠ 'x' ∧ c ≠ 'X'
    ∧ c ≠ 'b' ∧ c ≠ 'B'

/-- The document `[1 2]`: two array elements without a comma between them. -/
def document_no_comma : Str := "[1 2]".toList

/-- The document `[true 1]`: two array elements without a comma between them, the first
one the keyword `true`. -/
def document_no_comma_true : Str := "[true 1]".toList

/-- The second document of `parse_test.cpp` without its floating point numbers:
`{id: 'hello', i: -1, u: 243, array:[ 'a value' 4, 2, -5]}`, in which the comma after
`'a value'` is missing. -/
def test_document_no_comma : Str :=
  "\x7bid: 'hello', i: -1, u: 243, array:[ 'a value' 4, 2, -5]\x7d".toList

/-- The third document of `parse_test.cpp` without its floating point numbers:
`{id: 'hello', i: -1, u: 243, array:[ 'a value', 4, 2, -5], 'rguub'}`, whose last entry is
a bare string. -/
def test_document_bare_string : Str :=
  "\x7bid: 'hello', i: -1, u: 243, array:[ 'a value', 4, 2, -5], 'rguub'\x7d".toList

/-- The document `{a: true, 'rguub'}`, whose last entry is a bare string. -/
def document_bare_string_true : Str := "\x7ba: true, 'rguub'\x7d".toList

/-- The text `{a: 1`, which ends inside a map. -/
def document_open_map : Str := "\x7ba: 1".toList

/-- The text `[1`, which ends inside an array. -/
def document_open_array : Str := "[1".toList

/-! ### The string tables of `rds/common.hpp` -/

/-- Embeds `detail::to_string(Endian)`. -/
def Endian.to_string : Endian → Str
  | .little => "little".toList
  | .big => "big".toList

/-- Embeds `detail::from_string<Endian>(sv)`. -/
def Endian.from_string (sv : Str) : Option Endian :=
  if sv = "little".toList then some .little
  else if sv = "big".toList then some .big
  else none

/-- Embeds `detail::to_string<Access>(a)`. -/
def Access.to_string : Access → Str
  | .read_only => "read-only".toList
  | .write_only => "write-only".toList
  | .read_write => "read-write".toList
  | .write_once => "write-once".toList
  | .read_write_once => "read-write-once".toList

/-- Embeds `detail::to_string<Protection>(p)`. -/
def Protection.to_string : Protection → Str
  | .non_secure => "non-secure".toList
  | .secure => "secure".toList
  | .privileged => "privileged".toList

/-- Embeds `detail::to_string<WriteType>(w)`. -/
def WriteType.to_string : WriteType → Str
  | .modify => "modify".toList
  | .one_to_clear => "one-to-clear".toList
  | .one_to_set => "one-to-set".toList
  | .one_to_toggle => "one-to-toggle".toList
  | .zero_to_clear => "zero-to-clear".toList
  | .zero_to_set => "zero-to-set".toList
  | .zero_to_toggle => "zero-to-toggle".toList
  | .clear => "clear".toList
  | .set => "set".toList

/-- Embeds `detail::to_string<ReadType>(r)`. -/
def ReadType.to_string : ReadType → Str
  | .none => "none".toList
  | .clear => "clear".toList
  | .set => "set".toList
  | .modify => "modify".toList
  | .modify_external => "modify-external".toList

/-! ### `Value::convert_to<int64_t>` -/

/-- The expression `static_cast<int64_t>(f)`: the truncated value, taken from the target
where the conversion is undefined (a NaN, a magnitude of `2 ^ 63` or more other than
`-2 ^ 63` itself). -/
def f64_to_i64 (t : Target) (f : Double) : Int :=
  let e := f64_exponent f
  let magnitude : Nat :=
    if e < 1023 then 0
    else if 1075 ≤ e then (2 ^ 52 + f64_fraction f) * 2 ^ (e - 1075)
    else (2 ^ 52 + f64_fraction f) / 2 ^ (1075 - e)
  if f = 0xC3E0000000000000 then -(2 ^ 63)
  else if f64_is_nan f ∨ 1086 ≤ e then (t.f64_to_i64 f + 2 ^ 63) % 2 ^ 64 - 2 ^ 63
  else if f64_sign f then -(magnitude : Int) else (magnitude : Int)

/-- Embeds `Value::convert_to<int64_t>()`.  For a `double` the bounds are `2 ^ 63` (the
`double` nearest to the largest `int64_t`) and `-2 ^ 63`. -/
def Value.convert_to_i64 (t : Target) : Value → Option Int
  | .integer i => some i
  | .unsigned_integer u => if u > 2 ^ 63 - 1 then none else some (u : Int)
  | .floating_point f =>
    if f64_less 0x43E0000000000000 f || f64_less f 0xC3E0000000000000 then none
    else some (f64_to_i64 t f)
  | .boolean b => some (if b then 1 else 0)
  | _ => none

/-- A document whose map `m` has `derived_from = "s"` and a nested map `inner` of its own
that has a `derived_from` entry as well; the map `s` holds `y = 3`. -/
def nested_derived_document : ValueMap :=
  [("m".toList, Value.map [("derived_from".toList, Value.string "s".toList),
      ("inner".toList, Value.map [("derived_from".toList, Value.string "s".toList)])]),
   ("s".toList, Value.map [("y".toList, Value.unsigned_integer 3)])]

/-- An eight-byte register without a group (64 bits) of value 1 with the field `lo` on the
bits 8..0, of value 1, and the field `hi` on the bits 40..32, of value 0. -/
def two_field_register : Register :=
  { size := 8, value := 1,
    fields := [{ reg := some 0, name := "lo".toList, msb := 8, lsb := 0, value := 1 },
               { reg := some 0, name := "hi".toList, msb := 40, lsb := 32, value := 0 }] }

/-- The field `hi` of `two_field_register`. -/
def two_field_register_hi : Field :=
  { reg := some 0, name := "hi".toList, msb := 40, lsb := 32, value := 0 }

/-- Whether every field of the register holds the bits of the register's value that it
covers: `f.value = (value & make_mask(f.msb, f.lsb)) >> f.lsb`. -/
def Register.fields_match (t : Target) (r : Register) : Bool :=
  r.fields.all (fun f => decide (f.value = shr t (r.value &&& make_mask t f.msb f.lsb) f.lsb))

/-! ### The round trip through the native format -/

/-- Whether `key` is read by `lex` as one identifier: a letter followed by letters,
digits, `-` and `_` (the identifiers of the grammar), not starting with `true` or
`false`. -/
def is_identifier (key : Str) : Bool :=
  match key with
  | [] => false
  | c :: rest =>
    is_letter c && rest.all is_identfier_char && !starts_with key "true".toList
      && !starts_with key "false".toList

mutual
/-- The values for which the round trip through `rds_serialize` and `rds_deserialize` is
proved: maps and lists of such values, strings without the single quote and the
backslash, signed integers above `-2 ^ 63`, and unsigned integers; the keys of a map are
identifiers in ascending order, as a `std::map` holds them.  Floating point numbers and
booleans are left out. -/
def Value.round_trips : Value → Bool
  | .map m => ValueMap.round_trips m
  | .list l => ValueList.round_trips l
  | .string s => s.all (fun c => c != Char.ofNat 39 && c != Char.ofNat 92)
  | .integer i => decide (-(2 ^ 63) < i ∧ i < 2 ^ 63)
  | .unsigned_integer u => decide (u < 2 ^ 64)
  | .floating_point _ => false
  | .boolean _ => false
/-- The maps of `Value.round_trips`. -/
def ValueMap.round_trips : List (Str × Value) → Bool
  | [] => true
  | (key, value) :: rest =>
    is_identifier key && rest.all (fun e => string_less key e.1) && Value.round_trips value
      && ValueMap.round_trips rest
/-- The lists of `Value.round_trips`. -/
def ValueList.round_trips : List Value → Bool
  | [] => true
  | value :: rest => Value.round_trips value && ValueList.round_trips rest
end

mutual
/-- The value as it is read back: a signed integer that is not negative is written
without a sign and read as an unsigned integer. -/
def Value.reread : Value → Value
  | .map m => .map (ValueMap.reread m)
  | .list l => .list (ValueList.reread l)
  | .integer i => if 0 ≤ i then .unsigned_integer i.toNat else .integer i
  | .string s => .string s
  | .unsigned_integer u => .unsigned_integer u
  | .floating_point d => .floating_point d
  | .boolean b => .boolean b
/-- The entries of a map as they are read back. -/
def ValueMap.reread : List (Str × Value) → List (Str × Value)
  | [] => []
  | (key, value) :: rest => (key, Value.reread value) :: ValueMap.reread rest
/-- The elements of a list as they are read back. -/
def ValueList.reread : List Value → List Value
  | [] => []
  | value :: rest => Value.reread value :: ValueList.reread rest
end

mutual
/-- The tokens that `lex` pushes for the text of a value of `Value.round_trips`. -/
def Value.tokens : Value → List Token
  | .map m =>
    { type := .o_brace, value := .char '\x7b' } :: ValueMap.tokens m
      ++ [{ type := .c_brace, value := .char '\x7d' }]
  | .list l =>
    { type := .o_bracket, value := .char '[' } :: ValueList.tokens l
      ++ [{ type := .c_bracket, value := .char ']' }]
  | .string s => [{ type := .string, value := .string_view s }]
  | .integer i =>
    if i < 0 then [{ type := .signed_int, value := .int64_t i }]
    else [{ type := .unsigned_int, value := .uint64_t i.toNat }]
  | .unsigned_integer u => [{ type := .unsigned_int, value := .uint64_t u }]
  | .floating_point d => [{ type := .floating_point, value := .double d }]
  | .boolean _ => [{ type := .unsigned_int, value := .bool true }]
/-- The tokens of the entries of a map, with the commas between them. -/
def ValueMap.tokens : List (Str × Value) → List Token
  | [] => []
  | (key, value) :: rest =>
    { type := .identifier, value := .string_view key } :: { type := .colon, value := .char ':' }
      :: Value.tokens value ++ (if rest.isEmpty then [] else [{ type := .comma, value := .char ',' }])
      ++ ValueMap.tokens rest
/-- The tokens of the elements of a list, with the commas between them. -/
def ValueList.tokens : List Value → List Token
  | [] => []
  | value :: rest =>
    Value.tokens value ++ (if rest.isEmpty then [] else [{ type := .comma, value := .char ',' }])
      ++ ValueList.tokens rest
end

/-- The loop of `lex` reads `piece` in front of the input `s` as the tokens `toks`, in at most
as many rounds as `piece` has characters. -/
def Lexes (t : Target) (piece : Str) (toks : List Token) (s : Str) : Prop :=
  ∀ (fuel : Nat) (r : List Token), lex_loop t fuel s = .ok r →
    lex_loop t (fuel + piece.length) (piece ++ s) = .ok (toks ++ r)

/-- A map with the signed leaf `a = 1`. -/
def map_signed_leaf : ValueMap := [("a".toList, Value.integer 1)]

/-- A map with a nested map, a list, a string, a negative and an unsigned leaf. -/
def map_nested_sample : ValueMap :=
  [("a".toList, Value.map [("b".toList, Value.integer (-3)), ("c".toList, Value.list [])]),
   ("l".toList, Value.list [Value.string "x y".toList, Value.unsigned_integer 7,
      Value.map []])]

mutual
/-- Whether every signed integer in the value is negative. -/
def Value.signed_leaves_negative : Value → Bool
  | .map m => ValueMap.signed_leaves_negative m
  | .list l => ValueList.signed_leaves_negative l
  | .integer i => decide (i < 0)
  | .string _ => true
  | .unsigned_integer _ => true
  | .floating_point _ => true
  | .boolean _ => true
/-- Whether every signed integer in the map is negative. -/
def ValueMap.signed_leaves_negative : List (Str × Value) → Bool
  | [] => true
  | (_, value) :: rest =>
    Value.signed_leaves_negative value && ValueMap.signed_leaves_negative rest
/-- Whether every signed integer in the list is negative. -/
def ValueList.signed_leaves_negative : List Value → Bool
  | [] => true
  | value :: rest => Value.signed_leaves_negative value && ValueList.signed_leaves_negative rest
end

/-! # Theorems -/

/-! ## The repository's tests on the embedding -/

/-- The checks of `TEST_CASE("Register::set_value")`. -/
theorem test_Register_set_value :
    test_register.num_bits = 8 ∧
    (Register.set_value Target.wrapping test_register 1).1 = true ∧
    (Register.set_value Target.wrapping test_register 1).2.value = 1 ∧
    (Register.set_value Target.wrapping test_register 1).2.fields.map (fun f => f.value)
      = [1, 0, 0] ∧
    (Register.set_value Target.wrapping test_register 2).2.fields.map (fun f => f.value)
      = [0, 1, 0] ∧
    (Register.set_value Target.wrapping test_register 3).2.fields.map (fun f => f.value)
      = [1, 1, 0] ∧
    (Register.set_value Target.wrapping test_register 4).2.fields.map (fun f => f.value)
      = [0, 0, 1] ∧
    Register.set_value Target.wrapping (Register.set_value Target.wrapping test_register 4).2
        0xFFFF
      = (false, (Register.set_value Target.wrapping test_register 4).2) := by
  decide

/-- The checks of `TEST_CASE("Field::set_value")`: the field writes `f0 = 1`, `f1 = 1`,
`f2 = 1`, `f1 = 0` leave the register at `0b001`, `0b011`, `0b111`, `0b101`, and
`f0 = 2` is rejected. -/
theorem test_Field_set_value :
    test_register.fields.map (fun f => (f.msb, f.lsb, f.reg))
      = [(0, 0, some 0), (1, 1, some 0), (2, 2, some 0)] ∧
    (∀ f0 f1 f2, test_register.fields = [f0, f1, f2] →
      (Field.set_value Target.wrapping f0 test_register 1).2.2.value = 0b001 ∧
      (Field.set_value Target.wrapping f1
        (Field.set_value Target.wrapping f0 test_register 1).2.2 1).2.2.value = 0b011 ∧
      (Field.set_value Target.wrapping f2
        (Field.set_value Target.wrapping f1
          (Field.set_value Target.wrapping f0 test_register 1).2.2 1).2.2 1).2.2.value
        = 0b111 ∧
      (Field.set_value Target.wrapping f1
        (Field.set_value Target.wrapping f2
          (Field.set_value Target.wrapping f1
            (Field.set_value Target.wrapping f0 test_register 1).2.2 1).2.2 1).2.2 0).2.2.value
        = 0b101 ∧
      (Field.set_value Target.wrapping f0 test_register 2).1 = false) := by
  refine ⟨by decide, ?_⟩
  intro f0 f1 f2 h
  have h' : test_register.fields
      = [{ reg := some 0, name := "f0".toList, msb := 0, lsb := 0 },
         { reg := some 0, name := "f1".toList, msb := 1, lsb := 1 },
         { reg := some 0, name := "f2".toList, msb := 2, lsb := 2 }] := by decide
  rw [h'] at h
  simp only [List.cons.injEq, and_true] at h
  obtain ⟨rfl, rfl, rfl⟩ := h
  decide

/-- The checks of `TEST_CASE("Group::add/get_register")`: ordered insertion at addresses
0, 2 and 4 next to registers at 1 and 3, and the rejected additions. -/
theorem test_Group_add_reg :
    test_group.registers.map (fun r => (r.name, r.addr))
      = [("name1".toList, 1), ("name2".toList, 3)] ∧
    (Group.add_reg 0 test_group (whole "name3") 0 1).1 = some 0 ∧
    (Group.add_reg 0 test_group (whole "name3") 2 1).1 = some 1 ∧
    (Group.add_reg 0 test_group (whole "name3") 4 1).1 = some 2 ∧
    (Group.add_reg 0 test_group (whole "name3") 2 1).2.registers.map (fun r => r.addr)
      = [1, 2, 3] ∧
    Group.reg (Group.add_reg 0 test_group (whole "name3") 2 1).2 (whole "name3") = some 1 ∧
    (Group.add_reg 0 test_group (whole "") 0 1).1 = none ∧
    (Group.add_reg 0 test_group (whole "name1") 0 1).1 = none ∧
    (Group.add_reg 0 test_group (whole "name3") 0 0).1 = none ∧
    (Group.add_reg 0 test_group (whole "name3") 1 1).1 = none ∧
    (Group.add_reg 0 test_group_overlap (whole "name3") 0 2).1 = none ∧
    (Group.add_reg 0 test_group_overlap (whole "name3") 0 3).1 = none ∧
    (Group.add_reg 0 test_group_overlap (whole "name3") 2 2).1 = none ∧
    (Group.add_reg 0 test_group_overlap (whole "name3") 3 1).1 = none ∧
    (Group.add_reg 0 test_group_overlap (whole "name3") 4 1).1 = none ∧
    (Group.add_reg 0 test_group_overlap (whole "name3") 4 2).1 = none := by
  decide

/-- The checks of the section `add invalid group` of `TEST_CASE("Device::add/group")`. -/
theorem test_Device_add_group :
    (Device.add_group 0 test_device (whole "") 0 1).1 = none ∧
    (Device.add_group 0 test_device (whole "n") 0 1).1 = none ∧
    (Device.add_group 0 test_device (whole "name") 0 0).1 = none ∧
    (Device.add_group 0 test_device (whole "n1") 0 6).1 = none ∧
    (Device.add_group 0 test_device (whole "n2") 4 2).1 = none ∧
    (Device.add_group 0 test_device (whole "n3") 5 1).1 = none ∧
    (Device.add_group 0 test_device (whole "n4") 5 2).1 = none ∧
    (Device.add_group 0 test_device (whole "name2") 0 1).1 = some 0 ∧
    (Device.add_group 0 test_device (whole "name2") 6 1).1 = some 1 := by
  decide

/-- The checks of the section `add invalid fields` of
`TEST_CASE("Register::add_field(name, msb, lsb)")`, on the register that holds `f0`, `f1`
and `f2`, and an accepted addition. -/
theorem test_Register_add_field :
    (Register.add_field 0 test_register (whole "") 4 3).1 = none ∧
    (Register.add_field 0 test_register (whole "f1") 4 3).1 = none ∧
    (Register.add_field 0 test_register (whole "name3") 3 4).1 = none ∧
    (Register.add_field 0 test_register (whole "name3") 1 1).1 = none ∧
    (Register.add_field 0 test_register (whole "name3") 3 2).1 = none ∧
    (Register.add_field 0 test_register (whole "name3") 8 3).1 = none ∧
    (Register.add_field 0 test_register (whole "name3") 7 3).1 = some 3 := by
  decide

/-! ## Machine word lemmas -/

theorem shl1u_lt (t : Target) (i : Nat) : shl1u t i < two64 := by
  unfold shl1u
  split
  · rename_i h
    exact Nat.pow_lt_pow_right (by decide) (by omega)
  · exact Nat.mod_lt _ (by decide)

theorem testBit_foldl_or (t : Target) (l : List Nat) (acc i : Nat) :
    (l.foldl (fun r j => r ||| shl1u t j) acc).testBit i
      = (acc.testBit i || l.any (fun j => (shl1u t j).testBit i)) := by
  induction l generalizing acc with
  | nil => simp
  | cons a l ih => simp [ih, Bool.or_assoc]

theorem foldl_or_lt (t : Target) (l : List Nat) (acc n : Nat) (hacc : acc < 2 ^ n)
    (h : ∀ j ∈ l, shl1u t j < 2 ^ n) :
    l.foldl (fun r j => r ||| shl1u t j) acc < 2 ^ n := by
  induction l generalizing acc with
  | nil => simpa using hacc
  | cons a l ih =>
    simp only [List.foldl_cons]
    exact ih _ (Nat.or_lt_two_pow hacc (h a (by simp))) (fun j hj => h j (by simp [hj]))

theorem make_mask_lt (t : Target) (msb lsb : Nat) : make_mask t msb lsb < two64 := by
  unfold make_mask
  exact foldl_or_lt t _ 0 64 (by decide) (fun j _ => shl1u_lt t j)

theorem make_mask_lt_of_shl32 (t : Target) (h : ∀ i, t.shl32 i < 2 ^ 32) (msb lsb : Nat) :
    make_mask t msb lsb < 2 ^ 32 := by
  unfold make_mask
  apply foldl_or_lt t _ 0 32 (by decide)
  intro j _
  unfold shl1u
  split
  · exact Nat.pow_lt_pow_right (by decide) (by assumption)
  · exact Nat.lt_of_le_of_lt (Nat.mod_le _ _) (h j)

theorem testBit_false_of_lt {x n i : Nat} (hx : x < 2 ^ n) (hi : n ≤ i) : x.testBit i = false :=
  Nat.testBit_lt_two_pow (Nat.lt_of_lt_of_le hx (Nat.pow_le_pow_right (by decide) hi))

/-- Below bit 32 the mask has exactly the bits `lsb..msb`, on every target. -/
theorem testBit_make_mask (t : Target) (msb lsb i : Nat) (h : msb ≤ 31) :
    (make_mask t msb lsb).testBit i = decide (lsb ≤ i ∧ i ≤ msb) := by
  unfold make_mask
  rw [testBit_foldl_or]
  simp only [Nat.zero_testBit, Bool.false_or]
  have h1 : (if msb > 63 then 63 else msb) = msb := by split <;> omega
  rw [h1]
  by_cases hl : lsb > 63
  · have h2 : msb + 1 - (if lsb > 63 then 63 else lsb) = 0 := by split <;> omega
    rw [h2]
    simp
    omega
  · have h2 : (if lsb > 63 then 63 else lsb) = lsb := by split <;> omega
    rw [h2]
    rw [Bool.eq_iff_iff]
    simp only [List.any_eq_true, List.mem_range', decide_eq_true_eq]
    constructor
    · rintro ⟨j, ⟨k, hk, rfl⟩, hj⟩
      have hj32 : lsb + 1 * k < 32 := by omega
      simp only [shl1u, hj32, if_true, Nat.testBit_two_pow, decide_eq_true_eq] at hj
      omega
    · rintro ⟨h3, h4⟩
      refine ⟨i, ⟨i - lsb, by omega, by omega⟩, ?_⟩
      have hj32 : i < 32 := by omega
      simp [shl1u, hj32, Nat.testBit_two_pow]

theorem make_mask_eq (t : Target) (msb lsb : Nat) (h : msb ≤ 31) :
    make_mask t msb lsb = make_mask Target.wrapping msb lsb := by
  apply Nat.eq_of_testBit_eq
  intro i
  rw [testBit_make_mask t msb lsb i h, testBit_make_mask _ msb lsb i h]

theorem usub_one (n : Nat) (h1 : 1 ≤ n) (h2 : n ≤ two64) : usub n 1 = n - 1 := by
  unfold usub two64 at *
  omega

theorem uadd_of_lt (a b : Nat) (h : a + b < two64) : uadd a b = a + b := by
  unfold uadd
  exact Nat.mod_eq_of_lt h

theorem make_mask_width (t : Target) (n : Nat) (h1 : 1 ≤ n) (h32 : n ≤ 32) :
    make_mask t (usub n 1) 0 = 2 ^ n - 1 := by
  rw [usub_one n h1 (by unfold two64; omega)]
  apply Nat.eq_of_testBit_eq
  intro i
  rw [testBit_make_mask t (n - 1) 0 i (by omega), Nat.testBit_two_pow_sub_one]
  have : (0 ≤ i ∧ i ≤ n - 1) ↔ i < n := by omega
  simp only [this]

theorem make_mask_63_0_and (t : Target) (x : Nat) (hx : x < 2 ^ 32) :
    make_mask t 63 0 &&& x = x := by
  apply Nat.eq_of_testBit_eq
  intro i
  rw [Nat.testBit_and]
  by_cases hi : i < 32
  · have hdef : make_mask t 63 0
        = (List.range' 0 64).foldl (fun r i => r ||| shl1u t i) 0 := rfl
    have hbit : (make_mask t 63 0).testBit i = true := by
      rw [hdef, testBit_foldl_or]
      simp only [Nat.zero_testBit, Bool.false_or, List.any_eq_true, List.mem_range']
      refine ⟨i, ⟨i, by omega, by omega⟩, ?_⟩
      simp [shl1u, hi, Nat.testBit_two_pow]
    simp [hbit]
  · rw [testBit_false_of_lt hx (by omega)]
    simp

theorem and_make_mask_width (t : Target) (n val : Nat) (hn : n ≤ 32) (hv : val < 2 ^ n) :
    val &&& make_mask t (usub n 1) 0 = val := by
  rcases Nat.eq_zero_or_pos n with h0 | hpos
  · subst h0
    have : val = 0 := by simpa using hv
    subst this
    exact Nat.zero_and _
  · rw [usub_one n hpos (by unfold two64; omega)]
    apply Nat.eq_of_testBit_eq
    intro i
    rw [Nat.testBit_and, testBit_make_mask t (n - 1) 0 i (by omega)]
    by_cases hi : i < n
    · have : (0 ≤ i ∧ i ≤ n - 1) := ⟨Nat.zero_le _, by omega⟩
      simp [this]
    · rw [testBit_false_of_lt hv (by omega)]
      simp

theorem testBit_bnot (x i : Nat) : (bnot x).testBit i = (decide (i < 64) && !x.testBit i) := by
  unfold bnot two64
  rw [Nat.testBit_xor, Nat.testBit_two_pow_sub_one, Nat.testBit_mod_two_pow]
  by_cases h : i < 64 <;> simp [h]

theorem testBit_shl (t : Target) (x n i : Nat) (hn : n < 64) :
    (shl t x n).testBit i = (decide (i < 64) && decide (n ≤ i) && x.testBit (i - n)) := by
  unfold shl two64
  rw [if_pos hn, Nat.testBit_mod_two_pow, Nat.testBit_shiftLeft]
  simp [Bool.and_assoc]

theorem testBit_shr (t : Target) (x n i : Nat) (hn : n < 64) :
    (shr t x n).testBit i = x.testBit (n + i) := by
  unfold shr
  rw [if_pos hn, Nat.testBit_shiftRight]

/-! ## Container lemmas -/

theorem find_if_le_length {α : Type} (p : α → Bool) (v : List α) : find_if p v ≤ v.length :=
  List.findIdx_le_length p

theorem find_if_eq_length_iff {α : Type} (p : α → Bool) (v : List α) :
    find_if p v = v.length ↔ ∀ x ∈ v, p x = false :=
  List.findIdx_eq_length

theorem mem_vec_insert {α : Type} (v : List α) (k : Nat) (x y : α) :
    y ∈ vec_insert v k x ↔ y = x ∨ y ∈ v := by
  unfold vec_insert
  rw [List.mem_append, List.mem_cons]
  constructor
  · rintro (h | h | h)
    · exact Or.inr (List.mem_of_mem_take h)
    · exact Or.inl h
    · exact Or.inr (List.mem_of_mem_drop h)
  · rintro (h | h)
    · exact Or.inr (Or.inl h)
    · rw [← List.take_append_drop k v, List.mem_append] at h
      rcases h with h | h
      · exact Or.inl h
      · exact Or.inr (Or.inr h)

theorem vec_insert_perm {α : Type} (v : List α) (k : Nat) (x : α) :
    (vec_insert v k x).Perm (x :: v) := by
  unfold vec_insert
  have h := @List.perm_middle α x (v.take k) (v.drop k)
  rwa [List.take_append_drop] at h

theorem getElem?_vec_insert {α : Type} (v : List α) (k : Nat) (x : α) (hk : k ≤ v.length) :
    (vec_insert v k x)[k]? = some x := by
  unfold vec_insert
  have hlen : (v.take k).length = k := by simp [List.length_take, hk]
  rw [List.getElem?_append_right (by omega)]
  simp [hlen]

theorem find_if_vec_insert {α : Type} (q : α → Bool) (v : List α) (k : Nat) (x : α)
    (hk : k ≤ v.length) (hbefore : ∀ a ∈ v, q a = false) (hx : q x = true) :
    find_if q (vec_insert v k x) = k := by
  unfold find_if vec_insert
  have hlen : (v.take k).length = k := by simp [List.length_take, hk]
  have h1 : (v.take k).findIdx q = (v.take k).length :=
    List.findIdx_eq_length_of_false (fun a ha => hbefore a (List.mem_of_mem_take ha))
  rw [List.findIdx_append, h1, List.findIdx_cons, hx]
  simp [hlen]

/-- Inserting before the first element with a larger key keeps a list sorted by key. -/
theorem sorted_vec_insert_find_if {α : Type} (key : α → Nat) (x : α) (v : List α)
    (hs : v.Pairwise (fun a b => key a ≤ key b)) :
    (vec_insert v (find_if (fun a => decide (key x < key a)) v) x).Pairwise
      (fun a b => key a ≤ key b) := by
  induction v with
  | nil => simp [vec_insert, find_if]
  | cons a v ih =>
    rw [List.pairwise_cons] at hs
    by_cases h : key x < key a
    · have : find_if (fun a => decide (key x < key a)) (a :: v) = 0 := by
        simp [find_if, List.findIdx_cons, h]
      rw [this]
      simp only [vec_insert, List.take_zero, List.drop_zero, List.nil_append]
      rw [List.pairwise_cons, List.pairwise_cons]
      refine ⟨?_, hs⟩
      intro b hb
      rcases List.mem_cons.1 hb with rfl | hb
      · omega
      · have := hs.1 b hb
        omega
    · have : find_if (fun a => decide (key x < key a)) (a :: v)
          = find_if (fun a => decide (key x < key a)) v + 1 := by
        simp [find_if, List.findIdx_cons, h]
      rw [this]
      have hcons : vec_insert (a :: v) (find_if (fun a => decide (key x < key a)) v + 1) x
          = a :: vec_insert v (find_if (fun a => decide (key x < key a)) v) x := by
        simp [vec_insert]
      rw [hcons, List.pairwise_cons]
      refine ⟨?_, ih hs.2⟩
      intro b hb
      rcases (mem_vec_insert _ _ _ _).1 hb with rfl | hb
      · omega
      · exact hs.1 b hb

/-- A symmetric pairwise relation survives an insertion of an element related to all. -/
theorem pairwise_vec_insert {α : Type} (R : α → α → Prop) (hsymm : ∀ {a b}, R a b → R b a)
    (v : List α) (k : Nat) (x : α) (hx : ∀ a ∈ v, R x a) (hv : v.Pairwise R) :
    (vec_insert v k x).Pairwise R := by
  rw [(vec_insert_perm v k x).pairwise_iff hsymm, List.pairwise_cons]
  exact ⟨hx, hv⟩

/-! ## `Register::set_value` (C1, C2) -/

theorem set_field_values_of_no_enum (t : Target) (val : Nat) (fs : List Field)
    (h : ∀ f ∈ fs, f.values = []) :
    set_field_values t val fs
      = (true, fs.map (fun f =>
          { f with value := shr t (val &&& make_mask t f.msb f.lsb) f.lsb })) := by
  induction fs with
  | nil => rfl
  | cons f fs ih =>
    have hf : f.values = [] := h f (by simp)
    have ih' := ih (fun g hg => h g (by simp [hg]))
    simp [set_field_values, hf, ih']

/-- On a register of at most 32 bits whose fields have no enumerated values, a value
that respects the masks, the width and the register's enumerated values is accepted and
cascaded to every field, on every target. -/
theorem Register.set_value_of_width_le_32 (t : Target) (r : Register) (val : Nat)
    (hfields : ∀ f ∈ r.fields, f.values = [])
    (hz : val &&& r.zeros_mask = 0) (ho : val &&& r.ones_mask = r.ones_mask)
    (hw : val < 2 ^ r.num_bits) (hn : r.num_bits ≤ 32)
    (hv : r.values ≠ [] → ∃ v ∈ r.values, v.value = val) :
    r.set_value t val
      = (true, { r with
          value := val
          fields := r.fields.map (fun f =>
            { f with value := shr t (val &&& make_mask t f.msb f.lsb) f.lsb }) }) := by
  unfold Register.set_value
  rw [if_neg (by simp [hz]), if_neg (by simp [ho]),
    if_neg (by simp [and_make_mask_width t _ val hn hw])]
  rw [set_field_values_of_no_enum t val r.fields hfields]
  by_cases hne : r.values = []
  · simp [hne]
  · obtain ⟨v, hv1, hv2⟩ := hv hne
    have hany : (r.values.any fun v => decide (v.value = val)) = true := by
      simp only [List.any_eq_true, decide_eq_true_eq]
      exact ⟨v, hv1, hv2⟩
    simp [hne, hany]

/-- The 64-bit register rejects bit 40 on every target whose `1u << i` is a 32-bit
value, whatever that value is. -/
theorem Register.set_value_wide_of_shl32 (t : Target) (h : ∀ i, t.shl32 i < 2 ^ 32) :
    Register.set_value t wide_register (2 ^ 40) = (false, wide_register) := by
  have hm := make_mask_lt_of_shl32 t h (usub wide_register.num_bits 1) 0
  have hne : 2 ^ 40 &&& make_mask t (usub wide_register.num_bits 1) 0 ≠ 2 ^ 40 := by
    intro hc
    have := Nat.and_lt_two_pow (2 ^ 40) hm
    rw [hc] at this
    exact absurd this (by decide)
  unfold Register.set_value
  rw [if_neg (by decide), if_neg (by decide), if_pos hne]

/-- C1 (code defect): `set_value(1 << 40)` on a detached register of 8 bytes (64 bits, no
masks, no fields, no enumerated values) is rejected where shift counts wrap, although
the value has no bit at or above the register's width: `make_mask(63, 0)` is built from
`1u << i` and comes out as `0xFFFFFFFF`. -/
theorem Register.set_value_rejects_value_within_64_bits :
    wide_register.num_bits = 64 ∧ 2 ^ 40 < 2 ^ wide_register.num_bits ∧
    wide_register.fields = [] ∧ wide_register.values = [] ∧
    2 ^ 40 &&& wide_register.zeros_mask = 0 ∧
    2 ^ 40 &&& wide_register.ones_mask = wide_register.ones_mask ∧
    make_mask Target.wrapping 63 0 = 0xFFFFFFFF ∧
    Register.set_value Target.wrapping wide_register (2 ^ 40) = (false, wide_register) := by
  decide

/-- When no field has enumerated values, a rejected `Register::set_value` leaves the
register as it was. -/
theorem Register.set_value_false_of_no_enum (t : Target) (r : Register) (val : Nat)
    (hfields : ∀ f ∈ r.fields, f.values = [])
    (hfalse : (r.set_value t val).1 = false) : (r.set_value t val).2 = r := by
  unfold Register.set_value at hfalse ⊢
  rw [set_field_values_of_no_enum t val r.fields hfields] at hfalse ⊢
  by_cases h1 : val &&& r.zeros_mask ≠ 0
  · rw [if_pos h1]
  · by_cases h2 : val &&& r.ones_mask ≠ r.ones_mask
    · rw [if_neg h1, if_pos h2]
    · by_cases h3 : val &&& make_mask t (usub r.num_bits 1) 0 ≠ val
      · rw [if_neg h1, if_neg h2, if_pos h3]
      · by_cases h4 : ¬ r.values.isEmpty
        · by_cases h5 : (r.values.any fun v => decide (v.value = val)) = true
          · rw [if_neg h1, if_neg h2, if_neg h3, if_pos h4, if_pos h5] at hfalse
            simp at hfalse
          · rw [if_neg h1, if_neg h2, if_neg h3, if_pos h4, if_neg h5]
        · rw [if_neg h1, if_neg h2, if_neg h3, if_neg h4] at hfalse
          simp at hfalse

/-- The register of C2 is what `add_field("f0", 0, 0)` on a default register followed by
`add_value({"on", "", 1})` on the new field builds. -/
theorem enum_register_reachable :
    (Register.add_field 0 {} (whole "f0") 0 0).2.fields
      = [{ enum_field with values := [] }] ∧
    Field.add_value Target.wrapping { enum_field with values := [] }
        { name := "on".toList, value := 1 }
      = (true, enum_field) ∧
    enum_register
      = { (Register.add_field 0 {} (whole "f0") 0 0).2 with fields := [enum_field] } := by
  decide

/-- C2 (code defect): on a detached 8-bit register whose one-bit field has the enumerated
value 1, `set_value(1)` returns false on every target, yet the register's value and the
field's value have both changed from 0 to 1. -/
theorem Register.set_value_false_after_write : ∀ t : Target,
    enum_register.value = 0 ∧ enum_field.value = 0 ∧
    Register.set_value t enum_register 1
      = (false, { enum_register with
          value := 1
          fields := [{ enum_field with value := 1 }] }) := by
  intro t
  refine ⟨rfl, rfl, ?_⟩
  simp [Register.set_value, set_field_values, make_mask, shl1u, shr, usub, Register.num_bits,
    umul, enum_register, enum_field, set_field_values_inner, List.range', two64]

/-! ## `Field::set_value` (C3, C4) -/

theorem and_bnot_shr_mask_eq_zero_iff (t : Target) (msb lsb val : Nat) (hl : lsb ≤ msb)
    (hm : msb ≤ 31) (hval : val < two64) :
    val &&& bnot (shr t (make_mask t msb lsb) lsb) = 0 ↔ val < 2 ^ (msb - lsb + 1) := by
  have hbit : ∀ i, (val &&& bnot (shr t (make_mask t msb lsb) lsb)).testBit i
      = (val.testBit i && decide (i < 64) && !decide (i ≤ msb - lsb)) := by
    intro i
    rw [Nat.testBit_and, testBit_bnot, testBit_shr t _ _ _ (by omega),
      testBit_make_mask t msb lsb _ hm]
    have : (lsb ≤ lsb + i ∧ lsb + i ≤ msb) ↔ i ≤ msb - lsb := by omega
    simp only [this, Bool.and_assoc]
  constructor
  · intro h
    apply Nat.lt_pow_two_of_testBit
    intro i hi
    by_cases h64 : i < 64
    · have := hbit i
      rw [h, Nat.zero_testBit] at this
      have hni : ¬ i ≤ msb - lsb := by omega
      simp [h64, hni] at this
      exact this
    · exact testBit_false_of_lt hval (by omega)
  · intro h
    apply Nat.eq_of_testBit_eq
    intro i
    rw [hbit, Nat.zero_testBit]
    by_cases hi : i ≤ msb - lsb
    · simp [hi]
    · rw [testBit_false_of_lt h (by omega)]
      simp

/-- The flag `Field::set_value` returns, in terms of its two guards. -/
theorem Field.set_value_fst (t : Target) (f : Field) (reg : Register) (val : Nat) :
    (f.set_value t reg val).1
      = (decide (val &&& bnot (shr t (make_mask t f.msb f.lsb) f.lsb) = 0) &&
          (f.values.isEmpty || f.values.any (fun v => decide (v.value = val)))) := by
  unfold Field.set_value
  by_cases h1 : val &&& bnot (shr t (make_mask t f.msb f.lsb) f.lsb) = 0
  · by_cases h2 : f.values.isEmpty = true
    · simp [h1, h2]
    · by_cases h3 : (f.values.any fun v => decide (v.value = val)) = true
      · simp only [h1, h2, h3]
        simp
      · simp only [h1, h2, h3]
        simp
  · simp [h1]

/-- A rejected `Field::set_value` changes neither the field nor its register. -/
theorem Field.set_value_false_unchanged (t : Target) (f : Field) (reg : Register) (val : Nat)
    (h : (f.set_value t reg val).1 = false) : (f.set_value t reg val).2 = (f, reg) := by
  unfold Field.set_value at h ⊢
  by_cases h1 : val &&& bnot (shr t (make_mask t f.msb f.lsb) f.lsb) ≠ 0
  · rw [if_pos h1]
  · by_cases h2 : ¬ f.values.isEmpty
    · by_cases h3 : (f.values.any fun v => decide (v.value = val)) = true
      · rw [if_neg h1, if_pos h2, if_pos h3] at h
        simp at h
      · rw [if_neg h1, if_pos h2, if_neg h3]
    · rw [if_neg h1, if_neg h2] at h
      simp at h

/-- An accepted `Field::set_value` stores `val` and splices it into the register. -/
theorem Field.set_value_true_eq (t : Target) (f : Field) (reg : Register) (val : Nat)
    (h : (f.set_value t reg val).1 = true) :
    (f.set_value t reg val).2 = ({ f with value := val }, f.set_register_value t val reg) := by
  unfold Field.set_value at h ⊢
  by_cases h1 : val &&& bnot (shr t (make_mask t f.msb f.lsb) f.lsb) ≠ 0
  · rw [if_pos h1] at h
    simp at h
  · by_cases h2 : ¬ f.values.isEmpty
    · by_cases h3 : (f.values.any fun v => decide (v.value = val)) = true
      · rw [if_neg h1, if_pos h2, if_pos h3]
      · rw [if_neg h1, if_pos h2, if_neg h3] at h
        simp at h
    · rw [if_neg h1, if_neg h2]

/-- For a field inside the low 32 bits, an accepted `Field::set_value` stores `val`,
makes bits `lsb..msb` of the register equal to `val` and keeps every other bit, on
every target. -/
theorem Field.set_value_splices (t : Target) (f : Field) (reg : Register) (val p : Nat)
    (hreg : f.reg = some p) (hl : f.lsb ≤ f.msb) (hm : f.msb ≤ 31)
    (hval : val < two64) (hrv : reg.value < two64)
    (hok : (f.set_value t reg val).1 = true) :
    (f.set_value t reg val).2.1.value = val ∧
    ((f.set_value t reg val).2.2.value >>> f.lsb) % 2 ^ (f.msb - f.lsb + 1) = val ∧
    ∀ i, (i < f.lsb ∨ f.msb < i) →
      (f.set_value t reg val).2.2.value.testBit i = reg.value.testBit i := by
  have hw : val < 2 ^ (f.msb - f.lsb + 1) := by
    rw [Field.set_value_fst] at hok
    simp only [Bool.and_eq_true, decide_eq_true_eq] at hok
    exact (and_bnot_shr_mask_eq_zero_iff t f.msb f.lsb val hl hm hval).1 hok.1
  rw [Field.set_value_true_eq t f reg val hok]
  simp only [Field.set_register_value, hreg, Option.isNone_some]
  refine ⟨trivial, ?_, ?_⟩
  · apply Nat.eq_of_testBit_eq
    intro j
    rw [Nat.testBit_mod_two_pow, Nat.testBit_shiftRight]
    simp only [Bool.false_eq_true, if_false, Nat.testBit_or, Nat.testBit_and, testBit_bnot,
      testBit_make_mask t f.msb f.lsb _ hm, testBit_shl t val f.lsb _ (by omega)]
    by_cases hj : j < f.msb - f.lsb + 1
    · have h1 : f.lsb + j < 64 := by omega
      have h2 : f.lsb ≤ f.lsb + j ∧ f.lsb + j ≤ f.msb := by omega
      have h3 : f.lsb + j - f.lsb = j := by omega
      simp [hj, h1, h2, h3]
    · have hvj : val.testBit j = false := testBit_false_of_lt hw (by omega)
      simp [hj, hvj]
  · intro i hi
    simp only [Bool.false_eq_true, if_false, Nat.testBit_or, Nat.testBit_and, testBit_bnot,
      testBit_make_mask t f.msb f.lsb _ hm, testBit_shl t val f.lsb _ (by omega)]
    have h2 : ¬ (f.lsb ≤ i ∧ i ≤ f.msb) := by omega
    by_cases h64 : i < 64
    · rcases hi with hi | hi
      · have : ¬ f.lsb ≤ i := by omega
        simp [h64, h2, this]
      · rw [testBit_false_of_lt hw (show f.msb - f.lsb + 1 ≤ i - f.lsb by omega)]
        simp [h64, h2]
    · rw [testBit_false_of_lt hrv (show 64 ≤ i by omega)]
      simp [h64]

/-- On every target whose `1u << i` is a 32-bit value, `set_value(0)` on the field on bits
32..40 returns true and leaves bit 32 of a register whose value is `2^32` set. -/
theorem Field.set_value_high_field_keeps_bit_32 (t : Target) (h : ∀ i, t.shl32 i < 2 ^ 32) :
    (Field.set_value t high_field { wide_register with value := 2 ^ 32 } 0).1 = true ∧
    (Field.set_value t high_field { wide_register with value := 2 ^ 32 } 0).2.2.value.testBit 32
      = true := by
  have hm := make_mask_lt_of_shl32 t h high_field.msb high_field.lsb
  have hok : (Field.set_value t high_field { wide_register with value := 2 ^ 32 } 0).1
      = true := by
    rw [Field.set_value_fst]
    simp [high_field]
  refine ⟨hok, ?_⟩
  rw [Field.set_value_true_eq t _ _ _ hok]
  simp only [Field.set_register_value, high_field, Option.isNone_some, Bool.false_eq_true,
    if_false, Nat.testBit_or, Nat.testBit_and, testBit_bnot]
  have hbit : (make_mask t 40 32).testBit 32 = false := testBit_false_of_lt hm (le_refl _)
  rw [hbit]
  simp
  exact Or.inl (by decide)

/-- C3 (code defect): where shift counts wrap, `set_value(0)` on a field that covers bits
32..40 (`lsb <= msb`, attached to a 64-bit register whose value is 1) returns true and
clears bit 0 of the register, a bit outside `lsb..msb`: `make_mask(40, 32)` is built from
`1u << i` and comes out as `0x1FF`. -/
theorem Field.set_value_clears_bit_outside_high_field :
    high_register.num_bits = 64 ∧ high_register.value = 1 ∧
    high_register.fields = [high_field] ∧
    high_field.lsb ≤ high_field.msb ∧ high_field.reg = some 0 ∧
    make_mask Target.wrapping 40 32 = 0x1FF ∧
    Field.set_value Target.wrapping high_field high_register 0
      = (true, high_field, { high_register with value := 0 }) ∧
    Nat.testBit 1 0 = true ∧ Nat.testBit 0 0 = false := by
  decide

/-- For a field inside the low 32 bits, `Field::set_value` returns false exactly when
`val` has a bit at or above position `msb - lsb + 1`, or the field has enumerated values
and none of them is `val`; this holds on every target. -/
theorem Field.set_value_false_iff (t : Target) (f : Field) (reg : Register) (val : Nat)
    (hl : f.lsb ≤ f.msb) (hm : f.msb ≤ 31) (hval : val < two64) :
    (f.set_value t reg val).1 = false ↔
      (∃ i, f.msb - f.lsb + 1 ≤ i ∧ val.testBit i = true) ∨
      (f.values ≠ [] ∧ ∀ v ∈ f.values, v.value ≠ val) := by
  have hbits : (∃ i, f.msb - f.lsb + 1 ≤ i ∧ val.testBit i = true) ↔
      ¬ val < 2 ^ (f.msb - f.lsb + 1) := by
    constructor
    · rintro ⟨i, hi, hb⟩ hlt
      rw [testBit_false_of_lt hlt hi] at hb
      exact absurd hb (by decide)
    · intro hlt
      by_contra hne
      apply hlt
      apply Nat.lt_pow_two_of_testBit
      intro i hi
      by_contra hb
      exact hne ⟨i, hi, by simpa using hb⟩
  rw [Field.set_value_fst, hbits, ← and_bnot_shr_mask_eq_zero_iff t f.msb f.lsb val hl hm hval]
  by_cases h1 : val &&& bnot (shr t (make_mask t f.msb f.lsb) f.lsb) = 0
  · by_cases h2 : f.values = []
    · simp [h1, h2]
    · simp [h1, h2, List.isEmpty_iff]
  · simp [h1]

/-- The field on bits 32..40 rejects 1 on every target whose `1u << i` is a 32-bit
value, whatever that value is. -/
theorem Field.set_value_high_field_of_shl32 (t : Target) (h : ∀ i, t.shl32 i < 2 ^ 32) :
    (Field.set_value t high_field wide_register 1).1 = false := by
  have hm := make_mask_lt_of_shl32 t h high_field.msb high_field.lsb
  have hz : shr t (make_mask t high_field.msb high_field.lsb) high_field.lsb = 0 := by
    unfold shr
    rw [if_pos (by decide)]
    rw [Nat.shiftRight_eq_div_pow]
    exact Nat.div_eq_of_lt hm
  rw [Field.set_value_fst, hz]
  decide

/-- C4 (code defect): where shift counts wrap, `set_value(1)` on a field that covers bits
32..40 of a 64-bit register and has no enumerated values returns false, although 1 has
no bit at or above position `msb - lsb + 1 = 9`. -/
theorem Field.set_value_rejects_one_on_high_field :
    high_register.fields = [high_field] ∧
    high_field.msb - high_field.lsb + 1 = 9 ∧ 1 < 2 ^ 9 ∧ high_field.values = [] ∧
    Field.set_value Target.wrapping high_field high_register 1
      = (false, high_field, high_register) := by
  decide

/-! ## `Group::add_reg` (C5, C6) -/

theorem to_string_of_whole (name : string_view) (h : name.data = name.chars) :
    to_string name = name.chars := by
  unfold to_string
  split
  · rename_i he
    simpa using he.symm
  · exact h

theorem to_string_eq_nil_of_empty (name : string_view) (h : name.chars = []) :
    to_string name = [] := by
  simp [to_string, h]

theorem is_valid_register_iff (registers : List Register) (reg : Register) :
    is_valid_register registers reg = true ↔
      reg.name ≠ [] ∧ reg.size ≠ 0 ∧
      ∀ r ∈ registers, ¬ (reg.name = r.name ∨
        (reg.addr ≤ r.addr ∧ uadd reg.addr reg.size > r.addr) ∨
        (reg.addr ≥ r.addr ∧ reg.addr < uadd r.addr r.size)) := by
  unfold is_valid_register
  by_cases h : reg.name.isEmpty = true ∨ reg.size = 0
  · rw [if_pos h]
    rcases h with h | h
    · simp [List.isEmpty_iff.1 h]
    · simp [h]
  · rw [if_neg h]
    simp only [not_or, List.isEmpty_iff] at h
    simp only [decide_eq_true_eq, find_if_eq_length_iff, decide_eq_false_iff_not]
    exact ⟨fun hr => ⟨h.1, h.2, hr⟩, fun hr => hr.2.2⟩

/-- The register `Group::add_reg` checks: its name is `detail::to_string(name)`. -/
theorem Group.add_reg_eq (this : Nat) (g : Group) (name : string_view) (addr size : Nat) :
    g.add_reg this name addr size
      = if is_valid_register g.registers
            (Register.ctor (string_view.of_string (to_string name)) addr size) = true then
          (some (find_if (fun r : Register => decide (addr < r.addr)) g.registers),
            { g with registers := (vec_insert g.registers
                (find_if (fun r : Register => decide (addr < r.addr)) g.registers)
                { group := some { addr := this, device := g.device }, name := name.data,
                  addr := addr, size := size }) })
        else (none, g) := by
  unfold Group.add_reg
  by_cases h : is_valid_register g.registers
      (Register.ctor (string_view.of_string (to_string name)) addr size) = true
  · simp [h]
  · simp [h]

/-- For a name that is a whole C string, a successful `Group::add_reg` inserts one
register carrying the name, the address, the size and a pointer to the group, keeps
the list sorted by address, returns that register, and `reg` and `has_register` find it. -/
theorem Group.add_reg_success (this : Nat) (g : Group) (name : string_view) (addr size k : Nat)
    (hname : name.data = name.chars)
    (hsorted : g.registers.Pairwise (fun a b => a.addr ≤ b.addr))
    (hok : (g.add_reg this name addr size).1 = some k) :
    (g.add_reg this name addr size).2
        = { g with registers := g.registers.take k ++
              ({ group := some { addr := this, device := g.device }, name := name.chars,
                 addr := addr, size := size } : Register) :: g.registers.drop k } ∧
      k ≤ g.registers.length ∧
      (g.add_reg this name addr size).2.registers.Pairwise (fun a b => a.addr ≤ b.addr) ∧
      (g.add_reg this name addr size).2.registers[k]?
        = some { group := some { addr := this, device := g.device }, name := name.chars,
                 addr := addr, size := size } ∧
      (g.add_reg this name addr size).2.reg name = some k ∧
      (g.add_reg this name addr size).2.has_register name = true := by
  rw [Group.add_reg_eq] at hok ⊢
  by_cases hv : is_valid_register g.registers
      (Register.ctor (string_view.of_string (to_string name)) addr size) = true
  · rw [if_pos hv] at hok ⊢
    simp only [Option.some.injEq] at hok
    subst hok
    rw [hname]
    have hk := find_if_le_length (fun r : Register => decide (addr < r.addr)) g.registers
    have hnames : ∀ r ∈ g.registers, decide (r.name = name.chars) = false := by
      intro r hr
      have := ((is_valid_register_iff _ _).1 hv).2.2 r hr
      simp only [Register.ctor, string_view.of_string, to_string_of_whole name hname,
        not_or] at this
      simpa using fun h => this.1 h.symm
    have hfind := find_if_vec_insert (fun r : Register => decide (r.name = name.chars))
      g.registers _
      ({ group := some { addr := this, device := g.device }, name := name.chars,
         addr := addr, size := size } : Register) hk hnames (by simp)
    refine ⟨rfl, hk, ?_, ?_, ?_, ?_⟩
    · exact sorted_vec_insert_find_if (fun r : Register => r.addr)
        ({ group := some { addr := this, device := g.device }, name := name.chars,
           addr := addr, size := size } : Register) g.registers hsorted
    · exact getElem?_vec_insert _ _ _ hk
    · simp only [Group.reg]
      rw [hfind]
      have hlen : (vec_insert g.registers
          (find_if (fun r : Register => decide (addr < r.addr)) g.registers)
          ({ group := some { addr := this, device := g.device }, name := name.chars,
             addr := addr, size := size } : Register)).length = g.registers.length + 1 :=
        (vec_insert_perm _ _ _).length_eq
      rw [hlen, if_neg (by omega)]
    · simp only [Group.has_register]
      rw [hfind]
      have hlen : (vec_insert g.registers
          (find_if (fun r : Register => decide (addr < r.addr)) g.registers)
          ({ group := some { addr := this, device := g.device }, name := name.chars,
             addr := addr, size := size } : Register)).length = g.registers.length + 1 :=
        (vec_insert_perm _ _ _).length_eq
      rw [hlen]
      simp
      omega
  · rw [if_neg hv] at hok
    simp at hok

/-- C5 (code defect): `add_reg` on an empty group with the view of the first three
characters of `abcdef` succeeds, but the inserted register is named `abcdef` (the source
assigns `name.data()`), so `reg(name)` returns `nullptr` and `has_register(name)` is false. -/
theorem Group.add_reg_stores_c_string_of_view :
    abc_of_abcdef.chars = "abc".toList ∧
    (Group.add_reg 0 {} abc_of_abcdef 0 1).1 = some 0 ∧
    (Group.add_reg 0 {} abc_of_abcdef 0 1).2.registers.map (fun r => r.name)
      = ["abcdef".toList] ∧
    Group.reg (Group.add_reg 0 {} abc_of_abcdef 0 1).2 abc_of_abcdef = none ∧
    Group.has_register (Group.add_reg 0 {} abc_of_abcdef 0 1).2 abc_of_abcdef = false := by
  decide

/-- C6 (counterexample): a group that holds register `a` at address `2^64 - 1` with size 1
accepts `add_reg("b", 2^64 - 1, 1)`: both extents are `[2^64 - 1, 2^64)`, yet the result
is not `nullptr` and the group then holds two registers at the same address.  A new
extent that reaches `2^64` is accepted over a register it contains, a new register is
accepted inside an existing extent that reaches `2^64`, and the view of the first three
characters of `abcdef` is accepted next to a register named `abc`. -/
theorem Group.add_reg_accepts_shared_top_address :
    top_group.registers.map (fun r => (r.name, r.addr, r.size))
      = [("a".toList, 2 ^ 64 - 1, 1)] ∧
    (Group.add_reg 0 top_group (whole "b") (2 ^ 64 - 1) 1).1 = some 1 ∧
    (Group.add_reg 0 top_group (whole "b") (2 ^ 64 - 1) 1).2.registers.map
        (fun r => (r.name, r.addr, r.size))
      = [("a".toList, 2 ^ 64 - 1, 1), ("b".toList, 2 ^ 64 - 1, 1)] ∧
    group_near_top.registers.map (fun r => (r.name, r.addr, r.size))
      = [("a".toList, 2 ^ 64 - 3, 2)] ∧
    (Group.add_reg 0 group_near_top (whole "b") (2 ^ 64 - 4) 4).1 = some 0 ∧
    group_to_top.registers.map (fun r => (r.name, r.addr, r.size))
      = [("a".toList, 2 ^ 64 - 4, 4)] ∧
    (Group.add_reg 0 group_to_top (whole "b") (2 ^ 64 - 3) 1).1 = some 1 ∧
    group_abc.registers.map (fun r => r.name) = [abc_of_abcdef.chars] ∧
    (Group.add_reg 0 group_abc abc_of_abcdef 5 1).1 = some 1 := by
  decide

/-- C6 (amended): `Group::add_reg` returns `nullptr` and leaves the group as it was when
the name is empty, when the name is a whole C string and equals the name of an existing
register, when the size is 0, or when the new extent `[addr, addr + size)` meets the
extent of an existing register and neither extent reaches `2 ^ 64`. -/
theorem Group.add_reg_rejected (this : Nat) (g : Group) (name : string_view) (addr size : Nat)
    (h : name.chars = [] ∨
      (name.data = name.chars ∧ ∃ r ∈ g.registers, r.name = name.chars) ∨
      size = 0 ∨
      ∃ r ∈ g.registers, addr + size < two64 ∧ r.addr + r.size < two64 ∧
        ∃ a, addr ≤ a ∧ a < addr + size ∧ r.addr ≤ a ∧ a < r.addr + r.size) :
    g.add_reg this name addr size = (none, g) := by
  rw [Group.add_reg_eq]
  rw [if_neg]
  intro hv
  obtain ⟨h1, h2, h3⟩ := (is_valid_register_iff _ _).1 hv
  simp only [Register.ctor, string_view.of_string] at h1 h2 h3
  rcases h with h | ⟨hname, r, hr, hrn⟩ | h | ⟨r, hr, ho1, ho2, a, ha1, ha2, ha3, ha4⟩
  · exact h1 (to_string_eq_nil_of_empty name h)
  · apply h3 r hr
    left
    rw [to_string_of_whole name hname, hrn]
  · exact h2 h
  · apply h3 r hr
    right
    rw [uadd_of_lt _ _ ho1, uadd_of_lt _ _ ho2]
    omega

/-- Witness of `Group.add_reg_rejected` (C6): the group that holds `name1` at address 1
rejects `add_reg("name3", 1, 1)`. -/
theorem Group.add_reg_rejected_witness :
    sample_group.registers.map (fun r => (r.name, r.addr, r.size))
      = [("name1".toList, 1, 1)] ∧
    Group.add_reg 0 sample_group (whole "name3") 1 1 = (none, sample_group) :=
  ⟨by decide,
    Group.add_reg_rejected 0 sample_group (whole "name3") 1 1
      (Or.inr (Or.inr (Or.inr
        ⟨{ group := some { addr := 0, device := none }, name := "name1".toList,
           addr := 1, size := 1 },
          by decide, by decide, by decide, 1, by decide, by decide, by decide, by decide⟩)))⟩

/-! ## `Device::add_group` (C7, C8) -/

theorem is_valid_group_iff (groups : List Group) (group : Group) :
    is_valid_group groups group = true ↔
      group.name ≠ [] ∧ group.size ≠ 0 ∧
      ∀ g ∈ groups, ¬ (g.name = group.name ∨ g.base_addr = group.base_addr ∨
        (group.base_addr < g.base_addr ∧ uadd group.base_addr group.size > g.base_addr) ∨
        (group.base_addr > g.base_addr ∧ uadd g.base_addr g.size > group.base_addr)) := by
  unfold is_valid_group
  by_cases h : group.name.isEmpty = true ∨ group.size = 0
  · rw [if_pos h]
    rcases h with h | h
    · simp [List.isEmpty_iff.1 h]
    · simp [h]
  · rw [if_neg h]
    simp only [not_or, List.isEmpty_iff] at h
    simp only [decide_eq_true_eq, find_if_eq_length_iff, decide_eq_false_iff_not]
    exact ⟨fun hr => ⟨h.1, h.2, hr⟩, fun hr => hr.2.2⟩

theorem Device.add_group_eq (this : Nat) (d : Device) (name : string_view)
    (base_addr size : Nat) :
    d.add_group this name base_addr size
      = if is_valid_group d.groups
            (Group.ctor (string_view.of_string (to_string name)) base_addr size) = true then
          (some (find_if (fun g : Group => decide (base_addr < g.base_addr)) d.groups),
            { d with groups := (vec_insert d.groups
                (find_if (fun g : Group => decide (base_addr < g.base_addr)) d.groups)
                { device := some { addr := this, register_width := d.register_width },
                  name := name.chars, base_addr := base_addr, size := size }) })
        else (none, d) := by
  unfold Device.add_group
  by_cases h : is_valid_group d.groups
      (Group.ctor (string_view.of_string (to_string name)) base_addr size) = true
  · simp [h]
  · simp [h]

/-- C7 (counterexample): `add_group("m", 5, 2^64 - 1)` succeeds on a device that holds
group `n` on `[10, 11)`, although `[5, 5 + 2^64 - 1)` contains 10 (the sum wraps to 4);
`add_group("m", 2^64 - 2, 1)` succeeds on a device that holds group `t` on
`[2^64 - 4, 2^64)`; `add_group("x", 0, 10)` fails on a device whose only group `z` has
base 5 and size 0, although no name, base address or extent collides; and `add_group`
with the view of the first three characters of `abcdef` succeeds on a device that
already holds a group named `abc`, which then holds two groups of that name. -/
theorem Device.add_group_counterexamples :
    device_n.groups.map (fun g => (g.name, g.base_addr, g.size)) = [("n".toList, 10, 1)] ∧
    (5 ≤ 10 ∧ 10 < 5 + (2 ^ 64 - 1)) ∧
    (Device.add_group 0 device_n (whole "m") 5 (2 ^ 64 - 1)).1 = some 0 ∧
    device_top.groups.map (fun g => (g.name, g.base_addr, g.size))
      = [("t".toList, 2 ^ 64 - 4, 4)] ∧
    (Device.add_group 0 device_top (whole "m") (2 ^ 64 - 2) 1).1 = some 1 ∧
    (Device.add_group 0 device_z (whole "x") 0 10).1 = none ∧
    device_abc.groups.map (fun g => g.name) = [abc_of_abcdef.chars] ∧
    (Device.add_group 0 device_abc abc_of_abcdef 5 1).1 = some 1 ∧
    (Device.add_group 0 device_abc abc_of_abcdef 5 1).2.groups.map (fun g => g.name)
      = ["abc".toList, "abc".toList] := by
  decide

/-- C7 (amended): for a name that is a whole C string, a new extent that stays below
`2 ^ 64` and existing groups that have a non-zero size and stay below `2 ^ 64`,
`Device::add_group` succeeds exactly when the name is non-empty, the size is non-zero,
no existing group has the same name or base address and the new extent meets no
existing extent; on success the new group sits at the returned position, the other
groups keep their order and a list sorted by base address stays sorted; on failure the
device is unchanged. -/
theorem Device.add_group_spec (this : Nat) (d : Device) (name : string_view)
    (base_addr size : Nat)
    (hname : name.data = name.chars) (hno : base_addr + size < two64)
    (hex : ∀ g ∈ d.groups, g.size ≠ 0 ∧ g.base_addr + g.size < two64) :
    ((d.add_group this name base_addr size).1 ≠ none ↔
      name.chars ≠ [] ∧ size ≠ 0 ∧
      ∀ g ∈ d.groups, g.name ≠ name.chars ∧ g.base_addr ≠ base_addr ∧
        ¬ ∃ a, base_addr ≤ a ∧ a < base_addr + size ∧
            g.base_addr ≤ a ∧ a < g.base_addr + g.size) ∧
    (∀ k, (d.add_group this name base_addr size).1 = some k →
      k ≤ d.groups.length ∧
      (d.add_group this name base_addr size).2
        = { d with groups := d.groups.take k ++
              ({ device := some { addr := this, register_width := d.register_width },
                 name := name.chars, base_addr := base_addr, size := size } : Group)
                :: d.groups.drop k } ∧
      (d.groups.Pairwise (fun a b => a.base_addr ≤ b.base_addr) →
        (d.add_group this name base_addr size).2.groups.Pairwise
          (fun a b => a.base_addr ≤ b.base_addr))) ∧
    ((d.add_group this name base_addr size).1 = none →
      (d.add_group this name base_addr size).2 = d) := by
  rw [Device.add_group_eq]
  have hvalid : is_valid_group d.groups
      (Group.ctor (string_view.of_string (to_string name)) base_addr size) = true ↔
      name.chars ≠ [] ∧ size ≠ 0 ∧
      ∀ g ∈ d.groups, g.name ≠ name.chars ∧ g.base_addr ≠ base_addr ∧
        ¬ ∃ a, base_addr ≤ a ∧ a < base_addr + size ∧
            g.base_addr ≤ a ∧ a < g.base_addr + g.size := by
    rw [is_valid_group_iff]
    simp only [Group.ctor, string_view.of_string, to_string_of_whole name hname]
    constructor
    · rintro ⟨h1, h2, h3⟩
      refine ⟨h1, h2, fun g hg => ?_⟩
      have hg3 := h3 g hg
      obtain ⟨hs, ho⟩ := hex g hg
      rw [uadd_of_lt _ _ hno, uadd_of_lt _ _ ho] at hg3
      simp only [not_or] at hg3
      refine ⟨hg3.1, hg3.2.1, ?_⟩
      rintro ⟨a, ha1, ha2, ha3, ha4⟩
      omega
    · rintro ⟨h1, h2, h3⟩
      refine ⟨h1, h2, fun g hg => ?_⟩
      obtain ⟨hn, hb, hi⟩ := h3 g hg
      obtain ⟨hs, ho⟩ := hex g hg
      rw [uadd_of_lt _ _ hno, uadd_of_lt _ _ ho]
      simp only [not_or]
      refine ⟨hn, hb, ?_, ?_⟩
      · intro hc
        exact hi ⟨g.base_addr, by omega, by omega, by omega, by omega⟩
      · intro hc
        exact hi ⟨base_addr, by omega, by omega, by omega, by omega⟩
  by_cases hv : is_valid_group d.groups
      (Group.ctor (string_view.of_string (to_string name)) base_addr size) = true
  · rw [if_pos hv]
    refine ⟨⟨fun _ => hvalid.1 hv, fun _ => by simp⟩, ?_, fun h => by simp at h⟩
    intro k hk
    simp only [Option.some.injEq] at hk
    subst hk
    refine ⟨find_if_le_length _ _, rfl, fun hs => ?_⟩
    exact sorted_vec_insert_find_if (fun g : Group => g.base_addr)
      ({ device := some { addr := this, register_width := d.register_width },
         name := name.chars, base_addr := base_addr, size := size } : Group) d.groups hs
  · rw [if_neg hv]
    refine ⟨⟨fun h => by simp at h, fun h => absurd (hvalid.2 h) hv⟩,
      fun k hk => by simp at hk, fun _ => rfl⟩

/-- Witness of `Device.add_group_spec` (C7): on the device that holds group `n` on `[10, 11)`,
`add_group("m", 0, 5)` succeeds at position 0 and the groups stay sorted. -/
theorem Device.add_group_spec_witness :
    (whole "m").data = (whole "m").chars ∧ 0 + 5 < two64 ∧
    (∀ g ∈ device_n.groups, g.size ≠ 0 ∧ g.base_addr + g.size < two64) ∧
    (Device.add_group 0 device_n (whole "m") 0 5).1 = some 0 ∧
    (Device.add_group 0 device_n (whole "m") 0 5).2.groups.Pairwise
      (fun a b => a.base_addr ≤ b.base_addr) :=
  ⟨by decide, by decide, by decide, by decide,
    ((Device.add_group_spec 0 device_n (whole "m") 0 5 (by decide) (by decide)
      (by decide)).2.1 0 (by decide)).2.2 (by decide)⟩

/-- C8 (code defect): `add_group(std::unique_ptr<Group>&&)` on an empty device with a group
named `g` at base 4 of size 2 that owns a register succeeds, but the group the device
then holds, and the result points to, is a default-constructed one (empty name, base 0,
size 0, no registers): the source inserts `std::make_unique<Group>()`. -/
theorem Device.add_group_owned_inserts_empty_group :
    is_valid_group [] owned_group = true ∧
    Device.add_group_owned 0 {} (some owned_group)
      = (some 0, { groups := [{ device := some { addr := 0, register_width := 8 } }] }) := by
  decide

/-! ## `Register::add_field` (C9) -/

theorem is_valid_field_iff (num_bits : Nat) (fields : List Field) (f : Field) :
    is_valid_field num_bits fields f = true ↔
      f.name ≠ [] ∧ ¬ f.msb < f.lsb ∧ ¬ f.msb ≥ num_bits ∧
      ∀ f_ ∈ fields, ¬ (f_.name = f.name ∨ (f.lsb ≥ f_.lsb ∧ f.lsb ≤ f_.msb) ∨
        (f.msb ≥ f_.lsb ∧ f.msb ≤ f_.msb) ∨ (f.lsb ≤ f_.lsb ∧ f.msb ≥ f_.msb)) := by
  unfold is_valid_field
  by_cases h : f.name.isEmpty = true ∨ f.msb < f.lsb ∨ f.msb ≥ num_bits
  · rw [if_pos h]
    rcases h with h | h | h
    · simp [List.isEmpty_iff.1 h]
    · simp [h]
    · simp [h]
  · rw [if_neg h]
    simp only [not_or, List.isEmpty_iff] at h
    simp only [decide_eq_true_eq, find_if_eq_length_iff, decide_eq_false_iff_not]
    exact ⟨fun hr => ⟨h.1, h.2.1, h.2.2, hr⟩, fun hr => hr.2.2.2⟩

theorem Register.add_field_eq (this : Nat) (r : Register) (name : string_view) (msb lsb : Nat) :
    r.add_field this name msb lsb
      = if is_valid_field r.num_bits r.fields (Field.ctor name msb lsb) = true then
          (some (find_if (fun f : Field => decide (lsb < f.lsb)) r.fields),
            { r with fields := (vec_insert r.fields
                (find_if (fun f : Field => decide (lsb < f.lsb)) r.fields)
                { reg := some this, name := name.data, msb := msb, lsb := lsb }) })
        else (none, r) := by
  unfold Register.add_field
  by_cases h : is_valid_field r.num_bits r.fields (Field.ctor name msb lsb) = true
  · simp [h]
  · simp [h]

/-- C9 (counterexample): a detached 8-bit register that holds a field with `msb = 2` and
`lsb = 5` (a span with no bit) rejects `add_field("y", 7, 0)`, although the name is
non-empty and unused, `7 >= 0`, `7 < num_bits()` and no bit is shared. -/
theorem Register.add_field_rejects_without_shared_bit :
    malformed_register.num_bits = 8 ∧
    (∀ f ∈ malformed_register.fields, f.name ≠ (whole "y").chars) ∧
    (¬ ∃ f ∈ malformed_register.fields, ∃ i, 0 ≤ i ∧ i ≤ 7 ∧ f.lsb ≤ i ∧ i ≤ f.msb) ∧
    Register.add_field 0 malformed_register (whole "y") 7 0 = (none, malformed_register) := by
  refine ⟨by decide, by decide, ?_, by decide⟩
  rintro ⟨f, hf, i, _, _, h3, h4⟩
  have hfs : malformed_register.fields = [{ name := "x".toList, msb := 2, lsb := 5 }] := by
    decide
  rw [hfs, List.mem_singleton] at hf
  subst hf
  simp only at h3 h4
  omega

/-- C9 (amended): `Register::add_field` returns `nullptr` and leaves the register as it
was when the name is empty or already used, `msb < lsb`, `msb >= num_bits()`, or
`[lsb, msb]` shares a bit with an existing field; when every existing field has
`lsb <= msb` and none of these holds, it inserts the field at the returned position, and
fields that were sorted by `lsb` stay sorted and fields that were pairwise
non-overlapping stay so. -/
theorem Register.add_field_spec (this : Nat) (r : Register) (name : string_view)
    (msb lsb : Nat) :
    ((name.chars = [] ∨ (∃ f ∈ r.fields, f.name = name.chars) ∨ msb < lsb ∨
        r.num_bits ≤ msb ∨
        ∃ f ∈ r.fields, ∃ i, lsb ≤ i ∧ i ≤ msb ∧ f.lsb ≤ i ∧ i ≤ f.msb) →
      r.add_field this name msb lsb = (none, r)) ∧
    ((∀ f ∈ r.fields, f.lsb ≤ f.msb) →
      ¬ (name.chars = [] ∨ (∃ f ∈ r.fields, f.name = name.chars) ∨ msb < lsb ∨
        r.num_bits ≤ msb ∨
        ∃ f ∈ r.fields, ∃ i, lsb ≤ i ∧ i ≤ msb ∧ f.lsb ≤ i ∧ i ≤ f.msb) →
      ∃ k, k ≤ r.fields.length ∧
        r.add_field this name msb lsb
          = (some k, { r with fields := r.fields.take k ++
              ({ reg := some this, name := name.data, msb := msb, lsb := lsb } : Field)
                :: r.fields.drop k }) ∧
        (r.fields.Pairwise (fun a b => a.lsb ≤ b.lsb) →
          (r.add_field this name msb lsb).2.fields.Pairwise (fun a b => a.lsb ≤ b.lsb)) ∧
        (r.fields.Pairwise
            (fun a b => ¬ ∃ i, a.lsb ≤ i ∧ i ≤ a.msb ∧ b.lsb ≤ i ∧ i ≤ b.msb) →
          (r.add_field this name msb lsb).2.fields.Pairwise
            (fun a b => ¬ ∃ i, a.lsb ≤ i ∧ i ≤ a.msb ∧ b.lsb ≤ i ∧ i ≤ b.msb))) := by
  rw [Register.add_field_eq]
  constructor
  · intro h
    rw [if_neg]
    intro hv
    obtain ⟨h1, h2, h3, h4⟩ := (is_valid_field_iff _ _ _).1 hv
    simp only [Field.ctor] at h1 h2 h3 h4
    rcases h with h | ⟨f, hf, hfn⟩ | h | h | ⟨f, hf, i, hi1, hi2, hi3, hi4⟩
    · exact h1 h
    · exact h4 f hf (Or.inl hfn)
    · exact h2 h
    · exact h3 h
    · apply h4 f hf
      right
      omega
  · intro hwf hnot
    simp only [not_or, not_exists, not_and] at hnot
    obtain ⟨hn1, hn2, hn3, hn4, hn5⟩ := hnot
    have hv : is_valid_field r.num_bits r.fields (Field.ctor name msb lsb) = true := by
      rw [is_valid_field_iff]
      simp only [Field.ctor]
      refine ⟨hn1, hn3, by omega, fun f hf => ?_⟩
      have hw := hwf f hf
      simp only [not_or]
      refine ⟨hn2 f hf, ?_, ?_, ?_⟩
      · intro hc
        exact hn5 f hf lsb (le_refl _) (by omega) hc.1 hc.2
      · intro hc
        exact hn5 f hf msb (by omega) (le_refl _) hc.1 hc.2
      · intro hc
        exact hn5 f hf f.lsb hc.1 (by omega) (le_refl _) hw
    rw [if_pos hv]
    refine ⟨_, find_if_le_length _ _, rfl, fun hs => ?_, fun hp => ?_⟩
    · exact sorted_vec_insert_find_if (fun f : Field => f.lsb)
        ({ reg := some this, name := name.data, msb := msb, lsb := lsb } : Field) r.fields hs
    · apply pairwise_vec_insert _ _ _ _ _ _ hp
      · rintro a b hab ⟨i, h1, h2, h3, h4⟩
        exact hab ⟨i, h3, h4, h1, h2⟩
      · rintro f hf ⟨i, h1, h2, h3, h4⟩
        exact hn5 f hf i h1 h2 h3 h4

/-- Witness of `Register.add_field_spec` (C9): the register that holds `name1` on bit 1
rejects `add_field("name3", 1, 1)` and accepts `add_field("name2", 3, 2)`. -/
theorem Register.add_field_spec_witness :
    Register.add_field 0 sample_register (whole "name3") 1 1 = (none, sample_register) ∧
    ∃ k, k ≤ sample_register.fields.length ∧
      Register.add_field 0 sample_register (whole "name2") 3 2
        = (some k, { sample_register with fields := sample_register.fields.take k ++
            ({ reg := some 0, name := (whole "name2").data, msb := 3, lsb := 2 } : Field)
              :: sample_register.fields.drop k }) ∧
      ((Register.add_field 0 sample_register (whole "name2") 3 2).2.fields.Pairwise
        (fun a b => a.lsb ≤ b.lsb)) := by
  refine ⟨(Register.add_field_spec 0 sample_register (whole "name3") 1 1).1
    (Or.inr (Or.inr (Or.inr (Or.inr
      ⟨{ reg := some 0, name := "name1".toList, msb := 1, lsb := 1 }, by decide, 1,
        by decide, by decide, by decide, by decide⟩)))), ?_⟩
  have hwf : ∀ f ∈ sample_register.fields, f.lsb ≤ f.msb := by decide
  have hfs : sample_register.fields
      = [{ reg := some 0, name := "name1".toList, msb := 1, lsb := 1 }] := by decide
  have hnot : ¬ ((whole "name2").chars = [] ∨
      (∃ f ∈ sample_register.fields, f.name = (whole "name2").chars) ∨ 3 < 2 ∨
      sample_register.num_bits ≤ 3 ∨
      ∃ f ∈ sample_register.fields, ∃ i, 2 ≤ i ∧ i ≤ 3 ∧ f.lsb ≤ i ∧ i ≤ f.msb) := by
    rintro (h | ⟨f, hf, hn⟩ | h | h | ⟨f, hf, i, h1, h2, h3, h4⟩)
    · exact absurd h (by decide)
    · rw [hfs, List.mem_singleton] at hf
      subst hf
      exact absurd hn (by decide)
    · exact absurd h (by decide)
    · exact absurd h (by decide)
    · rw [hfs, List.mem_singleton] at hf
      subst hf
      simp only at h3 h4
      omega
  obtain ⟨k, hk, heq, hs, _⟩ :=
    (Register.add_field_spec 0 sample_register (whole "name2") 3 2).2 hwf hnot
  exact ⟨k, hk, heq, hs (by decide)⟩

/-! ## `detail::add_value` (C10) -/

theorem detail.add_value_eq (t : Target) (values : List EnumeratedValue)
    (val : EnumeratedValue) (num_bits : Nat) :
    detail.add_value t values val num_bits
      = if val.name ≠ [] ∧ make_mask t (usub num_bits 1) 0 &&& val.value = val.value ∧
            ∀ v ∈ values, ¬ (val.value = v.value ∨ val.name = v.name) then
          (true, vec_insert values
            (find_if (fun v : EnumeratedValue => decide (val.value < v.value)) values) val)
        else (false, values) := by
  unfold detail.add_value
  by_cases h1 : val.name.isEmpty = true
  · rw [if_pos h1, if_neg]
    simp [List.isEmpty_iff.1 h1]
  · rw [if_neg h1]
    have h1' : val.name ≠ [] := by simpa [List.isEmpty_iff] using h1
    by_cases h2 : make_mask t (usub num_bits 1) 0 &&& val.value ≠ val.value
    · rw [if_pos h2, if_neg]
      intro hc
      exact h2 hc.2.1
    · rw [if_neg h2]
      simp only [ne_eq, not_not] at h2
      by_cases h3 : find_if (fun v : EnumeratedValue =>
          decide (val.value = v.value ∨ val.name = v.name)) values ≠ values.length
      · rw [if_pos h3, if_neg]
        intro hc
        apply h3
        rw [find_if_eq_length_iff]
        intro v hv
        simpa using hc.2.2 v hv
      · rw [if_neg h3, if_pos]
        refine ⟨h1', h2, ?_⟩
        simp only [ne_eq, not_not] at h3
        rw [find_if_eq_length_iff] at h3
        intro v hv
        simpa using h3 v hv

/-- Whatever `detail::add_value` returns, a list that was sorted by value, with distinct
names and distinct values, is so afterwards, on every target. -/
theorem detail.add_value_invariants (t : Target) (values : List EnumeratedValue)
    (val : EnumeratedValue) (num_bits : Nat)
    (hs : values.Pairwise (fun a b => a.value ≤ b.value))
    (hn : values.Pairwise (fun a b => a.name ≠ b.name))
    (hv : values.Pairwise (fun a b => a.value ≠ b.value)) :
    (detail.add_value t values val num_bits).2.Pairwise (fun a b => a.value ≤ b.value) ∧
    (detail.add_value t values val num_bits).2.Pairwise (fun a b => a.name ≠ b.name) ∧
    (detail.add_value t values val num_bits).2.Pairwise (fun a b => a.value ≠ b.value) := by
  rw [detail.add_value_eq]
  split
  · rename_i h
    refine ⟨sorted_vec_insert_find_if (fun v : EnumeratedValue => v.value) val values hs, ?_, ?_⟩
    · exact pairwise_vec_insert _ (fun h => Ne.symm h) _ _ _
        (fun v hv => fun hc => h.2.2 v hv (Or.inr hc)) hn
    · exact pairwise_vec_insert _ (fun h => Ne.symm h) _ _ _
        (fun v hv => fun hc => h.2.2 v hv (Or.inl hc)) hv
  · exact ⟨hs, hn, hv⟩

/-- For an owner of 1 to 32 bits, `detail::add_value` accepts exactly the candidates
with a non-empty name, a value that fits and no name or value already present; it then
inserts the candidate before the first larger value, and otherwise changes nothing. -/
theorem detail.add_value_of_width_le_32 (t : Target) (values : List EnumeratedValue)
    (val : EnumeratedValue) (num_bits : Nat) (h1 : 1 ≤ num_bits) (h32 : num_bits ≤ 32) :
    detail.add_value t values val num_bits
      = if val.name ≠ [] ∧ val.value < 2 ^ num_bits ∧
            ∀ v ∈ values, v.value ≠ val.value ∧ v.name ≠ val.name then
          (true, vec_insert values
            (find_if (fun v : EnumeratedValue => decide (val.value < v.value)) values) val)
        else (false, values) := by
  rw [detail.add_value_eq, make_mask_width t num_bits h1 h32, Nat.and_comm,
    Nat.and_pow_two_sub_one_eq_mod]
  have hiff : (val.name ≠ [] ∧ val.value % 2 ^ num_bits = val.value ∧
      ∀ v ∈ values, ¬ (val.value = v.value ∨ val.name = v.name)) ↔
      (val.name ≠ [] ∧ val.value < 2 ^ num_bits ∧
        ∀ v ∈ values, v.value ≠ val.value ∧ v.name ≠ val.name) := by
    have hpos : 0 < 2 ^ num_bits := Nat.two_pow_pos num_bits
    constructor
    · rintro ⟨a, b, c⟩
      refine ⟨a, ?_, fun v hv => ?_⟩
      · rw [← b]
        exact Nat.mod_lt _ hpos
      · have := c v hv
        simp only [not_or] at this
        exact ⟨fun h => this.1 h.symm, fun h => this.2 h.symm⟩
    · rintro ⟨a, b, c⟩
      refine ⟨a, Nat.mod_eq_of_lt b, fun v hv => ?_⟩
      have := c v hv
      simp only [not_or]
      exact ⟨fun h => this.1 h.symm, fun h => this.2 h.symm⟩
  by_cases h : val.name ≠ [] ∧ val.value < 2 ^ num_bits ∧
      ∀ v ∈ values, v.value ≠ val.value ∧ v.name ≠ val.name
  · rw [if_pos h, if_pos (hiff.2 h)]
  · rw [if_neg h, if_neg (fun hc => h (hiff.1 hc))]

/-- On every target whose `1u << i` is a 32-bit value, `add_value` for an owner of 64
bits rejects the candidate `a = 2^40`. -/
theorem detail.add_value_wide_of_shl32 (t : Target) (h : ∀ i, t.shl32 i < 2 ^ 32) :
    detail.add_value t [] { name := "a".toList, value := 2 ^ 40 } 64 = (false, []) := by
  have hm := make_mask_lt_of_shl32 t h (usub 64 1) 0
  rw [detail.add_value_eq, if_neg]
  rintro ⟨_, hc, _⟩
  have := Nat.and_lt_two_pow (2 ^ 40) hm
  rw [Nat.and_comm] at hc
  simp only at hc
  rw [hc] at this
  exact absurd this (by decide)

/-- C10 (code defect): where shift counts wrap, `add_value` for an owner of 64 bits
rejects the candidate `a = 2^40`, whose name is non-empty, whose value fits in 64 bits
and which collides with nothing; and for an owner of 0 bits every target accepts the
candidate `a = 5`, whose value does not fit in 0 bits. -/
theorem detail.add_value_wrong_width_check :
    2 ^ 40 < 2 ^ 64 ∧
    detail.add_value Target.wrapping [] { name := "a".toList, value := 2 ^ 40 } 64
      = (false, []) ∧
    ¬ 5 < 2 ^ 0 ∧
    ∀ t : Target, detail.add_value t [] { name := "a".toList, value := 5 } 0
      = (true, [{ name := "a".toList, value := 5 }]) := by
  refine ⟨by decide, by decide, by decide, fun t => ?_⟩
  rw [detail.add_value_eq]
  have h0 : usub 0 1 = 2 ^ 64 - 1 := by decide
  have hm : make_mask t (2 ^ 64 - 1) 0 = make_mask t 63 0 := rfl
  rw [h0, hm, make_mask_63_0_and t _ (by decide)]
  simp [vec_insert, find_if]

/-! ## `detail::add_values` (C11) -/

/-- When `add_values` returns true: every candidate fits the mask and has a name, and no
candidate collides with an entry that is already stored.  The candidates are not compared
with each other. -/
theorem detail.add_values_fst (t : Target) (values vals : List EnumeratedValue) (num_bits : Nat) :
    (detail.add_values t values vals num_bits).1 = true ↔
      (∀ val ∈ vals, make_mask t (usub num_bits 1) 0 &&& val.value = val.value ∧ val.name ≠ []) ∧
      (∀ v ∈ values, ∀ val ∈ vals, val.value ≠ v.value ∧ val.name ≠ v.name) := by
  unfold detail.add_values
  split
  · rename_i h
    simp only [List.any_eq_true, Bool.or_eq_true, decide_eq_true_eq] at h
    obtain ⟨val, hval, hbad⟩ := h
    simp only [Bool.false_eq_true, false_iff, not_and]
    intro hall
    have := hall val hval
    rcases hbad with hb | hb
    · exact absurd this.1 hb
    · exact absurd (List.isEmpty_iff.mp hb) this.2
  · rename_i h
    have hall : ∀ val ∈ vals,
        make_mask t (usub num_bits 1) 0 &&& val.value = val.value ∧ val.name ≠ [] := by
      intro val hval
      simp only [List.any_eq_true, Bool.or_eq_true, decide_eq_true_eq, not_exists, not_and,
        not_or] at h
      have := h val hval
      exact ⟨not_not.mp this.1, fun hn => this.2 (by simp [hn])⟩
    split
    · rename_i h2
      simp only [Bool.false_eq_true, false_iff, not_and]
      intro _ hno
      apply h2
      rw [find_if_eq_length_iff]
      intro v hv
      simp only [decide_eq_false_iff_not, not_not]
      rw [find_if_eq_length_iff]
      intro val hval
      have := hno v hv val hval
      simp only [decide_eq_false_iff_not, not_or]
      exact this
    · rename_i h2
      simp only [true_iff]
      refine ⟨hall, ?_⟩
      intro v hv val hval
      have h3 := not_not.mp h2
      rw [find_if_eq_length_iff] at h3
      have h4 := h3 v hv
      simp only [decide_eq_false_iff_not, not_not] at h4
      rw [find_if_eq_length_iff] at h4
      have h5 := h4 val hval
      simpa only [decide_eq_false_iff_not, not_or] using h5

/-- C11 (code defect): on a detached 8-bit register and on a field of bits 0..7, both
without enumerated values, `add_values` returns true for a batch of two candidates that
share the value 1 and for a batch of two candidates that share the name `a`; both
candidates are stored, on every target. -/
theorem detail.add_values_accepts_duplicates_in_batch : ∀ t : Target,
    Register.add_values t {} batch_same_value = (true, { values := batch_same_value }) ∧
    Register.add_values t {} batch_same_name = (true, { values := batch_same_name }) ∧
    Field.add_values t { msb := 7 } batch_same_value
      = (true, { msb := 7, values := batch_same_value }) ∧
    Field.add_values t { msb := 7 } batch_same_name
      = (true, { msb := 7, values := batch_same_name }) := by
  intro t
  have hr : ∀ vals, Register.add_values t {} vals = Register.add_values Target.wrapping {} vals := by
    intro vals
    simp only [Register.add_values, detail.add_values]
    rw [show ({} : Register).num_bits = 8 from by decide, show usub 8 1 = 7 from by decide,
      make_mask_eq t 7 0 (by decide)]
  have hf : ∀ vals, Field.add_values t { msb := 7 } vals
      = Field.add_values Target.wrapping { msb := 7 } vals := by
    intro vals
    simp only [Field.add_values, detail.add_values]
    rw [show usub (uadd (usub 7 0) 1) 1 = 7 from by decide, make_mask_eq t 7 0 (by decide)]
  rw [hr, hr, hf, hf]
  decide

/-! ## `Device::reset` (C12) -/

/-- `Register::set_value` never changes `initial`. -/
theorem Register.set_value_initial (t : Target) (r : Register) (val : Nat) :
    (r.set_value t val).2.initial = r.initial := by
  unfold Register.set_value
  repeat' split
  all_goals rfl

/-- The value of the register after `Register::set_value(val)`: `val` when the four
checks of the function pass, the former value otherwise (whatever the cascade to the
fields returns). -/
theorem Register.set_value_value (t : Target) (r : Register) (val : Nat) :
    (r.set_value t val).2.value =
      if val &&& r.zeros_mask = 0 ∧ val &&& r.ones_mask = r.ones_mask ∧
          val &&& make_mask t (usub r.num_bits 1) 0 = val ∧
          (r.values = [] ∨ ∃ v ∈ r.values, v.value = val) then val else r.value := by
  unfold Register.set_value
  by_cases h1 : val &&& r.zeros_mask ≠ 0
  · rw [if_pos h1, if_neg (fun h => h1 h.1)]
  · by_cases h2 : val &&& r.ones_mask ≠ r.ones_mask
    · rw [if_neg h1, if_pos h2, if_neg (fun h => h2 h.2.1)]
    · by_cases h3 : val &&& make_mask t (usub r.num_bits 1) 0 ≠ val
      · rw [if_neg h1, if_neg h2, if_pos h3, if_neg (fun h => h3 h.2.2.1)]
      · rw [if_neg h1, if_neg h2, if_neg h3]
        by_cases h4 : ¬ r.values.isEmpty
        · rw [if_pos h4]
          have hne : r.values ≠ [] := fun h => h4 (by simp [h])
          by_cases h5 : (r.values.any fun v => decide (v.value = val)) = true
          · rw [if_pos h5, if_pos]
            refine ⟨not_not.mp h1, not_not.mp h2, not_not.mp h3, Or.inr ?_⟩
            simpa only [List.any_eq_true, decide_eq_true_eq] using h5
          · rw [if_neg h5, if_neg]
            rintro ⟨-, -, -, h | h⟩
            · exact hne h
            · exact h5 (by simpa only [List.any_eq_true, decide_eq_true_eq] using h)
        · rw [if_neg h4, if_pos]
          refine ⟨not_not.mp h1, not_not.mp h2, not_not.mp h3, Or.inl ?_⟩
          simpa using h4

/-- On a register of 1 to 32 bits the width check of `set_value` accepts exactly the
values below `2 ^ num_bits`, on every target. -/
theorem and_make_mask_width_iff (t : Target) (n val : Nat) (h1 : 1 ≤ n) (hn : n ≤ 32) :
    val &&& make_mask t (usub n 1) 0 = val ↔ val < 2 ^ n := by
  constructor
  · intro h
    rw [make_mask_width t n h1 hn, Nat.and_pow_two_sub_one_eq_mod] at h
    rw [← h]
    exact Nat.mod_lt _ (Nat.two_pow_pos n)
  · exact and_make_mask_width t n val hn

/-- The register after `Register::reset()`, for a register of 1 to 32 bits: `initial` is
kept, and `value` becomes `initial` exactly when `initial` has no bit of `zeros_mask`, has
every bit of `ones_mask`, is below `2 ^ num_bits` and is one of the enumerated values if
there are any. -/
theorem Register.reset_eq (t : Target) (r : Register) (h1 : 1 ≤ r.num_bits)
    (hn : r.num_bits ≤ 32) :
    (r.reset t).initial = r.initial ∧
    (r.reset t).value =
      if r.initial &&& r.zeros_mask = 0 ∧ r.initial &&& r.ones_mask = r.ones_mask ∧
          r.initial < 2 ^ r.num_bits ∧
          (r.values = [] ∨ ∃ v ∈ r.values, v.value = r.initial) then r.initial
      else r.value := by
  unfold Register.reset
  rw [Register.set_value_initial, Register.set_value_value]
  simp only [and_make_mask_width_iff t r.num_bits r.initial h1 hn, true_and]

/-- After `Device::reset()` every register has `value = initial`, provided every register
has 1 to 32 bits and an `initial` that passes the checks of `set_value`. -/
theorem Device.reset_all (t : Target) (d : Device)
    (h : ∀ g ∈ d.groups, ∀ r ∈ g.registers,
      (1 ≤ r.num_bits ∧ r.num_bits ≤ 32) ∧
      r.initial &&& r.zeros_mask = 0 ∧ r.initial &&& r.ones_mask = r.ones_mask ∧
      r.initial < 2 ^ r.num_bits ∧ (r.values = [] ∨ ∃ v ∈ r.values, v.value = r.initial)) :
    ∀ g ∈ (Device.reset t d).groups, ∀ r ∈ g.registers, r.value = r.initial := by
  intro g' hg' r' hr'
  simp only [Device.reset, List.mem_map] at hg'
  obtain ⟨g, hg, rfl⟩ := hg'
  simp only [Group.reset, List.mem_map] at hr'
  obtain ⟨r, hr, rfl⟩ := hr'
  obtain ⟨⟨h1, hn⟩, hc⟩ := h g hg r hr
  have := Register.reset_eq t r h1 hn
  rw [this.1, this.2, if_pos hc]

/-- The checks of `TEST_CASE("Device::reset")`, on every target. -/
theorem test_Device_reset (t : Target) :
    (∀ group ∈ (Device.reset t define_device).groups, ∀ reg ∈ group.registers,
      reg.value = reg.initial) ∧
    (Device.reset t define_device).groups.map
        (fun g => g.registers.map (fun r => (r.name, r.initial)))
      = [[("r1".toList, 1)], [("r2".toList, 3)]] := by
  refine ⟨Device.reset_all t define_device (by decide), ?_⟩
  have h : ∀ r : Register, ((r.reset t).name, (r.reset t).initial) = (r.name, r.initial) := by
    intro r
    unfold Register.reset Register.set_value
    repeat' split
    all_goals rfl
  simp only [Device.reset, Group.reset, List.map_map, Function.comp_def, h]
  decide

theorem map_mapIdx_of {α β γ : Type} (g : β → γ) (g' : α → γ) (l : List α) :
    ∀ f : Nat → α → β, (∀ i x, g (f i x) = g' x) → (l.mapIdx f).map g = l.map g' := by
  induction l with
  | nil => intro f _; rfl
  | cons a l ih =>
    intro f h
    rw [List.mapIdx_cons, List.map_cons, List.map_cons, h 0 a, ih _ (fun i x => h (i + 1) x)]

/-- What the copy of a group keeps: `name`, `base_addr`, `size`, `defaults` and, register
by register, the members that `Register::Register(const Register &)` copies. -/
theorem Device.copy_groups_kept (this : Nat) (a : Allocator) (other : Device) :
    (Device.copy_groups this a other).map (fun g =>
        (g.name, g.base_addr, g.size, g.defaults, g.registers.map (fun r =>
          (r.name, r.display_name, r.description, r.backup, r.unit, r.zero_code_value, r.step,
            r.initial, r.value, r.addr, r.size, r.zeros_mask, r.ones_mask, r.x_mask, r.access,
            r.is_signed, r.values, r.extra_data))))
      = other.groups.map (fun g =>
        (g.name, g.base_addr, g.size, g.defaults, g.registers.map (fun r =>
          (r.name, r.display_name, r.description, r.backup, r.unit, r.zero_code_value, r.step,
            r.initial, r.value, r.addr, r.size, r.zeros_mask, r.ones_mask, r.x_mask, r.access,
            r.is_signed, r.values, r.extra_data)))) := by
  unfold Device.copy_groups
  apply map_mapIdx_of
  intro i g
  simp only [Group.set_device, Group.copy_ctor, List.map_map]
  refine Prod.ext rfl (Prod.ext rfl (Prod.ext rfl (Prod.ext rfl ?_)))
  show List.map _ (List.mapIdx _ _) = _
  apply map_mapIdx_of
  intro j r
  rfl

/-- What the copy of a group loses: its `display_name`, `description` and `extra_data` are
empty, and `protection`, `write_type`, `read_type` and `contraints` of every register
are the default values, whatever the original holds. -/
theorem Device.copy_groups_lost (this : Nat) (a : Allocator) (other : Device) :
    (Device.copy_groups this a other).map (fun g =>
        (g.name, g.display_name, g.description, g.extra_data, g.registers.map (fun r =>
          (r.name, r.protection, r.write_type, r.read_type, r.contraints))))
      = other.groups.map (fun g =>
        (g.name, ([] : Str), ([] : Str), ([] : ValueMap), g.registers.map (fun r =>
          (r.name, Protection.non_secure, WriteType.modify, ReadType.none,
            WriteContraints.range 0 (two64 - 1))))) := by
  unfold Device.copy_groups
  apply map_mapIdx_of
  intro i g
  simp only [Group.set_device, Group.copy_ctor, List.map_map]
  refine Prod.ext rfl (Prod.ext rfl (Prod.ext rfl (Prod.ext rfl ?_)))
  show List.map _ (List.mapIdx _ _) = _
  apply map_mapIdx_of
  intro j r
  rfl

/-- C13 (code defect): in `described_device` the group `g1` has a `display_name` and a
`description`, and its register `r1` has `protection = secure`, `write_type = clear` and
`read_type = set`.  In the copy (constructed or assigned, wherever the copies are
allocated) the group's `display_name` and `description` are empty and the register has
`non_secure`, `modify` and `none`. -/
theorem Device.copy_drops_members :
    ∀ (this : Nat) (a : Allocator) (word_width : Nat) (d : Device),
    described_device.groups.map (fun g =>
        (g.name, g.display_name, g.description, g.extra_data, g.registers.map (fun r =>
          (r.name, r.protection, r.write_type, r.read_type, r.contraints))))
      = [("g1".toList, "Group 1".toList, "first".toList, [],
          [("r1".toList, Protection.secure, WriteType.clear, ReadType.set,
            WriteContraints.range 0 (two64 - 1))]),
         ("g2".toList, [], [], [],
          [("r2".toList, Protection.non_secure, WriteType.modify, ReadType.none,
            WriteContraints.range 0 (two64 - 1))])] ∧
    (Device.copy_ctor this a word_width described_device).groups.map (fun g =>
        (g.name, g.display_name, g.description, g.extra_data, g.registers.map (fun r =>
          (r.name, r.protection, r.write_type, r.read_type, r.contraints))))
      = [("g1".toList, [], [], [],
          [("r1".toList, Protection.non_secure, WriteType.modify, ReadType.none,
            WriteContraints.range 0 (two64 - 1))]),
         ("g2".toList, [], [], [],
          [("r2".toList, Protection.non_secure, WriteType.modify, ReadType.none,
            WriteContraints.range 0 (two64 - 1))])] ∧
    (Device.copy_assign this a d described_device).groups.map (fun g =>
        (g.name, g.display_name, g.description, g.extra_data, g.registers.map (fun r =>
          (r.name, r.protection, r.write_type, r.read_type, r.contraints))))
      = [("g1".toList, [], [], [],
          [("r1".toList, Protection.non_secure, WriteType.modify, ReadType.none,
            WriteContraints.range 0 (two64 - 1))]),
         ("g2".toList, [], [], [],
          [("r2".toList, Protection.non_secure, WriteType.modify, ReadType.none,
            WriteContraints.range 0 (two64 - 1))])] := by
  intro this a word_width d
  refine ⟨rfl, ?_, ?_⟩
  · show (Device.copy_groups this a described_device).map _ = _
    rw [Device.copy_groups_lost]
    rfl
  · show (Device.copy_groups this a described_device).map _ = _
    rw [Device.copy_groups_lost]
    rfl

/-- The checks of `TEST_CASE("Device copy ctor")` and `TEST_CASE("Device copy assignment")`
(`CHECK_DEV_ARRAY`), wherever the copies are allocated. -/
theorem test_Device_copy (this : Nat) (a : Allocator) (word_width : Nat) (d c : Device)
    (hc : c = Device.copy_ctor this a word_width define_device ∨
      c = Device.copy_assign this a d define_device) :
    c.name = "dev".toList ∧ c.version = 2 ∧ c.register_width = 32 ∧ c.num_pages = 2 ∧
    c.registers_per_page = 5 ∧
    c.extra_data = [("v1".toList, Value.floating_point 0x3FF0000000000000)] ∧
    c.groups.map (fun g => (g.name, g.registers.map (fun r =>
        (r.name, r.description, r.backup, r.unit, r.zero_code_value, r.step, r.initial,
          r.value, r.zeros_mask, r.ones_mask, r.x_mask, r.is_signed, r.values))))
      = [("g1".toList, [("r1".toList, "description".toList, "backup".toList, "unit".toList,
            0x4014000000000000, 0x4000000000000000, 1, 3, 0x100, 1, 0x200, true,
            define_values)]),
         ("g2".toList, [("r2".toList, "description2".toList, "backup2".toList,
            "unit2".toList, 0x4010000000000000, 0x4008000000000000, 3, 1, 0x100, 1, 0x200,
            true, define_values)])] ∧
    c.groups.map (fun g => (g.device.map (fun p => p.addr),
        g.registers.map (fun r => r.group.map (fun p => p.addr))))
      = [(some this, [some (a.group 0)]), (some this, [some (a.group 1)])] := by
  have hg : c.groups = Device.copy_groups this a define_device := by
    rcases hc with rfl | rfl <;> rfl
  refine ⟨by rcases hc with rfl | rfl <;> rfl, by rcases hc with rfl | rfl <;> rfl,
    by rcases hc with rfl | rfl <;> rfl, by rcases hc with rfl | rfl <;> rfl,
    by rcases hc with rfl | rfl <;> rfl, by rcases hc with rfl | rfl <;> rfl, ?_, ?_⟩
  · rw [hg]
    rfl
  · rw [hg]
    rfl

/-! ## `validate` (C14, C15, C16, C17, C18) -/

theorem smul_of_fits (t : Target) (a b : Int) (h1 : -(2 : Int) ^ 63 ≤ a * b)
    (h2 : a * b < 2 ^ 63) : smul t a b = a * b := by
  unfold smul
  rw [if_pos ⟨h1, h2⟩]

/-- Without signed overflow the capacity is the product of the three members. -/
theorem Device.capacity_eq (t : Target) (d : Device) (h1 : 1 ≤ d.register_width)
    (h2 : 1 ≤ d.registers_per_page) (h3 : 1 ≤ d.num_pages)
    (h : d.register_width * d.registers_per_page * d.num_pages < 2 ^ 63) :
    d.capacity t = (d.register_width * d.registers_per_page * d.num_pages).toNat := by
  have hp : 0 ≤ d.register_width * d.registers_per_page :=
    Int.mul_nonneg (by omega) (by omega)
  have hle : d.register_width * d.registers_per_page
      ≤ d.register_width * d.registers_per_page * d.num_pages :=
    le_mul_of_one_le_right hp h3
  unfold Device.capacity
  rw [smul_of_fits t d.register_width d.registers_per_page (by omega) (by omega),
    smul_of_fits t _ d.num_pages (by omega) h]
  unfold to_u64 two64
  rw [Int.emod_eq_of_lt (by omega) (by omega)]

theorem validate_fields_eq (t : Target) (size_mask reg_mask : Nat) (fields : List Field)
    (h : ∀ f ∈ fields, f.msb ≤ 31) : ∀ field_mask,
    validate_fields t size_mask reg_mask field_mask fields
      = validate_fields Target.wrapping size_mask reg_mask field_mask fields := by
  induction fields with
  | nil => intro _; rfl
  | cons f fs ih =>
    intro field_mask
    simp only [validate_fields]
    rw [make_mask_eq t f.msb f.lsb (h f (List.mem_cons_self _ _)),
      ih (fun f hf => h f (List.mem_cons_of_mem _ hf))]

theorem validate_register_eq (t : Target) (reg : Register) (h1 : 1 ≤ reg.num_bits)
    (hn : reg.num_bits ≤ 32) (h : ∀ f ∈ reg.fields, f.msb ≤ 31) :
    validate_register t reg = validate_register Target.wrapping reg := by
  simp only [validate_register]
  rw [make_mask_width t _ h1 hn, make_mask_width Target.wrapping _ h1 hn,
    validate_fields_eq t _ _ _ h]

theorem for_each_congr {α : Type} (f g : α → Except Failure Unit) (l : List α)
    (h : ∀ x ∈ l, f x = g x) : for_each f l = for_each g l := by
  induction l with
  | nil => rfl
  | cons x xs ih =>
    simp only [for_each]
    rw [h x (List.mem_cons_self _ _), ih (fun y hy => h y (List.mem_cons_of_mem _ hy))]

/-- The registers that `validate` visits are those of the device: the first part changes
at most the size of a group. -/
theorem validate_sizes_registers (t : Target) (d : Device) (groups : List Group)
    (h : validate_sizes t d = .ok groups) :
    groups.map (fun g => g.registers) = d.groups.map (fun g => g.registers) := by
  unfold validate_sizes at h
  split at h
  · rename_i group hd
    rw [hd]
    split at h
    · cases h; rfl
    · split at h
      · cases h; rfl
      · cases h
  · split at h
    · cases h; rfl
    · cases h

/-- On a device without signed overflow in its capacity whose registers have 1 to 32 bits
and fields below bit 32, `validate` does not depend on the target. -/
theorem validate_eq_wrapping (t : Target) (d : Device) (h1 : 1 ≤ d.register_width)
    (h2 : 1 ≤ d.registers_per_page) (h3 : 1 ≤ d.num_pages)
    (h : d.register_width * d.registers_per_page * d.num_pages < 2 ^ 63)
    (hr : ∀ g ∈ d.groups, ∀ r ∈ g.registers,
      1 ≤ r.num_bits ∧ r.num_bits ≤ 32 ∧ ∀ f ∈ r.fields, f.msb ≤ 31) :
    validate t d = validate Target.wrapping d := by
  have hc : d.capacity t = d.capacity Target.wrapping := by
    rw [Device.capacity_eq t d h1 h2 h3 h, Device.capacity_eq _ d h1 h2 h3 h]
  have hs : validate_sizes t d = validate_sizes Target.wrapping d := by
    unfold validate_sizes
    rw [hc]
  have hb : ∀ groups, validate_back t d groups = validate_back Target.wrapping d groups := by
    intro groups
    unfold validate_back
    rw [hc]
  unfold validate
  rw [hs]
  cases hvs : validate_sizes Target.wrapping d with
  | error e => rfl
  | ok groups =>
    have hregs := validate_sizes_registers _ d groups hvs
    have hfe : for_each (fun group : Group => for_each (validate_register t) group.registers)
        groups
        = for_each (fun group : Group =>
            for_each (validate_register Target.wrapping) group.registers) groups := by
      apply for_each_congr
      intro g hg
      apply for_each_congr
      intro r hrg
      have hmem : g.registers ∈ d.groups.map (fun g => g.registers) := by
        rw [← hregs]
        exact List.mem_map_of_mem _ hg
      obtain ⟨g0, hg0, hg0r⟩ := List.mem_map.mp hmem
      have hcond := hr g0 hg0 r (by rw [hg0r]; exact hrg)
      exact validate_register_eq t r hcond.1 hcond.2.1 hcond.2.2
    simp only [hfe, hb]

/-- C14: `validate` throws for every device whose `version` is not 1, whose
`register_width` is below 1 or above 64, whose `registers_per_page` is below 1 or whose
`num_pages` is below 1, whatever its groups are and on every target. -/
theorem validate_rejects_device_members (t : Target) (d : Device)
    (h : d.version ≠ 1 ∨ d.register_width < 1 ∨ d.register_width > 64 ∨
      d.registers_per_page < 1 ∨ d.num_pages < 1) :
    ∃ what, validate t d = .error (.runtime_error what) := by
  unfold validate
  by_cases hv : d.version ≠ 1
  · exact ⟨_, if_pos hv⟩
  · rw [if_neg hv]
    by_cases hw : d.register_width > 64
    · exact ⟨_, if_pos hw⟩
    · rw [if_neg hw]
      by_cases hw1 : d.register_width < 1
      · exact ⟨_, if_pos hw1⟩
      · rw [if_neg hw1]
        by_cases hp : d.registers_per_page < 1
        · exact ⟨_, if_pos hp⟩
        · rw [if_neg hp]
          by_cases hn : d.num_pages < 1
          · exact ⟨_, if_pos hn⟩
          · exfalso
            rcases h with h | h | h | h | h
            · exact hv h
            · exact hw1 h
            · exact hw h
            · exact hp h
            · exact hn h

theorem validate_rejects_device_members_witness :
    (device_no_pages.version ≠ 1 ∨ device_no_pages.register_width < 1 ∨
      device_no_pages.register_width > 64 ∨ device_no_pages.registers_per_page < 1 ∨
      device_no_pages.num_pages < 1) ∧
    ∃ what, validate Target.wrapping device_no_pages = .error (.runtime_error what) :=
  ⟨Or.inr (Or.inr (Or.inr (Or.inr (by decide)))),
    validate_rejects_device_members Target.wrapping device_no_pages
      (Or.inr (Or.inr (Or.inr (Or.inr (by decide)))))⟩

/-- The rejections that the specification lists: `register_width = 65`,
`register_width = 0`, `num_pages = 0`, `registers_per_page = 0` and a version other than
1, each with the message of its own check. -/
theorem validate_rejections (t : Target) (groups : List Group) :
    validate t { paged_device groups with register_width := 65 }
      = .error (.runtime_error "register_width is too large, must be 64 or smaller") ∧
    validate t { paged_device groups with register_width := 0 }
      = .error (.runtime_error "register_width is too small, must be 1 or larger") ∧
    validate t { paged_device groups with num_pages := 0 }
      = .error (.runtime_error "num_pages is too small, must be 1 or larger") ∧
    validate t { paged_device groups with registers_per_page := 0 }
      = .error (.runtime_error "registers_per_page is too small, must be 1 or larger") ∧
    validate t { paged_device groups with version := 2 }
      = .error (.runtime_error "invalid version, expected 1, got ") := by
  refine ⟨?_, ?_, ?_, ?_, ?_⟩ <;> simp [validate, paged_device]

/-- What `validate` does with a device whose only group has size 0 and no registers (valid
members, no signed overflow): the group gets the size `capacity - base_addr`, and the
last check then throws unless `base_addr` is 0 or above the capacity. -/
theorem validate_auto_size (t : Target) (d : Device) (g : Group)
    (hv : d.version = 1) (h1 : 1 ≤ d.register_width) (h64 : d.register_width ≤ 64)
    (h2 : 1 ≤ d.registers_per_page) (h3 : 1 ≤ d.num_pages)
    (h : d.register_width * d.registers_per_page * d.num_pages < 2 ^ 63)
    (hg : d.groups = [g]) (hs : g.size = 0) (hr : g.registers = [])
    (hb : g.base_addr < two64) :
    validate t d =
      if g.base_addr = 0 ∨
          (d.register_width * d.registers_per_page * d.num_pages).toNat < g.base_addr then
        .ok { d with groups := [{ g with
          size := usub (d.register_width * d.registers_per_page * d.num_pages).toNat
            g.base_addr }] }
      else .error (.runtime_error "group is too big to fit into memory: '") := by
  have hc := Device.capacity_eq t d h1 h2 h3 h
  have hcap : (d.register_width * d.registers_per_page * d.num_pages).toNat < 2 ^ 63 := by
    omega
  unfold validate
  rw [if_neg (by simp [hv]), if_neg (by omega), if_neg (by omega), if_neg (by omega),
    if_neg (by omega)]
  simp only [validate_sizes, hg, hs, if_true, for_each, hr, validate_back, List.getLast?, hc]
  generalize (d.register_width * d.registers_per_page * d.num_pages).toNat = cap at hcap ⊢
  unfold two64 at hb
  by_cases hcase : g.base_addr = 0 ∨ cap < g.base_addr
  · rw [if_pos hcase, if_neg]
    simp only [List.getLast, usub, uadd, two64]
    omega
  · rw [if_neg hcase, if_pos]
    simp only [List.getLast, usub, uadd, two64]
    omega

/-- C15 (code defect): `paged_device` (capacity 8 × 16 × 2 = 256) with the single group
`g` at `base_addr = 16`, of size 0 and without registers, is not returned: on every target
`validate` throws "group is too big to fit into memory".  The group is first given the
size 256 - 16 = 240, and the last check then compares `size + base_addr = 256` with
`256 - base_addr = 240`. -/
theorem validate_throws_on_auto_sized_group : ∀ t : Target,
    (paged_device [paged_group 16 0 []]).version = 1 ∧
    (paged_device [paged_group 16 0 []]).register_width = 8 ∧
    (paged_device [paged_group 16 0 []]).registers_per_page = 16 ∧
    (paged_device [paged_group 16 0 []]).num_pages = 2 ∧
    (paged_device [paged_group 16 0 []]).groups.map
        (fun g => (g.base_addr, g.size, g.registers)) = [(16, 0, [])] ∧
    validate_sizes t (paged_device [paged_group 16 0 []]) = .ok [paged_group 16 240 []] ∧
    validate t (paged_device [paged_group 16 0 []])
      = .error (.runtime_error "group is too big to fit into memory: '") := by
  intro t
  refine ⟨rfl, rfl, rfl, rfl, rfl, ?_, ?_⟩
  · have key : ∀ c, (paged_device [paged_group 16 0 []]).capacity t = c →
        validate_sizes t (paged_device [paged_group 16 0 []])
          = .ok [paged_group 16 (usub c 16) []] := by
      intro c hc
      subst hc
      rfl
    exact key 256 (by
      rw [Device.capacity_eq t _ (by decide) (by decide) (by decide) (by decide)]
      rfl)
  · rw [validate_eq_wrapping t _ (by decide) (by decide) (by decide) (by decide) (by decide)]
    decide

/-- C16 (code defect): the register `clashing_register` has bit 0 in both `zeros_mask`
and `ones_mask` and bit 1 in both `zeros_mask` and `x_mask`; `validate` returns the
device that holds it unchanged, on every target. -/
theorem validate_accepts_overlapping_masks : ∀ t : Target,
    clashing_register.zeros_mask &&& clashing_register.ones_mask = 1 ∧
    clashing_register.zeros_mask &&& clashing_register.x_mask = 2 ∧
    validate t (paged_device [paged_group 0 256 [clashing_register]])
      = .ok (paged_device [paged_group 0 256 [clashing_register]]) := by
  intro t
  refine ⟨by decide, by decide, ?_⟩
  rw [validate_eq_wrapping t _ (by decide) (by decide) (by decide) (by decide) (by decide)]
  decide

/-- A register's only field passes the loop over the fields whatever its position is:
the three checks read the union of the fields visited before, which is still 0. -/
theorem validate_fields_single (t : Target) (size_mask reg_mask : Nat) (f : Field) :
    validate_fields t size_mask reg_mask 0 [f] = .ok () := by
  simp [validate_fields]

/-- C17 (code defect): `validate` returns, unchanged and on every target, a device whose
8-bit register has a single field on bit 9, one whose register has `x_mask = 1` and a
single field on bit 0, and one whose register has the fields `f0` on bit 0 and, last,
`f1` on bits 8..12. -/
theorem validate_accepts_field_outside_register : ∀ t : Target,
    register_field_above.num_bits = 8 ∧
    register_field_above.fields.map (fun f => (f.msb, f.lsb)) = [(9, 9)] ∧
    validate t (paged_device [paged_group 0 256 [register_field_above]])
      = .ok (paged_device [paged_group 0 256 [register_field_above]]) ∧
    register_field_on_mask.x_mask = 1 ∧
    register_field_on_mask.fields.map (fun f => (f.msb, f.lsb)) = [(0, 0)] ∧
    validate t (paged_device [paged_group 0 256 [register_field_on_mask]])
      = .ok (paged_device [paged_group 0 256 [register_field_on_mask]]) ∧
    register_last_field_above.num_bits = 8 ∧
    register_last_field_above.fields.map (fun f => (f.msb, f.lsb)) = [(0, 0), (12, 8)] ∧
    validate t (paged_device [paged_group 0 256 [register_last_field_above]])
      = .ok (paged_device [paged_group 0 256 [register_last_field_above]]) := by
  intro t
  refine ⟨by decide, by decide, ?_, by decide, by decide, ?_, by decide, by decide, ?_⟩
  · rw [validate_eq_wrapping t _ (by decide) (by decide) (by decide) (by decide) (by decide)]
    decide
  · rw [validate_eq_wrapping t _ (by decide) (by decide) (by decide) (by decide) (by decide)]
    decide
  · rw [validate_eq_wrapping t _ (by decide) (by decide) (by decide) (by decide) (by decide)]
    decide

/-- C18 (code defect): `paged_device` (capacity 256) with the single group at
`base_addr = 1000` of size 1 is returned unchanged by `validate` on every target, although
`base_addr + size = 1001` exceeds 256: the last check compares 1001 with
`256 - 1000` computed on `uint64_t`. -/
theorem validate_accepts_group_beyond_capacity : ∀ t : Target,
    (paged_device [paged_group 1000 1 []]).capacity t = 256 ∧
    (paged_device [paged_group 1000 1 []]).groups.map (fun g => (g.base_addr, g.size))
      = [(1000, 1)] ∧
    usub 256 1000 = 2 ^ 64 - 744 ∧
    validate t (paged_device [paged_group 1000 1 []])
      = .ok (paged_device [paged_group 1000 1 []]) := by
  intro t
  refine ⟨?_, rfl, by decide, ?_⟩
  · rw [Device.capacity_eq t _ (by decide) (by decide) (by decide) (by decide)]
    rfl
  · rw [validate_eq_wrapping t _ (by decide) (by decide) (by decide) (by decide) (by decide)]
    decide

/-- When `validate` returns a device, each of its three parts has passed, and the
device it returns differs from the argument at most in its groups. -/
theorem validate_ok (t : Target) (d d2 : Device) (h : validate t d = .ok d2) :
    ∃ groups, validate_sizes t d = .ok groups ∧
      for_each (fun group : Group => for_each (validate_register t) group.registers) groups
        = .ok () ∧
      validate_back t d groups = .ok () ∧ d2 = { d with groups := groups } := by
  unfold validate at h
  repeat' split at h
  all_goals cases h
  rename_i _ groups hs _ _ hf _ _ hb
  exact ⟨groups, hs, hf, hb, rfl⟩

/-- When `validate` returns, the extent of the last group lies inside the capacity
provided that its `base_addr` does not exceed the capacity and `base_addr + size` does not
wrap. -/
theorem validate_back_fits (t : Target) (d d2 : Device) (g : Group)
    (h : validate t d = .ok d2) (hg : d2.groups.getLast? = some g)
    (hb : g.base_addr ≤ d.capacity t) (hw : g.base_addr + g.size < two64) :
    g.base_addr + g.size ≤ d.capacity t := by
  obtain ⟨groups, -, -, hback, rfl⟩ := validate_ok t d d2 h
  simp only [validate_back] at hback
  simp only at hg
  rw [hg] at hback
  simp only at hback
  split at hback
  · cases hback
  · rename_i hnot
    unfold two64 at hw
    simp only [usub, uadd, two64] at hnot
    omega

/-! ## `derive` (C19) -/

theorem ValueMap.find_cons (e : Str × Value) (m : ValueMap) (k : Str) :
    ValueMap.find (e :: m) k = if e.1 = k then some e.2 else ValueMap.find m k := by
  unfold ValueMap.find
  by_cases h : e.1 = k
  · simp [List.find?_cons, h]
  · simp [List.find?_cons, h]

theorem ValueMap.contains_eq_false_iff (m : ValueMap) (k : Str) :
    ValueMap.contains m k = false ↔ ValueMap.find m k = none := by
  unfold ValueMap.contains
  cases ValueMap.find m k <;> simp

/-- In a map without a repeated key, `find` returns the value of the entry with the key. -/
theorem ValueMap.find_of_mem (m : ValueMap) (k : Str) (v : Value)
    (hn : (m.map Prod.fst).Nodup) (h : (k, v) ∈ m) : ValueMap.find m k = some v := by
  induction m with
  | nil => simp at h
  | cons e m ih =>
    rw [ValueMap.find_cons]
    rw [List.map_cons, List.nodup_cons] at hn
    rcases List.mem_cons.mp h with h | h
    · subst h
      simp
    · have hne : e.1 ≠ k := by
        intro he
        apply hn.1
        rw [he]
        exact List.mem_map_of_mem Prod.fst h
      rw [if_neg hne]
      exact ih hn.2 h

/-- Replacing a top-level map by itself changes nothing. -/
theorem ValueMap.set_map_same (root : ValueMap) (k : Str) (m : ValueMap)
    (hn : (root.map Prod.fst).Nodup) (h : ValueMap.find root k = some (.map m)) :
    ValueMap.set_map root [k] m = root := by
  simp only [ValueMap.set_map]
  conv_rhs => rw [← List.map_id root]
  apply List.map_congr_left
  intro e he
  simp only [id]
  by_cases hek : e.1 = k
  · rw [if_pos hek]
    have hf := ValueMap.find_of_mem root e.1 e.2 hn he
    rw [hek, h] at hf
    have h2 : e.2 = .map m := (Option.some.inj hf).symm
    obtain ⟨k1, v1⟩ := e
    simp only at h2
    subst h2
    simp [ValueMap.set_map]
  · rw [if_neg hek]

/-- The example of the specification, evaluated: `derive` turns the map with
`derived_from = "sibling"` and `x = 1` into the map with `x = 1` and `y = 3`. -/
theorem derive_sibling_document :
    derive 2 sibling_document = .ok
      [("m".toList, Value.map [("x".toList, .unsigned_integer 1),
          ("y".toList, .unsigned_integer 3)]),
       ("sibling".toList, Value.map [("x".toList, .unsigned_integer 2),
          ("y".toList, .unsigned_integer 3)])] := by
  decide

/-! ## `to_register` (C20) -/

/-- With `ignore_errors` the lookup of an enumeration never throws. -/
theorem enum_of_string_ignore {α : Type} (from_string : Str → Option α) (str : Option Str) :
    enum_of_string from_string str true = .ok (str.bind from_string) := by
  unfold enum_of_string
  cases str with
  | none => rfl
  | some s =>
    simp only [Option.bind]
    cases from_string s <;> rfl

theorem write_contraints_of_error (t : Target) (v : Value) (what : String) (e : Failure)
    (h : write_contraints_of t v what = .error e) : e = .runtime_error what := by
  unfold write_contraints_of at h
  split at h
  · cases h
  · cases h
    rfl

/-- Every failure of `get_write_contraints` is a `std::runtime_error`. -/
theorem get_write_contraints_error (t : Target) (device : Device) (group : Group)
    (reg : ValueMap) (e : Failure) (h : get_write_contraints t device group reg = .error e) :
    ∃ what, e = .runtime_error what := by
  unfold get_write_contraints at h
  repeat' split at h
  all_goals first
    | exact ⟨_, write_contraints_of_error _ _ _ _ h⟩
    | (cases h; exact ⟨_, rfl⟩)
    | cases h

theorem get_field_write_contraints_error (t : Target) (device : Device) (group : Group)
    (reg field : ValueMap) (e : Failure)
    (h : get_field_write_contraints t device group reg field = .error e) :
    ∃ what, e = .runtime_error what := by
  unfold get_field_write_contraints at h
  split at h
  · exact ⟨_, write_contraints_of_error _ _ _ _ h⟩
  · exact get_write_contraints_error _ _ _ _ _ h

/-- Every failure of `to_field` is a `std::runtime_error`. -/
theorem to_field_error (t : Target) (device : Device) (group : Group) (reg : ValueMap)
    (field_name : Str) (field : ValueMap) (e : Failure)
    (h : to_field t device group reg field_name field = .error e) :
    ∃ what, e = .runtime_error what := by
  unfold to_field at h
  simp only [get_inherited_field_enum, enum_of_string_ignore, bind, Except.bind, pure,
    Except.pure] at h
  split at h
  · cases h
  · split at h
    · rename_i hc
      cases h
      exact get_field_write_contraints_error _ _ _ _ _ _ hc
    · cases h

/-- Once a field without `value` or without `initial` has been seen, the flags of the loop
of `to_register` stay false; every failure of the loop is a `std::runtime_error`. -/
theorem to_register_loop_flags (t : Target) (device : Device) (group : Group) (this : Nat)
    (reg : ValueMap) : ∀ (entries : List (Str × Value)) (st : to_register_state),
    (∀ e, to_register_loop t device group this reg entries st = .error e →
      ∃ what, e = .runtime_error what) ∧
    (∀ st2, to_register_loop t device group this reg entries st = .ok st2 →
      (st.fields_have_initial = false → st2.fields_have_initial = false) ∧
      (∀ name field_map field, (name, Value.map field_map) ∈ entries →
        name ∉ to_register_visited →
        to_field t device group reg name field_map = .ok (some field) →
        ValueMap.contains field_map "initial".toList = false →
        st2.fields_have_initial = false)) := by
  intro entries
  induction entries with
  | nil =>
    intro st
    constructor
    · intro e h
      simp only [to_register_loop] at h
      cases h
    · intro st2 h
      simp only [to_register_loop] at h
      cases h
      exact ⟨id, fun _ _ _ hmem => by simp at hmem⟩
  | cons entry entries ih =>
    intro st
    obtain ⟨name, value⟩ := entry
    by_cases hvis : name ∈ to_register_visited
    · have hstep : to_register_loop t device group this reg ((name, value) :: entries) st
          = to_register_loop t device group this reg entries st := by
        simp only [to_register_loop, hvis, if_true]
      rw [hstep]
      refine ⟨(ih st).1, fun st2 h => ⟨((ih st).2 st2 h).1, ?_⟩⟩
      intro n fm f hmem hn hf hc
      rcases List.mem_cons.mp hmem with heq | hmem
      · cases heq
        exact absurd hvis hn
      · exact ((ih st).2 st2 h).2 n fm f hmem hn hf hc
    · have hother : ∀ st1 : to_register_state,
          st1.fields_have_initial = st.fields_have_initial →
          to_register_loop t device group this reg ((name, value) :: entries) st
            = to_register_loop t device group this reg entries st1 →
          (∀ n fm f, (n, Value.map fm) = (name, value) →
            to_field t device group reg n fm = .ok (some f) →
            ValueMap.contains fm "initial".toList = false →
            st1.fields_have_initial = false) →
          (∀ e, to_register_loop t device group this reg ((name, value) :: entries) st
              = .error e → ∃ what, e = .runtime_error what) ∧
          (∀ st2, to_register_loop t device group this reg ((name, value) :: entries) st
              = .ok st2 →
            (st.fields_have_initial = false → st2.fields_have_initial = false) ∧
            (∀ name2 field_map field, (name2, Value.map field_map) ∈ (name, value) :: entries →
              name2 ∉ to_register_visited →
              to_field t device group reg name2 field_map = .ok (some field) →
              ValueMap.contains field_map "initial".toList = false →
              st2.fields_have_initial = false)) := by
        intro st1 hfhi hstep hhead
        rw [hstep]
        refine ⟨(ih st1).1, fun st2 h => ⟨fun h0 => ((ih st1).2 st2 h).1 (hfhi.trans h0), ?_⟩⟩
        intro n fm f hmem hn hf hc
        rcases List.mem_cons.mp hmem with heq | hmem
        · exact ((ih st1).2 st2 h).1 (hhead n fm f heq hf hc)
        · exact ((ih st1).2 st2 h).2 n fm f hmem hn hf hc
      cases value with
      | map field_map =>
        cases hf : to_field t device group reg name field_map with
        | error e0 =>
          have hstep : to_register_loop t device group this reg
              ((name, Value.map field_map) :: entries) st = .error e0 := by
            simp only [to_register_loop, hvis, if_false, hf]
          rw [hstep]
          constructor
          · intro e h
            cases h
            exact to_field_error _ _ _ _ _ _ _ hf
          · intro st2 h
            cases h
        | ok result =>
          cases result with
          | none =>
            apply hother { st with
              extra_data := ValueMap.insert st.extra_data name (Value.map field_map) } rfl
            · simp only [to_register_loop, hvis, if_false, hf]
            · intro n fm f heq hf2 _
              cases heq
              rw [hf] at hf2
              cases hf2
          | some field =>
            by_cases hc : ValueMap.contains field_map "initial".toList = true
            · apply hother { st with
                fields := st.fields ++ [{ field with reg := some this }]
                fields_have_value :=
                  st.fields_have_value && ValueMap.contains field_map "value".toList
                fields_have_initial := st.fields_have_initial } rfl
              · simp only [to_register_loop, hvis, if_false, hf, hc, Bool.and_true]
              · intro n fm f heq _ hc2
                cases heq
                rw [hc] at hc2
                cases hc2
            · have hc0 : ValueMap.contains field_map "initial".toList = false := by
                simpa using hc
              have hstep : to_register_loop t device group this reg
                  ((name, Value.map field_map) :: entries) st
                  = to_register_loop t device group this reg entries { st with
                      fields := st.fields ++ [{ field with reg := some this }]
                      fields_have_value :=
                        st.fields_have_value && ValueMap.contains field_map "value".toList
                      fields_have_initial := false } := by
                simp only [to_register_loop, hvis, if_false, hf, hc0, Bool.and_false]
              rw [hstep]
              refine ⟨(ih _).1, fun st2 h => ⟨fun _ => ((ih _).2 st2 h).1 rfl, ?_⟩⟩
              intro _ _ _ _ _ _ _
              exact ((ih _).2 st2 h).1 rfl
      | list l =>
        apply hother { st with extra_data := ValueMap.insert st.extra_data name (.list l) } rfl
        · simp only [to_register_loop, hvis, if_false]
        · intro n fm f heq
          cases heq
      | string l =>
        apply hother { st with extra_data := ValueMap.insert st.extra_data name (.string l) } rfl
        · simp only [to_register_loop, hvis, if_false]
        · intro n fm f heq
          cases heq
      | integer l =>
        apply hother { st with extra_data := ValueMap.insert st.extra_data name (.integer l) } rfl
        · simp only [to_register_loop, hvis, if_false]
        · intro n fm f heq
          cases heq
      | unsigned_integer l =>
        apply hother { st with
          extra_data := ValueMap.insert st.extra_data name (.unsigned_integer l) } rfl
        · simp only [to_register_loop, hvis, if_false]
        · intro n fm f heq
          cases heq
      | floating_point l =>
        apply hother { st with
          extra_data := ValueMap.insert st.extra_data name (.floating_point l) } rfl
        · simp only [to_register_loop, hvis, if_false]
        · intro n fm f heq
          cases heq
      | boolean l =>
        apply hother { st with extra_data := ValueMap.insert st.extra_data name (.boolean l) } rfl
        · simp only [to_register_loop, hvis, if_false]
        · intro n fm f heq
          cases heq

/-- The map with `addr = 0` and nothing else is turned into a register with `initial = 0`
and without fields, on every target and wherever the register is placed. -/
theorem to_register_bare_register_map (t : Target) (this : Nat) :
    to_register t {} {} this "r".toList bare_register_map
      = .ok (some
          { name := "r".toList, addr := 0, initial := 0, fields := [],
            read_type := ReadType.modify }) :=
  rfl

/-- C20, evaluated: the map with `addr = 0` and nothing else, under a device and a group
without defaults or extra data, has no `initial` and no fields.  The flag
`fields_have_initial` starts as `true` and only a field without `initial` clears it, so the
test before the throw about the missing initial value fails and `to_register` returns a
register without fields whose `initial` is 0 where an error is required. -/
theorem to_register_accepts_register_without_initial :
    get_inherited_property (Value.convert_to_u64 Target.wrapping) {} {} "initial".toList
      bare_register_map = none ∧
    bare_register_map.map (fun e => e.2.is_map) = [false] ∧
    to_register Target.wrapping {} {} 7 "r".toList bare_register_map
      = .ok (some
          { name := "r".toList, addr := 0, initial := 0, fields := [],
            read_type := ReadType.modify }) :=
  ⟨rfl, by decide, to_register_bare_register_map Target.wrapping 7⟩

/-- When an `addr` is found for the register, no `initial` is found for it and its map
holds a nested map that `to_field` accepts as a field and that has no `initial` key,
`to_register` throws a `std::runtime_error`, on every target. -/
theorem to_register_throws_without_initial (t : Target) (device : Device) (group : Group) (this : Nat)
    (reg_name : Str) (reg : ValueMap) (addr : Nat) (name : Str) (field_map : ValueMap)
    (field : Field)
    (haddr : get_inherited_property (Value.convert_to_u64 t) device group "addr".toList reg
      = some addr)
    (hinitial : get_inherited_property (Value.convert_to_u64 t) device group "initial".toList
      reg = none)
    (hmem : (name, Value.map field_map) ∈ reg) (hname : name ∉ to_register_visited)
    (hfield : to_field t device group reg name field_map = .ok (some field))
    (hno : ValueMap.contains field_map "initial".toList = false) :
    ∃ what, to_register t device group this reg_name reg = .error (.runtime_error what) := by
  have hloop := to_register_loop_flags t device group this reg reg {}
  unfold to_register
  simp only [haddr, hinitial, get_inherited_enum, enum_of_string_ignore, bind, Except.bind,
    pure, Except.pure]
  cases hl : to_register_loop t device group this reg reg {} with
  | error e =>
    obtain ⟨what, rfl⟩ := hloop.1 e hl
    exact ⟨what, rfl⟩
  | ok st =>
    have hfhi : st.fields_have_initial = false :=
      (hloop.2 st hl).2 name field_map field hmem hname hfield hno
    simp only
    cases hc : get_write_contraints t device group reg with
    | error e =>
      obtain ⟨what, rfl⟩ := get_write_contraints_error _ _ _ _ e hc
      exact ⟨what, rfl⟩
    | ok contraints =>
      simp only [to_register_initial, hfhi, Bool.false_eq_true, not_false_eq_true, if_true]
      exact ⟨_, rfl⟩

/-- When no entry of the register's map can become a field, the loop of `to_register`
returns and leaves the fields and both flags as they are. -/
theorem to_register_loop_without_fields (t : Target) (device : Device) (group : Group)
    (this : Nat) (reg : ValueMap) : ∀ (entries : List (Str × Value)) (st : to_register_state),
    (∀ e ∈ entries, e.1 ∈ to_register_visited ∨ e.2.is_map = false) →
    ∃ st2, to_register_loop t device group this reg entries st = .ok st2 ∧
      st2.fields = st.fields ∧ st2.fields_have_value = st.fields_have_value ∧
      st2.fields_have_initial = st.fields_have_initial := by
  intro entries
  induction entries with
  | nil =>
    intro st _
    exact ⟨st, rfl, rfl, rfl, rfl⟩
  | cons entry entries ih =>
    intro st h
    obtain ⟨name, value⟩ := entry
    have h2 : ∀ e ∈ entries, e.1 ∈ to_register_visited ∨ e.2.is_map = false :=
      fun e he => h e (List.mem_cons_of_mem _ he)
    by_cases hvis : name ∈ to_register_visited
    · simp only [to_register_loop, hvis, if_true]
      exact ih st h2
    · have hv : value.is_map = false := by
        rcases h (name, value) (List.mem_cons_self _ _) with h1 | h1
        · exact absurd h1 hvis
        · exact h1
      cases value with
      | map _ => simp [Value.is_map] at hv
      | list l =>
        simp only [to_register_loop, hvis, if_false]
        exact ih _ h2
      | string l =>
        simp only [to_register_loop, hvis, if_false]
        exact ih _ h2
      | integer l =>
        simp only [to_register_loop, hvis, if_false]
        exact ih _ h2
      | unsigned_integer l =>
        simp only [to_register_loop, hvis, if_false]
        exact ih _ h2
      | floating_point l =>
        simp only [to_register_loop, hvis, if_false]
        exact ih _ h2
      | boolean l =>
        simp only [to_register_loop, hvis, if_false]
        exact ih _ h2

/-- The missed case of the check for an initial value, in general: a register map for which
an `addr` but no `initial` is found and in which no entry can become a field passes the
check, since nothing clears `fields_have_initial`, and is turned into a register without
fields whose `initial` is 0, provided its write constraints can be read. -/
theorem to_register_without_fields (t : Target) (device : Device) (group : Group) (this : Nat)
    (reg_name : Str) (reg : ValueMap) (addr : Nat) (contraints : WriteContraints)
    (haddr : get_inherited_property (Value.convert_to_u64 t) device group "addr".toList reg
      = some addr)
    (hinitial : get_inherited_property (Value.convert_to_u64 t) device group "initial".toList
      reg = none)
    (hnone : ∀ e ∈ reg, e.1 ∈ to_register_visited ∨ e.2.is_map = false)
    (hc : get_write_contraints t device group reg = .ok contraints) :
    ∃ r, to_register t device group this reg_name reg = .ok (some r) ∧
      r.initial = 0 ∧ r.fields = [] := by
  obtain ⟨st, hl, hf, hfv, hfi⟩ :=
    to_register_loop_without_fields t device group this reg reg {} hnone
  have hf0 : st.fields = [] := hf
  have hfv0 : st.fields_have_value = true := hfv
  have hfi0 : st.fields_have_initial = true := hfi
  unfold to_register
  simp only [haddr, hinitial, get_inherited_enum, enum_of_string_ignore, bind, Except.bind,
    pure, Except.pure, hl, hc, to_register_initial, hfi0, hf0, not_true_eq_false, if_false,
    List.foldl_nil, Option.getD_none]
  cases hval : get_inherited_property (Value.convert_to_u64 t) device group "value".toList reg with
  | none =>
    simp only [to_register_value, hfv0, not_true_eq_false, if_false, List.foldl_nil]
    exact ⟨_, rfl, rfl, rfl⟩
  | some v =>
    simp only [to_register_value, hfv0, not_true_eq_false, if_false, List.foldl_nil,
      Nat.zero_and, ne_eq, not_true_eq_false]
    exact ⟨_, rfl, rfl, rfl⟩

/-- The field `en` of `register_map_with_field` is accepted by `to_field` and has no
`initial` key. -/
theorem to_field_of_register_map_with_field :
    ("en".toList, Value.map [("position".toList, Value.unsigned_integer 0)])
      ∈ register_map_with_field ∧
    "en".toList ∉ to_register_visited ∧
    to_field Target.wrapping {} {} register_map_with_field "en".toList
        [("position".toList, Value.unsigned_integer 0)]
      = .ok (some { name := "en".toList, read_type := ReadType.modify }) ∧
    ValueMap.contains [("position".toList, Value.unsigned_integer 0)] "initial".toList
      = false := by
  decide

/-- The error for `register_map_with_field` is the one about the missing initial value. -/
theorem to_register_map_with_field :
    to_register Target.wrapping {} {} 7 "r".toList register_map_with_field
      = .error (.runtime_error
        "Expected either register to specify an initial value, or the fields to make up an initial value") := by
  decide

/-! ## `to_group` (C21) -/

/-- The entries of `group_map_with_mask` in the order in which `to_group` visits them: the
register `r` comes before `zeros_mask`, the register `zz` after it. -/
theorem group_map_with_mask_order :
    (group_map_with_mask "r").map (fun e => e.1)
      = ["base_addr".toList, "r".toList, "size".toList, "zeros_mask".toList] ∧
    (group_map_with_mask "zz").map (fun e => e.1)
      = ["base_addr".toList, "size".toList, "zeros_mask".toList, "zz".toList] := by
  decide

/-- C21, evaluated: the group's map has the scalar entry `zeros_mask = 5`, the map of the
register `r` and the group's defaults do not define `zeros_mask`, and `to_group` builds
the register `r` with `zeros_mask = 0`, because the entry `zeros_mask` reaches the group's
extra data only after `r` has been built.  The register `zz` of the same group map, whose
name sorts after `zeros_mask`, does take the value 5. -/
theorem to_group_register_misses_later_group_entry : ∀ t : Target,
    ValueMap.find (group_map_with_mask "r") "zeros_mask".toList
      = some (Value.unsigned_integer 5) ∧
    ValueMap.find bare_register_map "zeros_mask".toList = none ∧
    ValueMap.find (group_map_with_mask "r") "defaults".toList = none ∧
    (to_group t {} 1 (fun k => 10 + k) "g".toList (group_map_with_mask "r")).map
        (Option.map (fun g => g.registers.map (fun r => (r.name, r.zeros_mask))))
      = .ok (some [("r".toList, 0)]) ∧
    (to_group t {} 1 (fun k => 10 + k) "g".toList (group_map_with_mask "zz")).map
        (Option.map (fun g => g.registers.map (fun r => (r.name, r.zeros_mask))))
      = .ok (some [("zz".toList, 5)]) :=
  fun _ => ⟨by decide, by decide, by decide, rfl, rfl⟩

/-! ## The native format: results do not depend on the budget -/

/-- A result of `lex_loop` other than the exhausted budget stays the same under any larger
budget. -/
theorem lex_loop_mono (t : Target) : ∀ (fuel fuel' : Nat) (s : Str), fuel ≤ fuel' →
    lex_loop t fuel s ≠ .error .out_of_fuel → lex_loop t fuel' s = lex_loop t fuel s := by
  intro fuel
  induction fuel with
  | zero =>
    intro fuel' s _ h
    cases s with
    | nil => simp only [lex_loop]
    | cons c rest => exact absurd (by simp only [lex_loop]) h
  | succ fuel ih =>
    intro fuel' s hle h
    cases s with
    | nil => simp only [lex_loop]
    | cons c rest =>
      obtain ⟨f, rfl⟩ : ∃ f, fuel' = f + 1 := ⟨fuel' - 1, by omega⟩
      simp only [lex_loop] at h ⊢
      cases hs : lex_step t c rest with
      | error e => rfl
      | ok r =>
        rw [hs] at h
        have hne : lex_loop t fuel r.2 ≠ .error .out_of_fuel := by
          intro hc
          apply h
          simp only [hc, bind, Except.bind]
        simp only [bind, Except.bind, ih f r.2 (by omega) hne]

/-- A result of the parser other than the exhausted budget stays the same under any larger
budget (`parse_impl` and its two loops together). -/
theorem parse_mono_aux : ∀ fuel : Nat,
    (∀ (fuel' : Nat) (toks : List Token), fuel ≤ fuel' →
      parse_impl fuel toks ≠ .error .out_of_fuel → parse_impl fuel' toks = parse_impl fuel toks) ∧
    (∀ (fuel' : Nat) (map : ValueMap) (toks : List Token), fuel ≤ fuel' →
      parse_map_loop fuel map toks ≠ .error .out_of_fuel →
      parse_map_loop fuel' map toks = parse_map_loop fuel map toks) ∧
    (∀ (fuel' : Nat) (list : ValueList) (toks : List Token), fuel ≤ fuel' →
      parse_array_loop fuel list toks ≠ .error .out_of_fuel →
      parse_array_loop fuel' list toks = parse_array_loop fuel list toks) := by
  intro fuel
  induction fuel with
  | zero =>
    refine ⟨?_, ?_, ?_⟩
    · intro fuel' toks _ h
      exact absurd (by simp only [parse_impl]) h
    · intro fuel' map toks _ h
      exact absurd (by simp only [parse_map_loop]) h
    · intro fuel' list toks _ h
      exact absurd (by simp only [parse_array_loop]) h
  | succ fuel ih =>
    obtain ⟨ih1, ih2, ih3⟩ := ih
    refine ⟨?_, ?_, ?_⟩
    · intro fuel' toks hle h
      obtain ⟨f, rfl⟩ : ∃ f, fuel' = f + 1 := ⟨fuel' - 1, by omega⟩
      have hf : fuel ≤ f := by omega
      cases toks with
      | nil => simp only [parse_impl]
      | cons tok rest =>
        simp only [parse_impl] at h ⊢
        split
        · rename_i hty
          simp only [hty] at h
          cases rest with
          | nil => rfl
          | cons first after =>
            simp only [parse_map_body] at h ⊢
            split
            · rfl
            · rename_i hfirst
              simp only [hfirst, if_false] at h
              rw [ih2 f [] (first :: after) hf]
              intro hc
              apply h
              rw [hc]
              rfl
        · rename_i hty
          simp only [hty] at h
          cases rest with
          | nil => rfl
          | cons first after =>
            simp only [parse_array_body] at h ⊢
            split
            · rfl
            · rename_i hfirst
              simp only [hfirst, if_false] at h
              rw [ih3 f [] (first :: after) hf]
              intro hc
              apply h
              rw [hc]
              rfl
        all_goals rfl
    · intro fuel' map toks hle h
      obtain ⟨f, rfl⟩ : ∃ f, fuel' = f + 1 := ⟨fuel' - 1, by omega⟩
      have hf : fuel ≤ f := by omega
      cases toks with
      | nil => simp only [parse_map_loop]
      | cons tok rest =>
        simp only [parse_map_loop] at h ⊢
        cases he : expect TokenType.identifier (tok :: rest) with
        | error e => rfl
        | ok ident =>
          cases hc : expect TokenType.colon rest with
          | error e => rfl
          | ok colon =>
            simp only [he, hc, bind, Except.bind] at h ⊢
            split
            · rfl
            · split
              · rename_i _ v after hrest _ name hname
                simp only [hrest, hname] at h
                have hne : parse_impl fuel (v :: after) ≠ .error .out_of_fuel := by
                  intro hx
                  apply h
                  rw [hx]
                rw [ih1 f (v :: after) hf hne]
                cases hp : parse_impl fuel (v :: after) with
                | error e => rfl
                | ok r =>
                  simp only [hp] at h ⊢
                  split
                  · rfl
                  · split
                    · rfl
                    · split
                      · split
                        · rfl
                        · split
                          · rfl
                          · rename_i hnot _ _ hcomma _ _ _ hr2 hbrace
                            simp only [hnot, hr2, hcomma, hbrace, if_true, if_false] at h
                            exact ih2 f _ _ hf h
                      · rfl
              · rfl
    · intro fuel' list toks hle h
      obtain ⟨f, rfl⟩ : ∃ f, fuel' = f + 1 := ⟨fuel' - 1, by omega⟩
      have hf : fuel ≤ f := by omega
      cases toks with
      | nil => simp only [parse_array_loop]
      | cons tok rest =>
        simp only [parse_array_loop, bind, Except.bind] at h ⊢
        have hne : parse_impl fuel (tok :: rest) ≠ .error .out_of_fuel := by
          intro hx
          apply h
          rw [hx]
        rw [ih1 f (tok :: rest) hf hne]
        cases hp : parse_impl fuel (tok :: rest) with
        | error e => rfl
        | ok r =>
          simp only [hp] at h ⊢
          split
          · rfl
          · split
            · split
              · rfl
              · split
                · rfl
                · rename_i _ _ hcomma _ _ _ hr2 hbr
                  simp only [hr2, hcomma, hbr, if_true, if_false] at h
                  exact ih3 f _ _ hf h
            · rfl

/-- The part of `parse_mono_aux` for `parse_impl`. -/
theorem parse_impl_mono (fuel fuel' : Nat) (toks : List Token) (h : fuel ≤ fuel')
    (hne : parse_impl fuel toks ≠ .error .out_of_fuel) :
    parse_impl fuel' toks = parse_impl fuel toks :=
  (parse_mono_aux fuel).1 fuel' toks h hne

/-- A result of `parse` other than the exhausted budget stays the same under any larger
budget. -/
theorem parse_mono (fuel fuel' : Nat) (toks : List Token) (h : fuel ≤ fuel')
    (hne : parse fuel toks ≠ .error .out_of_fuel) : parse fuel' toks = parse fuel toks := by
  unfold parse at hne ⊢
  rw [parse_impl_mono fuel fuel' toks h]
  intro hc
  apply hne
  rw [hc]
  rfl

/-- A result of `lex` other than the exhausted budget stays the same under any larger
budget. -/
theorem lex_mono (t : Target) (fuel fuel' : Nat) (s : Str) (h : fuel ≤ fuel')
    (hne : lex t fuel s ≠ .error .out_of_fuel) : lex t fuel' s = lex t fuel s := by
  unfold lex at hne ⊢
  split
  · rfl
  · rename_i hs
    simp only [hs] at hne
    exact lex_loop_mono t fuel fuel' s h hne

/-- A result of `lex` under the budget `k` other than the exhausted budget is the result
under `fuel + k`. -/
theorem lex_add (t : Target) (k fuel : Nat) (s : Str) (r : Except Failure (List Token))
    (h : lex t k s = r) (hr : r ≠ .error .out_of_fuel) : lex t (fuel + k) s = r := by
  rw [lex_mono t k (fuel + k) s (by omega) (by rw [h]; exact hr), h]

/-- A result of `parse_or_throw` other than the exhausted budget stays the same under any
larger budget. -/
theorem parse_or_throw_mono (t : Target) (fuel fuel' : Nat) (str : Str) (h : fuel ≤ fuel')
    (hne : parse_or_throw t fuel str ≠ .error .out_of_fuel) :
    parse_or_throw t fuel' str = parse_or_throw t fuel str := by
  unfold parse_or_throw at hne ⊢
  have hl : lex t fuel str ≠ .error .out_of_fuel := by
    intro hc
    apply hne
    rw [hc]
    rfl
  rw [lex_mono t fuel fuel' str h hl]
  cases hx : lex t fuel str with
  | error e => rfl
  | ok toks =>
    rw [hx] at hne
    exact parse_mono fuel fuel' toks h hne

/-- A result of `parse_or_throw` under the budget `k` other than the exhausted budget is
the result under `fuel + k`. -/
theorem parse_or_throw_add (t : Target) (k fuel : Nat) (str : Str) (r : Except Failure Value)
    (h : parse_or_throw t k str = r) (hr : r ≠ .error .out_of_fuel) :
    parse_or_throw t (fuel + k) str = r := by
  rw [parse_or_throw_mono t k (fuel + k) str (by omega) (by rw [h]; exact hr), h]

/-- A result of `rds_deserialize` other than the exhausted budget stays the same under any
larger budget. -/
theorem rds_deserialize_mono (t : Target) (fuel fuel' : Nat) (s : Str) (h : fuel ≤ fuel')
    (hne : rds_deserialize t fuel s ≠ .error .out_of_fuel) :
    rds_deserialize t fuel' s = rds_deserialize t fuel s := by
  unfold rds_deserialize at hne ⊢
  rw [parse_or_throw_mono t fuel fuel' s h]
  intro hc
  apply hne
  rw [hc]
  rfl

/-! ## Integer literals of the native format (C23, C24, C25) -/

/-- C23, evaluated: `0xa`, whose value is 10, is read as the unsigned integer 0, because
`consume_hex` adds `c - 'a'` for a letter; `0x1f` is read as 21; `0xF` is read as the
unsigned integer 0 followed by the identifier `F`, because the loop takes `A` to `E` only,
and is rejected by `parse` for the token that is left.  A literal of decimal digits such
as `0x10` is read as its value. -/
theorem consume_hex_reads_letter_as_offset : ∀ (t : Target) (fuel : Nat),
    parse_or_throw t (fuel + 1) "0xa".toList = .ok (.unsigned_integer 0) ∧
    parse_or_throw t (fuel + 1) "0x1f".toList = .ok (.unsigned_integer 21) ∧
    lex t (fuel + 2) "0xF".toList
      = .ok [{ type := .unsigned_int, value := .uint64_t 0 },
             { type := .identifier, value := .string_view "F".toList }] ∧
    parse_or_throw t (fuel + 2) "0xF".toList
      = .error (.runtime_error "Error: did not consume all tokens (size = ") ∧
    parse_or_throw t (fuel + 1) "0x10".toList = .ok (.unsigned_integer 16) :=
  fun t fuel =>
    ⟨parse_or_throw_add t 1 fuel _ _ rfl (by decide),
     parse_or_throw_add t 1 fuel _ _ rfl (by decide),
     lex_add t 2 fuel _ _ rfl (by decide),
     parse_or_throw_add t 2 fuel _ _ rfl (by decide),
     parse_or_throw_add t 1 fuel _ _ rfl (by decide)⟩

/-- C24, evaluated: `0b1` is read as the unsigned integer 3 and `0b10` as 6, because
`consume_binary` starts `value` with the first digit and then shifts the same digit in
once more; only a literal whose first digit is `0`, such as `0b01`, is read as its
value. -/
theorem consume_binary_reads_first_digit_twice : ∀ (t : Target) (fuel : Nat),
    parse_or_throw t (fuel + 1) "0b1".toList = .ok (.unsigned_integer 3) ∧
    parse_or_throw t (fuel + 1) "0b10".toList = .ok (.unsigned_integer 6) ∧
    parse_or_throw t (fuel + 1) "0b01".toList = .ok (.unsigned_integer 1) :=
  fun t fuel =>
    ⟨parse_or_throw_add t 1 fuel _ _ rfl (by decide),
     parse_or_throw_add t 1 fuel _ _ rfl (by decide),
     parse_or_throw_add t 1 fuel _ _ rfl (by decide)⟩

/-- C25, evaluated: the decimal literal of `3 * 10 ^ 19`, which is above `2 ^ 64`, is read
as the unsigned integer `3 * 10 ^ 19 - 2 ^ 64`, because the check `old > int_value` does not
see a wrapped sum that is above the old value; the hexadecimal literal of `3 * 2 ^ 63` is
read as `2 ^ 63`, and the binary literal of `2 ^ 65 - 1` as `2 ^ 64 - 1`. -/
theorem consume_digits_wraps_around : ∀ (t : Target) (fuel : Nat),
    2 ^ 64 ≤ 30000000000000000000 ∧
    parse_or_throw t (fuel + 1) "30000000000000000000".toList
      = .ok (.unsigned_integer (30000000000000000000 - 2 ^ 64)) ∧
    parse_or_throw t (fuel + 1) "0x18000000000000000".toList
      = .ok (.unsigned_integer (2 ^ 63)) ∧
    parse_or_throw t (fuel + 1) binary_65_ones = .ok (.unsigned_integer (2 ^ 64 - 1)) :=
  fun t fuel =>
    ⟨by decide,
     parse_or_throw_add t 1 fuel _ _ rfl (by decide),
     parse_or_throw_add t 1 fuel _ _ rfl (by decide),
     parse_or_throw_add t 1 fuel _ _ rfl (by decide)⟩

/-! ## Trailing commas (C27) -/

/-- C27, evaluated: `{a: 1}` parses to the map with `a = 1`, and `{a: 1,}` is rejected;
`[1]` parses to the list of 1, and `[1,]` is rejected.  After a comma that the closing
brace or bracket follows, `parse_map` and `parse_array` stop on the closing token without
consuming it, and `parse` throws for the token that is left. -/
theorem parse_rejects_trailing_comma : ∀ (t : Target) (fuel : Nat),
    parse_or_throw t (fuel + 8) document_a1
      = .ok (.map [("a".toList, .unsigned_integer 1)]) ∧
    parse_or_throw t (fuel + 8) document_a1_comma
      = .error (.runtime_error "Error: did not consume all tokens (size = ") ∧
    parse_or_throw t (fuel + 8) "[1]".toList = .ok (.list [.unsigned_integer 1]) ∧
    parse_or_throw t (fuel + 8) document_array_comma
      = .error (.runtime_error "Error: did not consume all tokens (size = ") :=
  fun t fuel =>
    ⟨parse_or_throw_add t 8 fuel _ _ rfl (by decide),
     parse_or_throw_add t 8 fuel _ _ rfl (by decide),
     parse_or_throw_add t 8 fuel _ _ rfl (by decide),
     parse_or_throw_add t 8 fuel _ _ rfl (by decide)⟩

/-! ## The keywords `true` and `false` (C28) -/

/-- C28, evaluated: `lex` pushes for the keyword `true`, and for the keyword `false`, a
token of type `unsigned_int` whose value is the `bool` `true`; `parse_impl` reads the
value of an `unsigned_int` token with `std::get<uint64_t>`, which throws
`std::bad_variant_access`.  So neither keyword parses, as a document or as the value of
a map entry. -/
theorem parse_throws_on_keyword : ∀ (t : Target) (fuel : Nat),
    lex t (fuel + 1) "true".toList
      = .ok [{ type := .unsigned_int, value := .bool true }] ∧
    lex t (fuel + 1) "false".toList
      = .ok [{ type := .unsigned_int, value := .bool true }] ∧
    parse_or_throw t (fuel + 1) "true".toList = .error .bad_variant_access ∧
    parse_or_throw t (fuel + 1) "false".toList = .error .bad_variant_access ∧
    parse_or_throw t (fuel + 8) document_a_true = .error .bad_variant_access :=
  fun t fuel =>
    ⟨lex_add t 1 fuel _ _ rfl (by decide),
     lex_add t 1 fuel _ _ rfl (by decide),
     parse_or_throw_add t 1 fuel _ _ rfl (by decide),
     parse_or_throw_add t 1 fuel _ _ rfl (by decide),
     parse_or_throw_add t 8 fuel _ _ rfl (by decide)⟩

/-! ## Decimal integer literals (C22) -/

/-- The accumulated number is at least the number the loop starts from. -/
theorem digits_value_ge (ds : Str) : ∀ v : Nat, v ≤ digits_value v ds := by
  induction ds with
  | nil => intro v; exact le_refl v
  | cons c ds ih =>
    intro v
    have h := ih (10 * v + (c.toNat - '0'.toNat))
    simp only [digits_value, List.foldl_cons] at h ⊢
    omega

/-- On decimal digits whose accumulated value stays below `2 ^ 64`, followed by a
character that is not a digit, `consume_digits` returns that value and stops after the
digits. -/
theorem consume_digits_append (ds rest : Str) (hds : ∀ c ∈ ds, is_number c = true)
    (hrest : ∀ c ∈ rest.head?, is_number c = false) :
    ∀ v : Nat, digits_value v ds < two64 →
      consume_digits v (ds ++ rest) = .ok (digits_value v ds, rest) := by
  induction ds with
  | nil =>
    intro v _
    cases rest with
    | nil => rfl
    | cons c rest =>
      have hc := hrest c (by simp)
      simp only [List.nil_append, consume_digits, hc, digits_value, List.foldl_nil]
      rfl
  | cons c ds ih =>
    intro v hv
    have hc := hds c (by simp)
    have hv' : digits_value (10 * v + (c.toNat - '0'.toNat)) ds < two64 := hv
    have hge := digits_value_ge ds (10 * v + (c.toNat - '0'.toNat))
    have hlt : 10 * v + (c.toNat - '0'.toNat) < two64 := by omega
    simp only [List.cons_append, consume_digits, hc, if_true, Nat.mod_eq_of_lt hlt]
    rw [if_neg (by omega)]
    exact ih (fun c hc => hds c (List.mem_cons_of_mem _ hc)) _ hv'

/-- The character of a digit below 10 is a decimal digit with that value. -/
theorem digitChar_digit : ∀ k < 10, is_number (Nat.digitChar k) = true
    ∧ (Nat.digitChar k).toNat - '0'.toNat = k := by
  decide

/-- The digits are written in front of the accumulator. -/
theorem toDigitsCore_append : ∀ (fuel n : Nat) (ds : List Char),
    Nat.toDigitsCore 10 fuel n ds = Nat.toDigitsCore 10 fuel n [] ++ ds := by
  intro fuel
  induction fuel with
  | zero => intro n ds; rfl
  | succ fuel ih =>
    intro n ds
    simp only [Nat.toDigitsCore]
    split
    · rfl
    · rw [ih (n / 10) (Nat.digitChar (n % 10) :: ds), ih (n / 10) [Nat.digitChar (n % 10)]]
      simp

/-- The text of `n` in base 10: not empty, decimal digits only, of value `n`, with a
leading `0` only for `n = 0`. -/
theorem toDigitsCore_spec : ∀ (fuel n : Nat), n < fuel →
    Nat.toDigitsCore 10 fuel n [] ≠ [] ∧
    (∀ c ∈ Nat.toDigitsCore 10 fuel n [], is_number c = true) ∧
    digits_value 0 (Nat.toDigitsCore 10 fuel n []) = n ∧
    ((Nat.toDigitsCore 10 fuel n []).head? = some '0' → n = 0) := by
  intro fuel
  induction fuel with
  | zero => intro n h; omega
  | succ fuel ih =>
    intro n hn
    simp only [Nat.toDigitsCore]
    have hd := digitChar_digit (n % 10) (Nat.mod_lt _ (by omega))
    split
    · rename_i h0
      have hn10 : n % 10 = n := by omega
      refine ⟨by simp, ?_, ?_, ?_⟩
      · intro c hc
        rw [List.mem_singleton] at hc
        rw [hc]
        exact hd.1
      · simp only [digits_value, List.foldl_cons, List.foldl_nil]
        omega
      · intro hh
        simp only [List.head?_cons, Option.some.injEq] at hh
        have h2 := hd.2
        rw [hh] at h2
        have : ('0'.toNat - '0'.toNat) = 0 := by decide
        omega
    · rename_i h0
      obtain ⟨h1, h2, h3, h4⟩ := ih (n / 10) (by omega)
      rw [toDigitsCore_append]
      refine ⟨by simp [h1], ?_, ?_, ?_⟩
      · intro c hc
        rw [List.mem_append, List.mem_singleton] at hc
        rcases hc with hc | hc
        · exact h2 c hc
        · rw [hc]
          exact hd.1
      · simp only [digits_value, List.foldl_append, List.foldl_cons, List.foldl_nil]
        have h3' : List.foldl (fun acc c => 10 * acc + (c.toNat - '0'.toNat)) 0
            (Nat.toDigitsCore 10 fuel (n / 10) []) = n / 10 := h3
        rw [h3']
        omega
      · intro hh
        exfalso
        apply h0
        apply h4
        cases hl : Nat.toDigitsCore 10 fuel (n / 10) [] with
        | nil => exact absurd hl h1
        | cons a l =>
          rw [hl] at hh
          simpa using hh

/-- The decimal text of `n`, as `std::format` and `Nat.repr` write it: it is not empty,
consists of decimal digits, has the value `n`, and starts with `0` only for `n = 0`. -/
theorem repr_spec (n : Nat) :
    (Nat.repr n).toList ≠ [] ∧ (∀ c ∈ (Nat.repr n).toList, is_number c = true) ∧
    digits_value 0 (Nat.repr n).toList = n ∧ ((Nat.repr n).toList.head? = some '0' → n = 0) :=
  toDigitsCore_spec (n + 1) n (by omega)

/-- The expression `*pos_ - '0'` converted to `uint64_t`, for a decimal digit. -/
theorem to_u64_digit (c : Char) (h : is_number c = true) :
    to_u64 ((c.toNat : Int) - ('0'.toNat : Int)) = c.toNat - '0'.toNat := by
  simp only [is_number, decide_eq_true_eq] at h
  have h48 : '0'.toNat = 48 := by decide
  have h57 : '9'.toNat = 57 := by decide
  rw [h48] at h ⊢
  rw [h57] at h
  unfold to_u64
  have e : ((c.toNat : Int) - ((48 : Nat) : Int)) = ((c.toNat - 48 : Nat) : Int) := by omega
  rw [e]
  have hlt : ((c.toNat - 48 : Nat) : Int) % (two64 : Int) = ((c.toNat - 48 : Nat) : Int) := by
    apply Int.emod_eq_of_lt
    · omega
    · have : (two64 : Int) = 18446744073709551616 := by norm_num [two64]
      omega
  rw [hlt]
  simp

/-- A decimal digit is none of the characters that the lexer treats apart. -/
theorem is_number_ends (c : Char) (h : is_number c = true) :
    c ≠ '.' ∧ c ≠ 'e' ∧ c ≠ 'E' ∧ c ≠ 'x' ∧ c ≠ 'X' ∧ c ≠ 'b' ∧ c ≠ 'B' ∧ c ≠ '-' := by
  refine ⟨?_, ?_, ?_, ?_, ?_, ?_, ?_, ?_⟩ <;>
    (intro hc; rw [hc] at h; exact absurd h (by decide))

/-- On a text of decimal digits whose value is below `2 ^ 64`, followed by a character
that ends a number, `consume_positive_number` returns the value as an unsigned integer
and stops after the digits. -/
theorem consume_positive_number_digits (t : Target) (ds rest : Str) (hne : ds ≠ [])
    (hds : ∀ c ∈ ds, is_number c = true) (hv : digits_value 0 ds < two64)
    (hrest : ends_number rest) :
    consume_positive_number t (ds ++ rest) = .ok (.uint64_t (digits_value 0 ds), rest) := by
  cases ds with
  | nil => exact absurd rfl hne
  | cons c tail =>
    have hc := hds c (by simp)
    have hval : digits_value 0 (c :: tail) = digits_value (c.toNat - '0'.toNat) tail := by
      simp only [digits_value, List.foldl_cons, Nat.mul_zero, Nat.zero_add]
    rw [hval] at hv ⊢
    have hrest' : ∀ c ∈ rest.head?, is_number c = false := fun c hc => (hrest c hc).1
    have hloop := consume_digits_append tail rest
      (fun c hc => hds c (List.mem_cons_of_mem _ hc)) hrest' _ hv
    simp only [List.cons_append, consume_positive_number, to_u64_digit c hc]
    cases hpos : tail ++ rest with
    | nil =>
      have ht : tail = [] := (List.append_eq_nil.mp hpos).1
      have hr : rest = [] := (List.append_eq_nil.mp hpos).2
      subst ht
      subst hr
      rfl
    | cons c1 pos1 =>
      have hc1 : c1 ≠ 'x' ∧ c1 ≠ 'X' ∧ c1 ≠ 'b' ∧ c1 ≠ 'B' := by
        cases tail with
        | nil =>
          have hh := hrest c1 (by simp only [List.nil_append] at hpos; simp [hpos])
          exact ⟨hh.2.2.2.2.1, hh.2.2.2.2.2.1, hh.2.2.2.2.2.2.1, hh.2.2.2.2.2.2.2⟩
        | cons a tail =>
          have ha : a = c1 := by
            simp only [List.cons_append, List.cons.injEq] at hpos
            exact hpos.1
          have hh := is_number_ends c1 (ha ▸ hds a (by simp))
          exact ⟨hh.2.2.2.1, hh.2.2.2.2.1, hh.2.2.2.2.2.1, hh.2.2.2.2.2.2.1⟩
      simp only [hc1.1, hc1.2.1, hc1.2.2.1, hc1.2.2.2, or_self, and_false, if_false]
      rw [← hpos, hloop]
      simp only [bind, Except.bind]
      cases rest with
      | nil => rfl
      | cons c2 rest2 =>
        have hh := hrest c2 (by simp)
        simp only [hh.2.1, hh.2.2.1, hh.2.2.2.1, or_self, not_false_eq_true, if_true]

/-- The round of `lex` on a decimal digit is the `default` case with
`consume_positive_number`. -/
theorem lex_step_of_is_number (t : Target) (c : Char) (rest : Str) (h : is_number c = true) :
    lex_step t c rest
      = (consume_positive_number t (c :: rest)).map (fun r => (some r.1.token, r.2)) := by
  have ne : ∀ d : Char, is_number d = false → c ≠ d := by
    intro d hd hc
    rw [hc, hd] at h
    exact absurd h (by decide)
  have hl : is_letter c = false := by
    simp only [is_number, decide_eq_true_eq] at h
    have h48 : '0'.toNat = 48 := by decide
    have h57 : '9'.toNat = 57 := by decide
    have ha : 'a'.toNat = 97 := by decide
    have hA : 'A'.toNat = 65 := by decide
    have hZ : 'Z'.toNat = 90 := by decide
    simp only [is_letter, decide_eq_false_iff_not]
    omega
  simp only [lex_step, ne '\x7b' (by decide), ne '\x7d' (by decide), ne '[' (by decide),
    ne ']' (by decide), ne ':' (by decide), ne ',' (by decide), ne (Char.ofNat 39) (by decide),
    ne (Char.ofNat 34) (by decide), ne '-' (by decide), ne 't' (by decide), ne 'f' (by decide),
    ne '\n' (by decide), ne ' ' (by decide), ne '\t' (by decide), ne (Char.ofNat 11) (by decide),
    ne (Char.ofNat 12) (by decide), hl, h, or_self, if_false, if_true, Bool.false_eq_true]

/-- The lexer on a text of decimal digits whose value is below `2 ^ 64`: one token, the
unsigned integer of that value. -/
theorem lex_digits (t : Target) (fuel : Nat) (ds : Str) (hne : ds ≠ [])
    (hds : ∀ c ∈ ds, is_number c = true) (hv : digits_value 0 ds < two64) :
    lex t (fuel + 1) ds
      = .ok [{ type := .unsigned_int, value := .uint64_t (digits_value 0 ds) }] := by
  have hcp := consume_positive_number_digits t ds [] hne hds hv (by intro c hc; simp at hc)
  rw [List.append_nil] at hcp
  cases ds with
  | nil => exact absurd rfl hne
  | cons c tail =>
    simp only [lex, List.isEmpty_cons, Bool.false_eq_true, if_false, lex_loop,
      lex_step_of_is_number t c tail (hds c (by simp)), hcp, Except.map, bind, Except.bind,
      Number.token]

/-- The lexer on `-` followed by a text of decimal digits whose value `v` is below `2 ^ 64`:
the signed integer `-v` when `v` is at most `2 ^ 63 - 1`, a parse error otherwise. -/
theorem lex_minus_digits (t : Target) (fuel : Nat) (ds : Str) (hne : ds ≠ [])
    (hds : ∀ c ∈ ds, is_number c = true) (hv : digits_value 0 ds < two64) :
    lex t (fuel + 1) ('-' :: ds)
      = if digits_value 0 ds > (two64 - 1) / 2 then .error (.runtime_error "Error ")
        else .ok [{ type := .signed_int, value := .int64_t (-(digits_value 0 ds : Int)) }] := by
  have hcp := consume_positive_number_digits t ds [] hne hds hv (by intro c hc; simp at hc)
  rw [List.append_nil] at hcp
  cases ds with
  | nil => exact absurd rfl hne
  | cons c tail =>
    have hstep : lex_step t '-' (c :: tail)
        = (consume_number t ('-' :: c :: tail)).map (fun r => (some r.1.token, r.2)) := rfl
    have hc := hds c (by simp)
    by_cases hgt : digits_value 0 (c :: tail) > (two64 - 1) / 2
    · simp only [lex, List.isEmpty_cons, Bool.false_eq_true, if_false, lex_loop, hstep,
        consume_number, if_true, hc, not_true_eq_false, hcp, bind, Except.bind, hgt, Except.map]
    · simp only [lex, List.isEmpty_cons, Bool.false_eq_true, if_false, lex_loop, hstep,
        consume_number, if_true, hc, not_true_eq_false, hcp, bind, Except.bind, hgt, Except.map,
        Number.token]

/-- The parser on the tokens of one number. -/
theorem parse_single_unsigned (fuel : Nat) (u : Nat) :
    parse (fuel + 1) [{ type := .unsigned_int, value := .uint64_t u }]
      = .ok (.unsigned_integer u) := by
  simp only [parse, parse_impl, bind, Except.bind]
  rfl

/-- The parser on the token of one signed integer. -/
theorem parse_single_signed (fuel : Nat) (i : Int) :
    parse (fuel + 1) [{ type := .signed_int, value := .int64_t i }] = .ok (.integer i) := by
  simp only [parse, parse_impl, bind, Except.bind]
  rfl

/-- C22: the decimal text of `n < 2 ^ 64` is read as the unsigned integer `n`; `-` followed
by the decimal text of `m`, `1 ≤ m ≤ 2 ^ 63 - 1`, is read as the signed integer `-m`; and
`-` followed by the decimal text of `k`, `2 ^ 63 ≤ k < 2 ^ 64`, is rejected with a parse
error.  Any budget of at least one round gives these results. -/
theorem parse_or_throw_decimal (t : Target) (fuel n m k : Nat) (hn : n < 2 ^ 64)
    (hm : 1 ≤ m ∧ m ≤ 2 ^ 63 - 1) (hk : 2 ^ 63 ≤ k ∧ k < 2 ^ 64) :
    parse_or_throw t (fuel + 1) (Nat.repr n).toList = .ok (.unsigned_integer n) ∧
    parse_or_throw t (fuel + 1) ('-' :: (Nat.repr m).toList) = .ok (.integer (-(m : Int))) ∧
    parse_or_throw t (fuel + 1) ('-' :: (Nat.repr k).toList)
      = .error (.runtime_error "Error ") := by
  have h64 : two64 = 2 ^ 64 := rfl
  refine ⟨?_, ?_, ?_⟩
  · obtain ⟨h1, h2, h3, _⟩ := repr_spec n
    have hl := lex_digits t fuel _ h1 h2 (by rw [h3]; exact hn)
    rw [h3] at hl
    simp only [parse_or_throw, hl, bind, Except.bind]
    exact parse_single_unsigned fuel n
  · obtain ⟨h1, h2, h3, _⟩ := repr_spec m
    have hl := lex_minus_digits t fuel _ h1 h2 (by rw [h3, h64]; omega)
    rw [h3, if_neg (by rw [h64]; omega)] at hl
    simp only [parse_or_throw, hl, bind, Except.bind]
    exact parse_single_signed fuel _
  · obtain ⟨h1, h2, h3, _⟩ := repr_spec k
    have hl := lex_minus_digits t fuel _ h1 h2 (by rw [h3, h64]; omega)
    rw [h3, if_pos (by rw [h64]; omega)] at hl
    simp only [parse_or_throw, hl, bind, Except.bind]

/-- C22 at the texts `243`, `-1` and `-9223372036854775808`. -/
theorem parse_or_throw_decimal_witness :
    (243 < 2 ^ 64 ∧ (1 ≤ 1 ∧ 1 ≤ 2 ^ 63 - 1) ∧ (2 ^ 63 ≤ 2 ^ 63 ∧ 2 ^ 63 < 2 ^ 64)) ∧
    (Nat.repr 243).toList = "243".toList ∧
    (Nat.repr (2 ^ 63)).toList = "9223372036854775808".toList ∧
    parse_or_throw Target.wrapping (0 + 1) (Nat.repr 243).toList
      = .ok (.unsigned_integer 243) ∧
    parse_or_throw Target.wrapping (0 + 1) ('-' :: (Nat.repr 1).toList)
      = .ok (.integer (-((1 : Nat) : Int))) ∧
    parse_or_throw Target.wrapping (0 + 1) ('-' :: (Nat.repr (2 ^ 63)).toList)
      = .error (.runtime_error "Error ") :=
  ⟨by decide, by decide, by decide,
   parse_or_throw_decimal Target.wrapping 0 243 1 (2 ^ 63) (by decide) (by decide) (by decide)⟩

/-! ## Duplicate keys (C26) -/

/-- The check of `parse_map` for a key that the map already has: when the value of the
entry parses, the loop throws. -/
theorem parse_map_loop_duplicate (fuel : Nat) (map : ValueMap) (name : Str) (c : TokenValue)
    (v : Token) (after : List Token) (r : Value × List Token)
    (hmap : ValueMap.contains map name = true) (hv : parse_impl fuel (v :: after) = .ok r) :
    parse_map_loop (fuel + 1) map
        ({ type := .identifier, value := .string_view name } :: { type := .colon, value := c }
          :: v :: after)
      = .error (.runtime_error "Error ") := by
  simp only [parse_map_loop, expect, if_true, bind, Except.bind, List.tail_cons, hv, hmap]

/-- C26, evaluated: `{a: 1, a: 2}` is rejected with a parse error, and `{a: 1, a: true}`,
in which the key `a` occurs twice as well, ends with `std::bad_variant_access`: the value
of the second entry is parsed before the key is looked up, and the keyword is a token
that `parse_impl` cannot read. -/
theorem parse_duplicate_key_with_keyword : ∀ (t : Target) (fuel : Nat),
    parse_or_throw t (fuel + 16) document_twice = .error (.runtime_error "Error ") ∧
    parse_or_throw t (fuel + 16) document_twice_true = .error .bad_variant_access :=
  fun t fuel =>
    ⟨parse_or_throw_add t 16 fuel _ _ rfl (by decide),
     parse_or_throw_add t 16 fuel _ _ rfl (by decide)⟩

/-! ## Missing commas and bare entries (C29) -/

/-- The check of `parse_array` after an element: a token that is neither a comma nor the
closing bracket makes the loop throw. -/
theorem parse_array_loop_missing_comma (fuel : Nat) (list : ValueList) (toks : List Token)
    (v : Value) (next : Token) (after : List Token) (hne : toks ≠ [])
    (hv : parse_impl fuel toks = .ok (v, next :: after)) (h1 : next.type ≠ .comma)
    (h2 : next.type ≠ .c_bracket) :
    parse_array_loop (fuel + 1) list toks = .error (.runtime_error "Error ") := by
  cases toks with
  | nil => exact absurd rfl hne
  | cons tok rest =>
    simp only [parse_array_loop, bind, Except.bind, hv, h1, h2, if_false]

/-- The check of `parse_map` at the start of an entry: a token that is not an identifier
makes the loop throw. -/
theorem parse_map_loop_not_identifier (fuel : Nat) (map : ValueMap) (tok : Token)
    (rest : List Token) (h : tok.type ≠ .identifier) :
    parse_map_loop (fuel + 1) map (tok :: rest) = .error (.runtime_error "Error ") := by
  simp only [parse_map_loop, expect, h, if_false, bind, Except.bind]

/-- C29, evaluated: `[1 2]` and the two failing documents of `parse_test.cpp` (without
their floating point numbers) are rejected with a parse error, while `[true 1]` and
`{a: true, 'rguub'}` end with `std::bad_variant_access`, thrown for the keyword before
the parser reaches the missing comma or the bare string. -/
theorem parse_missing_comma_after_keyword : ∀ (t : Target) (fuel : Nat),
    parse_or_throw t (fuel + 8) document_no_comma = .error (.runtime_error "Error ") ∧
    parse_or_throw t (fuel + 80) test_document_no_comma = .error (.runtime_error "Error ") ∧
    parse_or_throw t (fuel + 80) test_document_bare_string
      = .error (.runtime_error "Error ") ∧
    parse_or_throw t (fuel + 8) document_no_comma_true = .error .bad_variant_access ∧
    parse_or_throw t (fuel + 24) document_bare_string_true = .error .bad_variant_access :=
  fun t fuel =>
    ⟨parse_or_throw_add t 8 fuel _ _ rfl (by decide),
     parse_or_throw_add t 80 fuel _ _ rfl (by decide),
     parse_or_throw_add t 80 fuel _ _ rfl (by decide),
     parse_or_throw_add t 8 fuel _ _ rfl (by decide),
     parse_or_throw_add t 24 fuel _ _ rfl (by decide)⟩

/-! ## Termination of the lexer (C36) -/

/-- A round of `lex` that leaves the input as it is repeats for ever: whatever the budget,
the loop has not ended. -/
theorem lex_loop_stuck (t : Target) (c : Char) (rest : Str)
    (h : lex_step t c rest = .ok (none, c :: rest)) :
    ∀ fuel : Nat, lex_loop t fuel (c :: rest) = .error .out_of_fuel := by
  intro fuel
  induction fuel with
  | zero => rfl
  | succ fuel ih => simp only [lex_loop, h, ih, bind, Except.bind]

/-- C36, evaluated: on a text that starts with `@`, with a carriage return, with `.` or
with `_`, the loop of `lex` does not move `pos_`, so that no budget is enough for
`parse_or_throw` to return or throw: the `default` case handles letters and digits and
does nothing for any other character. -/
theorem lex_does_not_terminate : ∀ (t : Target) (fuel : Nat) (rest : Str),
    parse_or_throw t fuel ('@' :: rest) = .error .out_of_fuel ∧
    parse_or_throw t fuel ('\r' :: rest) = .error .out_of_fuel ∧
    parse_or_throw t fuel ('.' :: rest) = .error .out_of_fuel ∧
    parse_or_throw t fuel ('_' :: rest) = .error .out_of_fuel := by
  intro t fuel rest
  have h1 := lex_loop_stuck t '@' rest rfl fuel
  have h2 := lex_loop_stuck t '\r' rest rfl fuel
  have h3 := lex_loop_stuck t '.' rest rfl fuel
  have h4 := lex_loop_stuck t '_' rest rfl fuel
  simp only [parse_or_throw, lex, List.isEmpty_cons, Bool.false_eq_true, if_false,
    h1, h2, h3, h4, bind, Except.bind, and_self]

/-! ## The end of the token list (C37) -/

/-- C37, evaluated: on the text `{a: 1` the loop of `parse_map` reads
`tokens_[tok_index_]` with `tok_index_ = tokens_.size()`, which is undefined; `parse_array`
has the check that `parse_map` lacks and throws a parse error on `[1`. -/
theorem parse_map_reads_past_the_tokens : ∀ (t : Target) (fuel : Nat),
    parse_or_throw t (fuel + 8) document_open_map = .error .undefined ∧
    parse_or_throw t (fuel + 8) document_open_array = .error (.runtime_error "Error ") :=
  fun t fuel =>
    ⟨parse_or_throw_add t 8 fuel _ _ rfl (by decide),
     parse_or_throw_add t 8 fuel _ _ rfl (by decide)⟩

/-! ## `make_mask` (C31, C32) -/

/-- C31, evaluated: where the count of a 32-bit shift wraps, `make_mask(63, 0)` is
`2 ^ 32 - 1`, not `2 ^ 64 - 1`, and `make_mask(40, 32)` is `0x1FF`, not `0x1FF00000000`: the
mask is built from `1u << i`, a 32-bit shift.  On every target whose `1u << i` is a
32-bit value the mask stays below `2 ^ 32` (`make_mask_lt_of_shl32`); for `msb ≤ 31` the
mask is the one the claim states (`make_mask_eq`). -/
theorem make_mask_misses_bits_above_31 :
    make_mask Target.wrapping 63 0 = 2 ^ 32 - 1 ∧
    make_mask Target.wrapping 40 32 = 0x1FF ∧
    make_mask Target.wrapping 2 0 = 7 ∧
    make_mask Target.wrapping 5 3 = 56 := by
  decide

/-- With `msb` of 63 or more and a larger `lsb`, both are clamped to 63 and the loop runs
once, for bit 63: the mask is what `1u << 63` gives. -/
theorem make_mask_clamped (t : Target) (msb lsb : Nat) (h : 63 ≤ msb) (hl : msb < lsb) :
    make_mask t msb lsb = shl1u t 63 := by
  have h1 : (if msb > 63 then 63 else msb) = 63 := by split <;> omega
  have h2 : (if lsb > 63 then 63 else lsb) = 63 := by split <;> omega
  simp only [make_mask, h1, h2]
  simp [List.range']

/-- C32 (counterexample): `make_mask(63, 64)` has `lsb > msb` and is not 0 where the count
of a 32-bit shift wraps: both arguments are clamped to 63 and the loop runs for bit
63. -/
theorem make_mask_clamped_not_zero :
    63 < 64 ∧ make_mask Target.wrapping 63 64 = 2 ^ 31 ∧ make_mask Target.wrapping 63 64 ≠ 0 := by
  decide

/-- C32 (amended): for `lsb > msb` with `msb` below 63, `make_mask(msb, lsb)` is 0 on every
target. -/
theorem make_mask_eq_zero (t : Target) (msb lsb : Nat) (h : msb < lsb) (h63 : msb < 63) :
    make_mask t msb lsb = 0 := by
  have h1 : (if msb > 63 then 63 else msb) = msb := by split <;> omega
  have h2 : msb + 1 - (if lsb > 63 then 63 else lsb) = 0 := by split <;> omega
  simp only [make_mask, h1, h2]
  rfl

/-- C32 (amended) at `make_mask(1, 3)`. -/
theorem make_mask_eq_zero_witness : (1 < 3 ∧ 1 < 63) ∧ make_mask Target.wrapping 1 3 = 0 :=
  ⟨by decide, make_mask_eq_zero Target.wrapping 1 3 (by decide) (by decide)⟩

/-! ## The string tables (C33, C34) -/

/-- C33: `from_string` of the text that `to_string` writes gives the value back, for every
value of `Access`, `Protection`, `WriteType` and `Endian` and every value of `ReadType` but
`none`, for which it gives nothing. -/
theorem from_string_to_string :
    (∀ e : Access, Access.from_string e.to_string = some e) ∧
    (∀ e : Protection, Protection.from_string e.to_string = some e) ∧
    (∀ e : WriteType, WriteType.from_string e.to_string = some e) ∧
    (∀ e : Endian, Endian.from_string e.to_string = some e) ∧
    (∀ e : ReadType, ReadType.from_string e.to_string = if e = .none then none else some e) :=
  ⟨fun e => by cases e <;> decide, fun e => by cases e <;> decide,
   fun e => by cases e <;> decide, fun e => by cases e <;> decide,
   fun e => by cases e <;> decide⟩

/-- C34, evaluated: `from_string<Access>` gives nothing for `wo`, `rwo` and `wro`, the short
forms of the table in the comment of `enum class Access`; it maps `w1` and `writeOnce` to
`write_once` and `rw1`, `wr1` and `read-writeOnce` to `read_write_once`. -/
theorem Access.from_string_short_forms :
    Access.from_string "wo".toList = none ∧
    Access.from_string "rwo".toList = none ∧
    Access.from_string "wro".toList = none ∧
    Access.from_string "write-once".toList = some .write_once ∧
    Access.from_string "w1".toList = some .write_once ∧
    Access.from_string "writeOnce".toList = some .write_once ∧
    Access.from_string "read-write-once".toList = some .read_write_once ∧
    Access.from_string "rw1".toList = some .read_write_once ∧
    Access.from_string "wr1".toList = some .read_write_once ∧
    Access.from_string "read-writeOnce".toList = some .read_write_once := by
  decide

/-! ## `Value::convert_to` between integers (C35) -/

/-- The conversions between integers that do what C35 states: a signed integer to
`int64_t`, an unsigned integer to `uint64_t`, and an unsigned integer to `int64_t`, which
gives nothing above `2 ^ 63 - 1`. -/
theorem Value.convert_to_integral (t : Target) (i : Int) (u : Nat) :
    Value.convert_to_i64 t (.integer i) = some i ∧
    Value.convert_to_u64 t (.unsigned_integer u) = some u ∧
    Value.convert_to_i64 t (.unsigned_integer u)
      = if u > 2 ^ 63 - 1 then none else some (u : Int) :=
  ⟨rfl, rfl, rfl⟩

/-- C35, evaluated: `convert_to<uint64_t>()` of the signed integer -1 gives `2 ^ 64 - 1`
instead of no value.  Both range checks compare the `int64_t` with a `uint64_t` limit,
so the integer is converted to `uint64_t` first and neither check can fire. -/
theorem Value.convert_to_u64_of_negative : ∀ t : Target,
    Value.convert_to_u64 t (.integer (-1)) = some (2 ^ 64 - 1) ∧
    Value.convert_to_u64 t (.integer (-(2 ^ 63))) = some (2 ^ 63) ∧
    Value.convert_to_i64 t (.unsigned_integer (2 ^ 63)) = none :=
  fun _ => ⟨rfl, rfl, rfl⟩

/-! ## `derive` and nested maps (C38) -/

/-- C38, evaluated: `derive` returns on `nested_derived_document`, and in the result the
map `inner` of `m` still has its `derived_from` entry.  For a map with `derived_from`,
`do_derive` visits the maps under the keys of the base only; the branch for a map
without `derived_from` visits every nested map. -/
theorem derive_keeps_nested_derived_from :
    derive 8 nested_derived_document
      = .ok [("m".toList, Value.map
              [("inner".toList, Value.map [("derived_from".toList, Value.string "s".toList)]),
               ("y".toList, Value.unsigned_integer 3)]),
             ("s".toList, Value.map [("y".toList, Value.unsigned_integer 3)])] ∧
    derive 64 nested_derived_document = derive 8 nested_derived_document := by
  decide

/-! ## `validate` without groups (C39) -/

/-- A device that passes the checks of its members and has no group: `validate` reads
`groups.back()` of the empty vector. -/
theorem validate_of_no_groups (t : Target) (d : Device) (hg : d.groups = [])
    (hv : d.version = 1) (hw : 1 ≤ d.register_width ∧ d.register_width ≤ 64)
    (hr : 1 ≤ d.registers_per_page) (hn : 1 ≤ d.num_pages) :
    validate t d = .error .undefined := by
  have h1 : ¬ d.register_width > 64 := by omega
  have h2 : ¬ d.register_width < 1 := by omega
  have h3 : ¬ d.registers_per_page < 1 := by omega
  have h4 : ¬ d.num_pages < 1 := by omega
  simp only [validate, hv, ne_eq, not_true_eq_false, if_false, h1, h2, h3, h4]
  simp [validate_sizes, hg, for_each, validate_back, validate_group_ranges]

/-- C39, evaluated: on `paged_device []`, a device of version 1 with valid widths and
counts and without groups, `validate` reads `d->groups.back()` of the empty vector, which
is undefined. -/
theorem validate_reads_back_of_no_groups : ∀ t : Target,
    (paged_device []).groups = [] ∧ validate t (paged_device []) = .error .undefined :=
  fun t => ⟨rfl, validate_of_no_groups t _ rfl rfl (by decide) (by decide) (by decide)⟩

/-! ## Fields and the value of their register (C40) -/

/-- C40, evaluated where the count of a 32-bit shift wraps: the fields `lo` (bits 8..0)
and `hi` (bits 40..32) of `two_field_register` do not overlap, lie inside its 64 bits and
hold the bits of the register's value 1; `hi.set_value(0)` returns true and clears the
bits 8..0 of the register, so that `lo`, still 1, does not hold the bits of the register
any more.  The mask of `hi` is built from `1u << i` and is `0x1FF`. -/
theorem Field.set_value_breaks_other_field :
    two_field_register.num_bits = 64 ∧
    two_field_register_hi ∈ two_field_register.fields ∧
    Register.fields_match Target.wrapping two_field_register = true ∧
    (Field.set_value Target.wrapping two_field_register_hi two_field_register 0).1 = true ∧
    (Field.set_value Target.wrapping two_field_register_hi two_field_register 0).2.1
      = two_field_register_hi ∧
    (Field.set_value Target.wrapping two_field_register_hi two_field_register 0).2.2.value
      = 0 ∧
    Register.fields_match Target.wrapping
      (Field.set_value Target.wrapping two_field_register_hi two_field_register 0).2.2
      = false := by
  decide

/-! ## The round trip through the native format (C30) -/

/-- Induction over a value together with the entries of its maps and the elements of its
lists. -/
theorem Value.induction {P : Value → Prop} {M : List (Str × Value) → Prop}
    {L : List Value → Prop} (hmap : ∀ m, M m → P (.map m)) (hlist : ∀ l, L l → P (.list l))
    (hstring : ∀ s, P (.string s)) (hinteger : ∀ i, P (.integer i))
    (hunsigned : ∀ u, P (.unsigned_integer u)) (hfloat : ∀ d, P (.floating_point d))
    (hbool : ∀ b, P (.boolean b)) (hnil : M [])
    (hcons : ∀ key value rest, P value → M rest → M ((key, value) :: rest)) (hlnil : L [])
    (hlcons : ∀ value rest, P value → L rest → L (value :: rest)) : ∀ v, P v :=
  fun v => Value.rec (motive_1 := P) (motive_2 := M) (motive_3 := L)
    (motive_4 := fun p => P p.2) hmap hlist hstring hinteger hunsigned hfloat hbool hnil
    (fun head tail h1 h2 => hcons head.1 head.2 tail h1 h2) hlnil hlcons (fun _ _ h => h) v

/-- No string is below itself. -/
theorem string_less_irrefl : ∀ a : Str, string_less a a = false := by
  intro a
  induction a with
  | nil => rfl
  | cons c cs ih => simp [string_less, ih]

/-- Of two strings at most one is below the other. -/
theorem string_less_asymm : ∀ a b : Str, string_less a b = true → string_less b a = false := by
  intro a
  induction a with
  | nil =>
    intro b h
    cases b with
    | nil => rfl
    | cons c cs => rfl
  | cons c cs ih =>
    intro b h
    cases b with
    | nil => exact absurd h (by simp [string_less])
    | cons d ds =>
      simp only [string_less] at h ⊢
      by_cases h1 : c.toNat < d.toNat
      · have h2 : ¬ d.toNat < c.toNat := by omega
        simp [h1, h2]
      · by_cases h2 : d.toNat < c.toNat
        · simp [h1, h2] at h
        · simp only [h1, h2, if_false] at h ⊢
          exact ih ds h

/-- Inserting a key that is above all keys of the map appends the entry. -/
theorem ValueMap.insert_append (m : ValueMap) (key : Str) (value : Value)
    (h : ∀ e ∈ m, string_less e.1 key = true) :
    ValueMap.insert m key value = m ++ [(key, value)] := by
  have hfind : find_if (fun e : Str × Value => string_less key e.1) m = m.length := by
    unfold find_if
    rw [List.findIdx_eq_length]
    intro e he
    simp [string_less_asymm _ _ (h e he)]
  have hc : ValueMap.contains m key = false := by
    rw [ValueMap.contains_eq_false_iff]
    unfold ValueMap.find
    rw [Option.map_eq_none', List.find?_eq_none]
    intro e he hk
    have hlt := h e he
    rw [decide_eq_true_eq] at hk
    rw [hk, string_less_irrefl] at hlt
    exact absurd hlt (by decide)
  simp only [ValueMap.insert, hc, Bool.false_eq_true, if_false, hfind, vec_insert]
  simp

/-- Reading nothing. -/
theorem Lexes.nil (t : Target) (s : Str) : Lexes t [] [] s := fun _ _ h => h

/-- Two pieces that are read one after the other are read as one piece. -/
theorem Lexes.append {t : Target} {a b s : Str} {ta tb : List Token}
    (ha : Lexes t a ta (b ++ s)) (hb : Lexes t b tb s) : Lexes t (a ++ b) (ta ++ tb) s := by
  intro fuel r h
  have h2 := ha (fuel + b.length) (tb ++ r) (hb fuel r h)
  rw [List.length_append, List.append_assoc, List.append_assoc,
    show fuel + (a.length + b.length) = fuel + b.length + a.length by omega]
  exact h2

/-- A piece that one round of `lex` consumes is read as the token of that round. -/
theorem Lexes.step (t : Target) (c : Char) (p s : Str) (o : Option Token)
    (h : lex_step t c (p ++ s) = .ok (o, s)) : Lexes t (c :: p) o.toList s := by
  intro fuel r hr
  have hm : lex_loop t (fuel + p.length) s = .ok r := by
    rw [lex_loop_mono t fuel (fuel + p.length) s (by omega) (by rw [hr]; exact fun hc => by cases hc),
      hr]
  rw [List.length_cons, show fuel + (p.length + 1) = fuel + p.length + 1 by omega,
    List.cons_append]
  simp only [lex_loop, h, hm, bind, Except.bind]
  cases o <;> rfl

/-- A line break is skipped. -/
theorem Lexes.newline (t : Target) (s : Str) : Lexes t ['\n'] [] s :=
  Lexes.step t '\n' [] s none rfl

/-- A blank is skipped. -/
theorem Lexes.blank (t : Target) (s : Str) : Lexes t [' '] [] s :=
  Lexes.step t ' ' [] s none rfl

/-- Blanks are skipped. -/
theorem Lexes.blanks (t : Target) (s : Str) : ∀ n : Nat, Lexes t (List.replicate n ' ') [] s := by
  intro n
  induction n with
  | zero => exact Lexes.nil t s
  | succ n ih => exact Lexes.append (a := [' ']) (Lexes.blank t _) ih

/-- The opening brace. -/
theorem Lexes.o_brace (t : Target) (s : Str) :
    Lexes t ['\x7b'] [{ type := .o_brace, value := .char '\x7b' }] s :=
  Lexes.step t '\x7b' [] s (some _) rfl

/-- The closing brace. -/
theorem Lexes.c_brace (t : Target) (s : Str) :
    Lexes t ['\x7d'] [{ type := .c_brace, value := .char '\x7d' }] s :=
  Lexes.step t '\x7d' [] s (some _) rfl

/-- The opening bracket. -/
theorem Lexes.o_bracket (t : Target) (s : Str) :
    Lexes t ['['] [{ type := .o_bracket, value := .char '[' }] s :=
  Lexes.step t '[' [] s (some _) rfl

/-- The closing bracket. -/
theorem Lexes.c_bracket (t : Target) (s : Str) :
    Lexes t [']'] [{ type := .c_bracket, value := .char ']' }] s :=
  Lexes.step t ']' [] s (some _) rfl

/-- The colon. -/
theorem Lexes.colon (t : Target) (s : Str) :
    Lexes t [':'] [{ type := .colon, value := .char ':' }] s :=
  Lexes.step t ':' [] s (some _) rfl

/-- The comma. -/
theorem Lexes.comma (t : Target) (s : Str) :
    Lexes t [','] [{ type := .comma, value := .char ',' }] s :=
  Lexes.step t ',' [] s (some _) rfl

/-- Decimal digits of a value below `2 ^ 64`, before a character that ends a number, are
read as the unsigned integer of that value. -/
theorem Lexes.digits (t : Target) (ds s : Str) (hne : ds ≠ [])
    (hds : ∀ c ∈ ds, is_number c = true) (hv : digits_value 0 ds < two64)
    (hs : ends_number s) :
    Lexes t ds [{ type := .unsigned_int, value := .uint64_t (digits_value 0 ds) }] s := by
  have hcp := consume_positive_number_digits t ds s hne hds hv hs
  cases ds with
  | nil => exact absurd rfl hne
  | cons c tail =>
    apply Lexes.step t c tail s (some _)
    rw [lex_step_of_is_number t c _ (hds c (by simp))]
    rw [List.cons_append] at hcp
    rw [hcp]
    rfl

/-- The sign `-` and decimal digits of a value of at most `2 ^ 63 - 1`, before a character
that ends a number, are read as the negative signed integer. -/
theorem Lexes.minus_digits (t : Target) (ds s : Str) (hne : ds ≠ [])
    (hds : ∀ c ∈ ds, is_number c = true) (hv : digits_value 0 ds ≤ 2 ^ 63 - 1)
    (hs : ends_number s) :
    Lexes t ('-' :: ds)
      [{ type := .signed_int, value := .int64_t (-(digits_value 0 ds : Int)) }] s := by
  have h64 : two64 = 2 ^ 64 := rfl
  have hcp := consume_positive_number_digits t ds s hne hds (by rw [h64]; omega) hs
  cases ds with
  | nil => exact absurd rfl hne
  | cons c tail =>
    apply Lexes.step t '-' (c :: tail) s (some _)
    have hstep : lex_step t '-' (c :: tail ++ s)
        = (consume_number t ('-' :: (c :: tail ++ s))).map (fun r => (some r.1.token, r.2)) :=
      rfl
    have hc := hds c (by simp)
    have hgt : ¬ digits_value 0 (c :: tail) > (two64 - 1) / 2 := by rw [h64]; omega
    rw [hstep]
    simp only [consume_number, if_true, List.cons_append, hc, not_true_eq_false, if_false]
    rw [List.cons_append] at hcp
    simp only [hcp, bind, Except.bind, hgt, if_false, Except.map, Number.token]

/-- The loop of `consume_string` on characters without the quote and the backslash, up to
the closing quote. -/
theorem consume_string_loop_spec (q : Char) (str rest : Str)
    (h : ∀ c ∈ str, c ≠ q ∧ c ≠ Char.ofNat 92) :
    ∀ prev : Char, prev ≠ Char.ofNat 92 →
      consume_string_loop q prev (str ++ q :: rest) = .ok (str, rest) := by
  induction str with
  | nil =>
    intro prev hp
    simp only [List.nil_append, consume_string_loop, hp, ne_eq, not_false_eq_true, and_self,
      if_true]
  | cons c cs ih =>
    intro prev _
    have hc := h c (by simp)
    rw [List.cons_append]
    simp only [consume_string_loop, hc.1, false_and, if_false,
      ih (fun d hd => h d (List.mem_cons_of_mem _ hd)) c hc.2, Except.map]

/-- A string without the single quote and the backslash between single quotes is read as
the string token of its characters. -/
theorem Lexes.string (t : Target) (str s : Str)
    (h : ∀ c ∈ str, c ≠ Char.ofNat 39 ∧ c ≠ Char.ofNat 92) :
    Lexes t (Char.ofNat 39 :: (str ++ [Char.ofNat 39]))
      [{ type := .string, value := .string_view str }] s := by
  apply Lexes.step t (Char.ofNat 39) (str ++ [Char.ofNat 39]) s (some _)
  have hstep : ∀ rest, lex_step t (Char.ofNat 39) rest
      = (consume_string (Char.ofNat 39 :: rest)).map
          (fun r => (some { type := .string, value := .string_view r.1 }, r.2)) :=
    fun _ => rfl
  have hloop := consume_string_loop_spec (Char.ofNat 39) str s h (Char.ofNat 39) (by decide)
  rw [hstep, List.append_assoc, List.singleton_append]
  have hcs : consume_string (Char.ofNat 39 :: (str ++ Char.ofNat 39 :: s))
      = consume_string_loop (Char.ofNat 39) (Char.ofNat 39) (str ++ Char.ofNat 39 :: s) := by
    cases str <;> rfl
  rw [hcs, hloop]
  rfl

/-- A keyword without a blank starts a text that continues with a blank exactly when it
starts the text before the blank. -/
theorem starts_with_append_blank (kw : Str) (hkw : ' ' ∉ kw) :
    ∀ a s : Str, starts_with (a ++ ' ' :: s) kw = starts_with a kw := by
  induction kw with
  | nil => intro a s; cases a <;> rfl
  | cons x xs ih =>
    intro a s
    have hx : ' ' ≠ x := fun hc => hkw (hc ▸ List.mem_cons_self _ _)
    cases a with
    | nil => simp [starts_with, hx]
    | cons y ys =>
      rw [List.cons_append]
      simp only [starts_with]
      rw [ih (fun hc => hkw (List.mem_cons_of_mem _ hc))]

/-- The loop of `consume_identifier` stops at a blank. -/
theorem consume_identifier_loop_spec (tail s : Str)
    (h : ∀ c ∈ tail, is_identfier_char c = true) :
    consume_identifier_loop (tail ++ ' ' :: s) = (tail, ' ' :: s) := by
  induction tail with
  | nil => rfl
  | cons c cs ih =>
    have hc := h c (by simp)
    rw [List.cons_append]
    simp only [consume_identifier_loop, hc, if_true,
      ih (fun d hd => h d (List.mem_cons_of_mem _ hd))]

/-- The round of `lex` on a letter that does not start a keyword reads an identifier. -/
theorem lex_step_of_is_letter (t : Target) (c : Char) (rest : Str) (h : is_letter c = true)
    (h1 : starts_with (c :: rest) "true".toList = false)
    (h2 : starts_with (c :: rest) "false".toList = false) :
    lex_step t c rest
      = (consume_identifier (c :: rest)).map
          (fun r => (some { type := .identifier, value := .string_view r.1 }, r.2)) := by
  have ne : ∀ d : Char, is_letter d = false → c ≠ d := by
    intro d hd hc
    rw [hc, hd] at h
    exact absurd h (by decide)
  simp only [lex_step, ne '\x7b' (by decide), ne '\x7d' (by decide), ne '[' (by decide),
    ne ']' (by decide), ne ':' (by decide), ne ',' (by decide), ne (Char.ofNat 39) (by decide),
    ne (Char.ofNat 34) (by decide), ne '-' (by decide), ne '\n' (by decide), ne ' ' (by decide),
    ne '\t' (by decide), ne (Char.ofNat 11) (by decide), ne (Char.ofNat 12) (by decide), h, h1,
    h2, or_self, if_false, if_true, Bool.false_eq_true, ite_self]

/-- An identifier before a blank is read as the identifier token of its characters. -/
theorem Lexes.identifier (t : Target) (key s : Str) (h : is_identifier key = true) :
    Lexes t key [{ type := .identifier, value := .string_view key }] (' ' :: s) := by
  cases key with
  | nil => exact absurd h (by simp [is_identifier])
  | cons c tail =>
    simp only [is_identifier, Bool.and_eq_true, List.all_eq_true, Bool.not_eq_true'] at h
    obtain ⟨⟨⟨hc, htail⟩, h1⟩, h2⟩ := h
    apply Lexes.step t c tail (' ' :: s) (some _)
    have e1 := starts_with_append_blank "true".toList (by decide) (c :: tail) s
    have e2 := starts_with_append_blank "false".toList (by decide) (c :: tail) s
    rw [List.cons_append] at e1 e2
    rw [lex_step_of_is_letter t c _ hc (by rw [e1]; exact h1) (by rw [e2]; exact h2)]
    simp only [consume_identifier, consume_identifier_loop_spec tail s htail, Except.map]

/-- The empty input and an input that starts with a line break or a comma end a
number. -/
theorem ends_number_of_head (s : Str) (h : s = [] ∨ s.head? = some '\n' ∨ s.head? = some ',') :
    ends_number s := by
  intro c hc
  rcases h with h | h | h
  · rw [h] at hc
    simp at hc
  · rw [h] at hc
    simp only [Option.mem_def, Option.some.injEq] at hc
    subst hc
    decide
  · rw [h] at hc
    simp only [Option.mem_def, Option.some.injEq] at hc
    subst hc
    decide

/-- The text that `to_string_impl` writes for a value of `Value.round_trips` is read by the
loop of `lex` as the tokens of the value, whatever the indentation, when the text is
followed by the end of the input, a line break or a comma. -/
theorem Lexes.value (t : Target) : ∀ v : Value, Value.round_trips v = true →
    ∀ (k : Nat) (s : Str), (s = [] ∨ s.head? = some '\n' ∨ s.head? = some ',') →
      Lexes t (to_string_impl t v 2 k) (Value.tokens v) s := by
  refine Value.induction
    (P := fun v => Value.round_trips v = true →
      ∀ (k : Nat) (s : Str), (s = [] ∨ s.head? = some '\n' ∨ s.head? = some ',') →
        Lexes t (to_string_impl t v 2 k) (Value.tokens v) s)
    (M := fun m => ValueMap.round_trips m = true →
      ∀ (k : Nat) (s : Str), (s = [] ∨ s.head? = some '\n' ∨ s.head? = some ',') →
        Lexes t (to_string_impl_map t m 2 k) (ValueMap.tokens m) s)
    (L := fun l => ValueList.round_trips l = true →
      ∀ (k : Nat) (s : Str), (s = [] ∨ s.head? = some '\n' ∨ s.head? = some ',') →
        Lexes t (to_string_impl_list t l 2 k) (ValueList.tokens l) s)
    ?_ ?_ ?_ ?_ ?_ ?_ ?_ ?_ ?_ ?_ ?_
  · -- a map
    intro m ih hm k s _
    have hm2 : ValueMap.round_trips m = true := by simpa [Value.round_trips] using hm
    have e1 : to_string_impl t (.map m) 2 k
        = ['\x7b'] ++ (to_string_impl_map t m 2 k
            ++ (['\n'] ++ (List.replicate (2 * k) ' ' ++ ['\x7d']))) := by
      simp [to_string_impl]
    have e2 : Value.tokens (.map m)
        = [{ type := .o_brace, value := .char '\x7b' }] ++ (ValueMap.tokens m
            ++ ([] ++ ([] ++ [{ type := .c_brace, value := .char '\x7d' }]))) := by
      simp [Value.tokens]
    rw [e1, e2]
    refine Lexes.append (Lexes.o_brace t _) (Lexes.append (ih hm2 k _ (Or.inr (Or.inl ?_)))
      (Lexes.append (Lexes.newline t _) (Lexes.append (Lexes.blanks t _ _) (Lexes.c_brace t _))))
    simp
  · -- a list
    intro l ih hl k s _
    have hl2 : ValueList.round_trips l = true := by simpa [Value.round_trips] using hl
    have e1 : to_string_impl t (.list l) 2 k
        = ['['] ++ (to_string_impl_list t l 2 k
            ++ (['\n'] ++ (List.replicate (2 * k) ' ' ++ [']']))) := by
      simp [to_string_impl]
    have e2 : Value.tokens (.list l)
        = [{ type := .o_bracket, value := .char '[' }] ++ (ValueList.tokens l
            ++ ([] ++ ([] ++ [{ type := .c_bracket, value := .char ']' }]))) := by
      simp [Value.tokens]
    rw [e1, e2]
    refine Lexes.append (Lexes.o_bracket t _) (Lexes.append (ih hl2 k _ (Or.inr (Or.inl ?_)))
      (Lexes.append (Lexes.newline t _) (Lexes.append (Lexes.blanks t _ _) (Lexes.c_bracket t _))))
    simp
  · -- a string
    intro str hs k s _
    have hstr : ∀ c ∈ str, c ≠ Char.ofNat 39 ∧ c ≠ Char.ofNat 92 := by
      simpa [Value.round_trips] using hs
    have e1 : to_string_impl t (.string str) 2 k = Char.ofNat 39 :: (str ++ [Char.ofNat 39]) := by
      simp [to_string_impl]
    rw [e1]
    exact Lexes.string t str s hstr
  · -- a signed integer
    intro i hi k s hs
    have hi2 : -(2 ^ 63) < i ∧ i < 2 ^ 63 := by simpa [Value.round_trips] using hi
    by_cases hneg : i < 0
    · obtain ⟨h1, h2, h3, _⟩ := repr_spec i.natAbs
      have e1 : to_string_impl t (.integer i) 2 k = '-' :: (Nat.repr i.natAbs).toList := by
        simp [to_string_impl, format_int, hneg]
      have e2 : Value.tokens (.integer i)
          = [{ type := .signed_int,
               value := .int64_t (-(digits_value 0 (Nat.repr i.natAbs).toList : Int)) }] := by
        simp only [Value.tokens, hneg, if_true, h3]
        congr 3
        omega
      rw [e1, e2]
      exact Lexes.minus_digits t _ s h1 h2 (by rw [h3]; omega) (ends_number_of_head s hs)
    · obtain ⟨h1, h2, h3, _⟩ := repr_spec i.toNat
      have h64 : two64 = 2 ^ 64 := rfl
      have e1 : to_string_impl t (.integer i) 2 k = (Nat.repr i.toNat).toList := by
        simp [to_string_impl, format_int, hneg]
      have e2 : Value.tokens (.integer i)
          = [{ type := .unsigned_int,
               value := .uint64_t (digits_value 0 (Nat.repr i.toNat).toList) }] := by
        simp only [Value.tokens, hneg, if_false, h3]
      rw [e1, e2]
      exact Lexes.digits t _ s h1 h2 (by rw [h3, h64]; omega) (ends_number_of_head s hs)
  · -- an unsigned integer
    intro u hu k s hs
    have hu2 : u < 2 ^ 64 := by simpa [Value.round_trips] using hu
    obtain ⟨h1, h2, h3, _⟩ := repr_spec u
    have e1 : to_string_impl t (.unsigned_integer u) 2 k = (Nat.repr u).toList := by
      simp [to_string_impl]
    have e2 : Value.tokens (.unsigned_integer u)
        = [{ type := .unsigned_int, value := .uint64_t (digits_value 0 (Nat.repr u).toList) }] := by
      simp only [Value.tokens, h3]
    rw [e1, e2]
    exact Lexes.digits t _ s h1 h2 (by rw [h3]; exact hu2) (ends_number_of_head s hs)
  · intro d hd
    exact absurd hd (by simp [Value.round_trips])
  · intro b hb
    exact absurd hb (by simp [Value.round_trips])
  · -- no entries
    intro _ k s _
    exact Lexes.nil t s
  · -- an entry and the entries after it
    intro key value rest ihv ihr hm k s hs
    simp only [ValueMap.round_trips, Bool.and_eq_true] at hm
    obtain ⟨⟨⟨hkey, _⟩, hvalue⟩, hrest⟩ := hm
    cases rest with
    | nil =>
      have e1 : to_string_impl_map t [(key, value)] 2 k
          = ['\n'] ++ (List.replicate (2 * (k + 1)) ' ' ++ (key ++ (' ' :: ([':'] ++ ([' ']
              ++ (to_string_impl t value 2 (k + 1) ++ [])))))) := by
        simp [to_string_impl_map]
      have e2 : ValueMap.tokens [(key, value)]
          = [] ++ ([] ++ ([{ type := .identifier, value := .string_view key }]
              ++ ([] ++ ([{ type := .colon, value := .char ':' }] ++ ([] ++ (Value.tokens value
              ++ [])))))) := by
        simp [ValueMap.tokens]
      rw [e1, e2]
      exact Lexes.append (Lexes.newline t _) (Lexes.append (Lexes.blanks t _ _)
        (Lexes.append (Lexes.identifier t key _ hkey) (Lexes.append (a := [' ']) (Lexes.blank t _)
          (Lexes.append (Lexes.colon t _) (Lexes.append (Lexes.blank t _)
            (Lexes.append (ihv hvalue (k + 1) _ hs) (Lexes.nil t s)))))))
    | cons e es =>
      have e1 : to_string_impl_map t ((key, value) :: e :: es) 2 k
          = ['\n'] ++ (List.replicate (2 * (k + 1)) ' ' ++ (key ++ (' ' :: ([':'] ++ ([' ']
              ++ (to_string_impl t value 2 (k + 1) ++ ([','] ++
                to_string_impl_map t (e :: es) 2 k))))))) := by
        simp [to_string_impl_map]
      have e2 : ValueMap.tokens ((key, value) :: e :: es)
          = [] ++ ([] ++ ([{ type := .identifier, value := .string_view key }]
              ++ ([] ++ ([{ type := .colon, value := .char ':' }] ++ ([] ++ (Value.tokens value
              ++ ([{ type := .comma, value := .char ',' }] ++ ValueMap.tokens (e :: es)))))))) := by
        simp [ValueMap.tokens]
      rw [e1, e2]
      exact Lexes.append (Lexes.newline t _) (Lexes.append (Lexes.blanks t _ _)
        (Lexes.append (Lexes.identifier t key _ hkey) (Lexes.append (a := [' ']) (Lexes.blank t _)
          (Lexes.append (Lexes.colon t _) (Lexes.append (Lexes.blank t _)
            (Lexes.append (ihv hvalue (k + 1) _ (Or.inr (Or.inr rfl)))
              (Lexes.append (Lexes.comma t _) (ihr hrest k s hs))))))))
  · -- no elements
    intro _ k s _
    exact Lexes.nil t s
  · -- an element and the elements after it
    intro value rest ihv ihr hl k s hs
    simp only [ValueList.round_trips, Bool.and_eq_true] at hl
    obtain ⟨hvalue, hrest⟩ := hl
    cases rest with
    | nil =>
      have e1 : to_string_impl_list t [value] 2 k
          = ['\n'] ++ (List.replicate (2 * (k + 1)) ' '
              ++ (to_string_impl t value 2 (k + 1) ++ [])) := by
        simp [to_string_impl_list]
      have e2 : ValueList.tokens [value] = [] ++ ([] ++ (Value.tokens value ++ [])) := by
        simp [ValueList.tokens]
      rw [e1, e2]
      exact Lexes.append (Lexes.newline t _) (Lexes.append (Lexes.blanks t _ _)
        (Lexes.append (ihv hvalue (k + 1) _ hs) (Lexes.nil t s)))
    | cons e es =>
      have e1 : to_string_impl_list t (value :: e :: es) 2 k
          = ['\n'] ++ (List.replicate (2 * (k + 1)) ' '
              ++ (to_string_impl t value 2 (k + 1) ++ ([','] ++
                to_string_impl_list t (e :: es) 2 k))) := by
        simp [to_string_impl_list]
      have e2 : ValueList.tokens (value :: e :: es)
          = [] ++ ([] ++ (Value.tokens value
              ++ ([{ type := .comma, value := .char ',' }] ++ ValueList.tokens (e :: es)))) := by
        simp [ValueList.tokens]
      rw [e1, e2]
      exact Lexes.append (Lexes.newline t _) (Lexes.append (Lexes.blanks t _ _)
        (Lexes.append (ihv hvalue (k + 1) _ (Or.inr (Or.inr rfl)))
          (Lexes.append (Lexes.comma t _) (ihr hrest k s hs))))

/-- The tokens of a value start with a token that is no closing brace or bracket. -/
theorem Value.tokens_head (v : Value) :
    ∃ tok toks, Value.tokens v = tok :: toks ∧ tok.type ≠ .c_bracket ∧ tok.type ≠ .c_brace := by
  cases v with
  | map m => exact ⟨_, _, rfl, by simp, by simp⟩
  | list l => exact ⟨_, _, rfl, by simp, by simp⟩
  | string s => exact ⟨_, _, rfl, by simp, by simp⟩
  | integer i =>
    by_cases h : i < 0
    · exact ⟨{ type := .signed_int, value := .int64_t i }, [],
        by simp only [Value.tokens, h, if_true], by simp, by simp⟩
    · exact ⟨{ type := .unsigned_int, value := .uint64_t i.toNat }, [],
        by simp only [Value.tokens, h, if_false], by simp, by simp⟩
  | unsigned_integer u => exact ⟨_, _, rfl, by simp, by simp⟩
  | floating_point d => exact ⟨_, _, rfl, by simp, by simp⟩
  | boolean b => exact ⟨_, _, rfl, by simp, by simp⟩

/-- The last round of the loop of `parse_map`: an entry whose value parses and whose key
is new, followed by the closing brace. -/
theorem parse_map_loop_last (fuel : Nat) (acc : ValueMap) (key : Str) (c : TokenValue)
    (value : Value) (toks rest : List Token) (close : Token) (hne : toks ≠ [])
    (hclose : close.type = .c_brace)
    (hv : parse_impl fuel (toks ++ close :: rest) = .ok (value, close :: rest))
    (hacc : ValueMap.contains acc key = false) :
    parse_map_loop (fuel + 1) acc
        ({ type := .identifier, value := .string_view key } :: { type := .colon, value := c }
          :: (toks ++ close :: rest))
      = .ok (ValueMap.insert acc key value, rest) := by
  cases toks with
  | nil => exact absurd rfl hne
  | cons tok toks =>
    rw [List.cons_append] at hv ⊢
    simp only [parse_map_loop, expect, if_true, bind, Except.bind, List.tail_cons, hv, hacc,
      Bool.false_eq_true, if_false, hclose]
    rfl

/-- A round of the loop of `parse_map` that another one follows: an entry whose value
parses and whose key is new, followed by a comma and a token other than the closing
brace. -/
theorem parse_map_loop_next (fuel : Nat) (acc : ValueMap) (key : Str) (c : TokenValue)
    (value : Value) (toks rest : List Token) (comma next : Token) (hne : toks ≠ [])
    (hcomma : comma.type = .comma) (hnext : next.type ≠ .c_brace)
    (hv : parse_impl fuel (toks ++ comma :: next :: rest) = .ok (value, comma :: next :: rest))
    (hacc : ValueMap.contains acc key = false) :
    parse_map_loop (fuel + 1) acc
        ({ type := .identifier, value := .string_view key } :: { type := .colon, value := c }
          :: (toks ++ comma :: next :: rest))
      = parse_map_loop fuel (ValueMap.insert acc key value) (next :: rest) := by
  cases toks with
  | nil => exact absurd rfl hne
  | cons tok toks =>
    rw [List.cons_append] at hv ⊢
    simp only [parse_map_loop, expect, if_true, bind, Except.bind, List.tail_cons, hv, hacc,
      Bool.false_eq_true, if_false, hcomma, hnext]

/-- The last round of the loop of `parse_array`: an element that parses, followed by the
closing bracket. -/
theorem parse_array_loop_last (fuel : Nat) (acc : ValueList) (value : Value)
    (toks rest : List Token) (close : Token) (hne : toks ≠ [])
    (hclose : close.type = .c_bracket)
    (hv : parse_impl fuel (toks ++ close :: rest) = .ok (value, close :: rest)) :
    parse_array_loop (fuel + 1) acc (toks ++ close :: rest) = .ok (acc ++ [value], rest) := by
  cases toks with
  | nil => exact absurd rfl hne
  | cons tok toks =>
    rw [List.cons_append] at hv ⊢
    simp only [parse_array_loop, bind, Except.bind, hv, hclose]
    rfl

/-- A round of the loop of `parse_array` that another one follows: an element that
parses, followed by a comma and a token other than the closing bracket. -/
theorem parse_array_loop_next (fuel : Nat) (acc : ValueList) (value : Value)
    (toks rest : List Token) (comma next : Token) (hne : toks ≠ [])
    (hcomma : comma.type = .comma) (hnext : next.type ≠ .c_bracket)
    (hv : parse_impl fuel (toks ++ comma :: next :: rest) = .ok (value, comma :: next :: rest)) :
    parse_array_loop (fuel + 1) acc (toks ++ comma :: next :: rest)
      = parse_array_loop fuel (acc ++ [value]) (next :: rest) := by
  cases toks with
  | nil => exact absurd rfl hne
  | cons tok toks =>
    rw [List.cons_append] at hv ⊢
    simp only [parse_array_loop, bind, Except.bind, hv, hcomma, hnext, if_true, if_false]

/-- A key that is above all keys of a map is not a key of the map. -/
theorem ValueMap.contains_of_all_less (m : ValueMap) (key : Str)
    (h : ∀ e ∈ m, string_less e.1 key = true) : ValueMap.contains m key = false := by
  rw [ValueMap.contains_eq_false_iff]
  unfold ValueMap.find
  rw [Option.map_eq_none', List.find?_eq_none]
  intro e he hk
  have hlt := h e he
  rw [decide_eq_true_eq] at hk
  rw [hk, string_less_irrefl] at hlt
  exact absurd hlt (by decide)

/-- The parser on the tokens of a value of `Value.round_trips`, followed by any tokens:
it returns the value as it is read back and stops after the tokens of the value, under any
budget of at least the number of these tokens. -/
theorem parse_impl_tokens : ∀ v : Value, Value.round_trips v = true →
    ∀ (fuel : Nat) (rest : List Token), (Value.tokens v).length ≤ fuel →
      parse_impl fuel (Value.tokens v ++ rest) = .ok (Value.reread v, rest) := by
  refine Value.induction
    (P := fun v => Value.round_trips v = true →
      ∀ (fuel : Nat) (rest : List Token), (Value.tokens v).length ≤ fuel →
        parse_impl fuel (Value.tokens v ++ rest) = .ok (Value.reread v, rest))
    (M := fun m => ValueMap.round_trips m = true → m ≠ [] →
      ∀ (fuel : Nat) (acc : ValueMap) (rest : List Token) (close : Token),
        close.type = .c_brace → (∀ a ∈ acc, ∀ e ∈ m, string_less a.1 e.1 = true) →
        (ValueMap.tokens m).length ≤ fuel →
        parse_map_loop fuel acc (ValueMap.tokens m ++ close :: rest)
          = .ok (acc ++ ValueMap.reread m, rest))
    (L := fun l => ValueList.round_trips l = true → l ≠ [] →
      ∀ (fuel : Nat) (acc : ValueList) (rest : List Token) (close : Token),
        close.type = .c_bracket → (ValueList.tokens l).length + 1 ≤ fuel →
        parse_array_loop fuel acc (ValueList.tokens l ++ close :: rest)
          = .ok (acc ++ ValueList.reread l, rest))
    ?_ ?_ ?_ ?_ ?_ ?_ ?_ ?_ ?_ ?_ ?_
  · -- a map
    intro m ih hm fuel rest hfuel
    have hm2 : ValueMap.round_trips m = true := by simpa [Value.round_trips] using hm
    have hlen : (Value.tokens (.map m)).length = (ValueMap.tokens m).length + 2 := by
      simp [Value.tokens]
    obtain ⟨f, rfl⟩ : ∃ f, fuel = f + 1 := ⟨fuel - 1, by omega⟩
    have e1 : Value.tokens (.map m) ++ rest
        = { type := .o_brace, value := .char '\x7b' }
          :: (ValueMap.tokens m ++ { type := .c_brace, value := .char '\x7d' } :: rest) := by
      simp [Value.tokens]
    rw [e1]
    simp only [parse_impl, Value.reread]
    cases m with
    | nil => rfl
    | cons e es =>
      have hbody : parse_map_body (parse_map_loop f)
            (ValueMap.tokens (e :: es) ++ { type := .c_brace, value := .char '\x7d' } :: rest)
          = parse_map_loop f []
            (ValueMap.tokens (e :: es) ++ { type := .c_brace, value := .char '\x7d' } :: rest) := by
        obtain ⟨key, value⟩ := e
        rfl
      rw [hbody, ih hm2 (by simp) f [] rest _ rfl (by simp) (by omega)]
      rfl
  · -- a list
    intro l ih hl fuel rest hfuel
    have hl2 : ValueList.round_trips l = true := by simpa [Value.round_trips] using hl
    have hlen : (Value.tokens (.list l)).length = (ValueList.tokens l).length + 2 := by
      simp [Value.tokens]
    obtain ⟨f, rfl⟩ : ∃ f, fuel = f + 1 := ⟨fuel - 1, by omega⟩
    have e1 : Value.tokens (.list l) ++ rest
        = { type := .o_bracket, value := .char '[' }
          :: (ValueList.tokens l ++ { type := .c_bracket, value := .char ']' } :: rest) := by
      simp [Value.tokens]
    rw [e1]
    simp only [parse_impl, Value.reread]
    cases l with
    | nil => rfl
    | cons e es =>
      have hbody : parse_array_body (parse_array_loop f)
            (ValueList.tokens (e :: es) ++ { type := .c_bracket, value := .char ']' } :: rest)
          = parse_array_loop f []
            (ValueList.tokens (e :: es) ++ { type := .c_bracket, value := .char ']' } :: rest) := by
        obtain ⟨tok, toks, htoks, hty, _⟩ := Value.tokens_head e
        simp only [ValueList.tokens, htoks, List.cons_append, parse_array_body, hty, if_false]
      rw [hbody, ih hl2 (by simp) f [] rest _ rfl (by omega)]
      rfl
  · -- a string
    intro s _ fuel rest hfuel
    obtain ⟨f, rfl⟩ : ∃ f, fuel = f + 1 := ⟨fuel - 1, by simp [Value.tokens] at hfuel; omega⟩
    rfl
  · -- a signed integer
    intro i _ fuel rest hfuel
    by_cases hneg : i < 0
    · have hnn : ¬ 0 ≤ i := by omega
      simp only [Value.tokens, hneg, if_true, List.length_singleton] at hfuel ⊢
      obtain ⟨f, rfl⟩ : ∃ f, fuel = f + 1 := ⟨fuel - 1, by omega⟩
      simp only [Value.reread, hnn, if_false]
      rfl
    · have hnn : 0 ≤ i := by omega
      simp only [Value.tokens, hneg, if_false, List.length_singleton] at hfuel ⊢
      obtain ⟨f, rfl⟩ : ∃ f, fuel = f + 1 := ⟨fuel - 1, by omega⟩
      simp only [Value.reread, hnn, if_true]
      rfl
  · -- an unsigned integer
    intro u _ fuel rest hfuel
    obtain ⟨f, rfl⟩ : ∃ f, fuel = f + 1 := ⟨fuel - 1, by simp [Value.tokens] at hfuel; omega⟩
    rfl
  · intro d hd
    exact absurd hd (by simp [Value.round_trips])
  · intro b hb
    exact absurd hb (by simp [Value.round_trips])
  · -- no entries
    intro _ h
    exact absurd rfl h
  · -- an entry and the entries after it
    intro key value es ihv ihr hm _ fuel acc rest close hclose hacc hfuel
    simp only [ValueMap.round_trips, Bool.and_eq_true, List.all_eq_true] at hm
    obtain ⟨⟨⟨_, hless⟩, hvalue⟩, hes⟩ := hm
    obtain ⟨tok, toks, htoks, _, _⟩ := Value.tokens_head value
    have hne : Value.tokens value ≠ [] := by rw [htoks]; simp
    have hkey : ValueMap.contains acc key = false :=
      ValueMap.contains_of_all_less acc key (fun a ha => hacc a ha (key, value) (by simp))
    have hins : ValueMap.insert acc key (Value.reread value)
        = acc ++ [(key, Value.reread value)] :=
      ValueMap.insert_append acc key _ (fun a ha => hacc a ha (key, value) (by simp))
    cases es with
    | nil =>
      have hlen : (ValueMap.tokens [(key, value)]).length = (Value.tokens value).length + 2 := by
        simp [ValueMap.tokens]
      obtain ⟨f, rfl⟩ : ∃ f, fuel = f + 1 := ⟨fuel - 1, by omega⟩
      have e1 : ValueMap.tokens [(key, value)] ++ close :: rest
          = { type := .identifier, value := .string_view key }
            :: { type := .colon, value := .char ':' } :: (Value.tokens value ++ close :: rest) := by
        simp [ValueMap.tokens]
      rw [e1, parse_map_loop_last f acc key _ (Value.reread value) _ rest close hne hclose
        (ihv hvalue f _ (by omega)) hkey, hins]
      rfl
    | cons e es =>
      obtain ⟨key2, value2⟩ := e
      have hlen : (ValueMap.tokens ((key, value) :: (key2, value2) :: es)).length
          = (Value.tokens value).length + 3 + (ValueMap.tokens ((key2, value2) :: es)).length := by
        simp [ValueMap.tokens]
        omega
      obtain ⟨f, rfl⟩ : ∃ f, fuel = f + 1 := ⟨fuel - 1, by omega⟩
      have htoks2 : ValueMap.tokens ((key2, value2) :: es)
          = { type := .identifier, value := .string_view key2 }
            :: ({ type := .colon, value := .char ':' } :: Value.tokens value2
              ++ (if es.isEmpty then [] else [{ type := .comma, value := .char ',' }])
              ++ ValueMap.tokens es) := rfl
      have e1 : ValueMap.tokens ((key, value) :: (key2, value2) :: es) ++ close :: rest
          = { type := .identifier, value := .string_view key }
            :: { type := .colon, value := .char ':' } :: (Value.tokens value
              ++ { type := .comma, value := .char ',' }
                :: (ValueMap.tokens ((key2, value2) :: es) ++ close :: rest)) := by
        simp [ValueMap.tokens]
      rw [e1, htoks2, List.cons_append,
        parse_map_loop_next f acc key _ (Value.reread value) _ _ _ _ hne rfl (by simp)
          (ihv hvalue f _ (by omega)) hkey, hins, ← List.cons_append, ← htoks2]
      rw [ihr hes (by simp) f _ rest close hclose ?_ (by omega)]
      · simp [ValueMap.reread]
      · intro a ha e he
        rw [List.mem_append, List.mem_singleton] at ha
        rcases ha with ha | ha
        · exact hacc a ha e (List.mem_cons_of_mem _ he)
        · rw [ha]
          exact hless e he
  · -- no elements
    intro _ h
    exact absurd rfl h
  · -- an element and the elements after it
    intro value es ihv ihr hl _ fuel acc rest close hclose hfuel
    simp only [ValueList.round_trips, Bool.and_eq_true] at hl
    obtain ⟨hvalue, hes⟩ := hl
    obtain ⟨tok, toks, htoks, _, _⟩ := Value.tokens_head value
    have hne : Value.tokens value ≠ [] := by rw [htoks]; simp
    cases es with
    | nil =>
      have hlen : (ValueList.tokens [value]).length = (Value.tokens value).length := by
        simp [ValueList.tokens]
      have hpos : 1 ≤ (Value.tokens value).length := by rw [htoks]; simp
      obtain ⟨f, rfl⟩ : ∃ f, fuel = f + 1 := ⟨fuel - 1, by omega⟩
      have e1 : ValueList.tokens [value] ++ close :: rest
          = Value.tokens value ++ close :: rest := by
        simp [ValueList.tokens]
      rw [e1, parse_array_loop_last f acc (Value.reread value) _ rest close hne hclose
        (ihv hvalue f _ (by omega))]
      rfl
    | cons e es =>
      have hlen : (ValueList.tokens (value :: e :: es)).length
          = (Value.tokens value).length + 1 + (ValueList.tokens (e :: es)).length := by
        simp [ValueList.tokens]
        omega
      obtain ⟨f, rfl⟩ : ∃ f, fuel = f + 1 := ⟨fuel - 1, by omega⟩
      obtain ⟨tok2, toks2, htoks2, hty2, _⟩ := Value.tokens_head e
      have htoks3 : ValueList.tokens (e :: es)
          = tok2 :: (toks2 ++ (if es.isEmpty then [] else [{ type := .comma, value := .char ',' }])
              ++ ValueList.tokens es) := by
        simp only [ValueList.tokens, htoks2, List.cons_append]
      have e1 : ValueList.tokens (value :: e :: es) ++ close :: rest
          = Value.tokens value ++ { type := .comma, value := .char ',' }
              :: (ValueList.tokens (e :: es) ++ close :: rest) := by
        simp [ValueList.tokens]
      rw [e1, htoks3, List.cons_append,
        parse_array_loop_next f acc (Value.reread value) _ _ _ _ hne rfl hty2
          (ihv hvalue f _ (by omega)), ← List.cons_append, ← htoks3]
      rw [ihr hes (by simp) f _ rest close hclose (by omega)]
      simp [ValueList.reread]

/-- A value whose signed integers are all negative is read back as it is. -/
theorem Value.reread_eq_self : ∀ v : Value, Value.signed_leaves_negative v = true →
    Value.reread v = v := by
  refine Value.induction
    (P := fun v => Value.signed_leaves_negative v = true → Value.reread v = v)
    (M := fun m => ValueMap.signed_leaves_negative m = true → ValueMap.reread m = m)
    (L := fun l => ValueList.signed_leaves_negative l = true → ValueList.reread l = l)
    ?_ ?_ ?_ ?_ ?_ ?_ ?_ ?_ ?_ ?_ ?_
  · intro m ih h
    simp only [Value.signed_leaves_negative] at h
    simp only [Value.reread, ih h]
  · intro l ih h
    simp only [Value.signed_leaves_negative] at h
    simp only [Value.reread, ih h]
  · intro s _; rfl
  · intro i h
    simp only [Value.signed_leaves_negative, decide_eq_true_eq] at h
    have hnn : ¬ 0 ≤ i := by omega
    simp only [Value.reread, hnn, if_false]
  · intro u _; rfl
  · intro d _; rfl
  · intro b _; rfl
  · intro _; rfl
  · intro key value rest ihv ihr h
    simp only [ValueMap.signed_leaves_negative, Bool.and_eq_true] at h
    simp only [ValueMap.reread, ihv h.1, ihr h.2]
  · intro _; rfl
  · intro value rest ihv ihr h
    simp only [ValueList.signed_leaves_negative, Bool.and_eq_true] at h
    simp only [ValueList.reread, ihv h.1, ihr h.2]

/-- The text of a value of `Value.round_trips` has at least as many characters as the
value has tokens. -/
theorem Value.tokens_length_le (t : Target) : ∀ v : Value, Value.round_trips v = true →
    ∀ k : Nat, (Value.tokens v).length ≤ (to_string_impl t v 2 k).length := by
  refine Value.induction
    (P := fun v => Value.round_trips v = true →
      ∀ k : Nat, (Value.tokens v).length ≤ (to_string_impl t v 2 k).length)
    (M := fun m => ValueMap.round_trips m = true →
      ∀ k : Nat, (ValueMap.tokens m).length ≤ (to_string_impl_map t m 2 k).length)
    (L := fun l => ValueList.round_trips l = true →
      ∀ k : Nat, (ValueList.tokens l).length ≤ (to_string_impl_list t l 2 k).length)
    ?_ ?_ ?_ ?_ ?_ ?_ ?_ ?_ ?_ ?_ ?_
  · intro m ih hm k
    have hm2 : ValueMap.round_trips m = true := by simpa [Value.round_trips] using hm
    have := ih hm2 k
    simp only [Value.tokens, to_string_impl, List.length_append, List.length_cons,
      List.length_nil, List.length_replicate, String.toList, String.length]
    simp
    omega
  · intro l ih hl k
    have hl2 : ValueList.round_trips l = true := by simpa [Value.round_trips] using hl
    have := ih hl2 k
    simp only [Value.tokens, to_string_impl, List.length_append, List.length_cons,
      List.length_nil, List.length_replicate]
    simp
    omega
  · intro s _ k
    simp [Value.tokens, to_string_impl]
  · intro i _ k
    by_cases hneg : i < 0
    · simp [Value.tokens, to_string_impl, format_int, hneg]
    · have h1 := (repr_spec i.toNat).1
      have : 1 ≤ (Nat.repr i.toNat).toList.length := by
        cases h : (Nat.repr i.toNat).toList with
        | nil => exact absurd h h1
        | cons a l => simp
      simp only [Value.tokens, to_string_impl, format_int, hneg, if_false, List.length_singleton]
      exact this
  · intro u _ k
    have h1 := (repr_spec u).1
    have : 1 ≤ (Nat.repr u).toList.length := by
      cases h : (Nat.repr u).toList with
      | nil => exact absurd h h1
      | cons a l => simp
    simp only [Value.tokens, to_string_impl, List.length_singleton]
    exact this
  · intro d hd
    exact absurd hd (by simp [Value.round_trips])
  · intro b hb
    exact absurd hb (by simp [Value.round_trips])
  · intro _ k
    simp [ValueMap.tokens]
  · intro key value rest ihv ihr hm k
    simp only [ValueMap.round_trips, Bool.and_eq_true] at hm
    have h1 := ihv hm.1.2 (k + 1)
    have h2 := ihr hm.2 k
    simp only [ValueMap.tokens, to_string_impl_map, List.length_append, List.length_cons,
      List.length_replicate]
    cases rest <;> simp <;> omega
  · intro _ k
    simp [ValueList.tokens]
  · intro value rest ihv ihr hl k
    simp only [ValueList.round_trips, Bool.and_eq_true] at hl
    have h1 := ihv hl.1 (k + 1)
    have h2 := ihr hl.2 k
    simp only [ValueList.tokens, to_string_impl_list, List.length_append, List.length_cons,
      List.length_replicate]
    cases rest <;> simp <;> omega

/-- C30 (amended): on a map of `ValueMap.round_trips`, `rds_deserialize` of the text of
`rds_serialize` returns, under any budget of at least the length of the text, the map in
which every signed integer that is not negative has become the unsigned integer of the
same value; it returns the map itself when all of its signed integers are negative. -/
theorem rds_round_trip (t : Target) (m : ValueMap) (fuel : Nat)
    (hm : ValueMap.round_trips m = true) (hfuel : (rds_serialize t m).length ≤ fuel) :
    rds_deserialize t fuel (rds_serialize t m) = .ok (ValueMap.reread m) ∧
    (ValueMap.signed_leaves_negative m = true →
      rds_deserialize t fuel (rds_serialize t m) = .ok m) := by
  have hv : Value.round_trips (.map m) = true := by simpa [Value.round_trips] using hm
  have hlex := Lexes.value t (.map m) hv 0 [] (Or.inl rfl) 0 [] rfl
  rw [List.append_nil, List.append_nil, Nat.zero_add] at hlex
  have htext : rds_serialize t m = to_string_impl t (.map m) 2 0 := rfl
  have hlex2 : lex_loop t fuel (rds_serialize t m) = .ok (Value.tokens (.map m)) := by
    rw [htext] at hfuel ⊢
    rw [← hlex]
    exact lex_loop_mono t _ fuel _ hfuel (by rw [hlex]; exact fun hc => by cases hc)
  have hne : (rds_serialize t m).isEmpty = false := rfl
  have hlen := Value.tokens_length_le t (.map m) hv 0
  have hparse := parse_impl_tokens (.map m) hv fuel []
    (Nat.le_trans hlen hfuel)
  rw [List.append_nil] at hparse
  have h1 : rds_deserialize t fuel (rds_serialize t m) = .ok (ValueMap.reread m) := by
    simp only [rds_deserialize, parse_or_throw, lex, hne, Bool.false_eq_true, if_false, hlex2,
      parse, hparse, bind, Except.bind, ne_eq, not_true_eq_false, Value.reread]
  refine ⟨h1, fun hs => ?_⟩
  have h2 := Value.reread_eq_self (.map m) (by simpa [Value.signed_leaves_negative] using hs)
  simp only [Value.reread, Value.map.injEq] at h2
  rw [h1, h2]

/-- C30 (amended) on `map_nested_sample`, whose text has 86 characters. -/
theorem rds_round_trip_witness :
    (ValueMap.round_trips map_nested_sample = true ∧
      (rds_serialize Target.wrapping map_nested_sample).length ≤ 86) ∧
    rds_deserialize Target.wrapping 86 (rds_serialize Target.wrapping map_nested_sample)
      = .ok (ValueMap.reread map_nested_sample) ∧
    (ValueMap.signed_leaves_negative map_nested_sample = true →
      rds_deserialize Target.wrapping 86 (rds_serialize Target.wrapping map_nested_sample)
        = .ok map_nested_sample) :=
  ⟨by decide, rds_round_trip Target.wrapping map_nested_sample 86 (by decide) (by decide)⟩

/-- C30 (counterexample): the map with the signed leaf `a = 1` is written as `a : 1` and
read back with the unsigned leaf `a = 1`, which is another value. -/
theorem rds_round_trip_changes_signed_leaf :
    ValueMap.round_trips map_signed_leaf = true ∧
    rds_deserialize Target.wrapping 64 (rds_serialize Target.wrapping map_signed_leaf)
      = .ok [("a".toList, Value.unsigned_integer 1)] ∧
    rds_deserialize Target.wrapping 64 (rds_serialize Target.wrapping map_signed_leaf)
      ≠ .ok map_signed_leaf := by
  decide

end rds
